import Mathlib

/-!
# Indicator library of `market/data.go`

A shallow embedding of the scalar indicators (`calculateEMA`, `calculateMACD`,
`calculateRSI`, `calculateATR`), of the aggregators (`calculateIntradaySeries`,
`calculateLongerTermData`), of the snapshot assembler `Get`, of `Normalize` and
of `Format`.

Conventions of the embedding.

* A Go `float64` is a rational number. Every arithmetic operation of the source
  is the exact rational operation followed by a rounding function `rnd`, which
  is a parameter of each embedded function: `exactArith` (no rounding) gives the
  real-number reading of the formulas, `binary64` gives round-to-nearest-even
  on a 53 bit significand with gradual underflow. These rounded rationals have
  no largest number: they describe the runs in which no operation overflows.
  The source is read with one rounding per operation (no fused multiply-add).
* A run has the value `none` when the Go run panics (slice index out of
  range) or divides by zero (the Go result is a NaN or an infinity, which is
  not a rational number).
* The infinities and the NaN of float64 are the values of `F64`, whose
  operations round with `round64` (`binary64`, and an infinity on overflow).
  `calculateRSI64` and `calculateATR64` are `calculateRSI` and `calculateATR`
  on these values; they also give the runs in which an operation overflows.
* A Go `int` is an integer; a conversion `float64(n)` is taken to be exact on
  the rounded rationals and is rounded by `F64.ofInt`.
* A nil pointer is `none`; the pointer fields of `Data` are options.
* What the source calls outside the repository (the indicator library
  `go-talib`, the candle source, HTTP, JSON and number parsing, the case table
  of `unicode.ToUpper`, the `fmt` verbs) is a parameter: the fields of `World`
  and of `FloatFormat`.
-/

namespace Market

/-! ## Data model -/

/-- Modelled from the spec: the declaration of the `Kline` type is not among the
source files. One OHLCV candle (spec §3 "Candle": open, high, low, close and
volume, all floating point); `data.go` reads the fields `High`, `Low`, `Close`
and `Volume`. -/
structure Kline where
  Open : ℚ
  High : ℚ
  Low : ℚ
  Close : ℚ
  Volume : ℚ
deriving DecidableEq

/-- Modelled from the spec: the declaration of the `OIData` type is not among the
source files. Open interest `{latest, average}` (spec §3); `data.go` writes the
fields `Latest` and `Average`. -/
structure OIData where
  Latest : ℚ
  Average : ℚ
deriving DecidableEq

/-- Modelled from the spec: the declaration of the `IntradayData` type is not
among the source files. The indicator sequences of the short timeframe (spec §3
"IndicatorSeries"); the fields are the ones `calculateIntradaySeries` and
`Format` use. -/
structure IntradayData where
  MidPrices : List ℚ
  EMA5Values : List ℚ
  EMA20Values : List ℚ
  EMA50Values : List ℚ
  MACDValues : List ℚ
  MACDSignalValues : List ℚ
  MACDHistValues : List ℚ
  RSI7Values : List ℚ
  RSI14Values : List ℚ
  Adx7Values : List ℚ
  Adx14Values : List ℚ
deriving DecidableEq

/-- Modelled from the spec: the declaration of the `LongerTermData` type is not
among the source files. The context of one timeframe (spec §3
"TimeframeContext"); the fields are the ones `calculateLongerTermData` and
`Format` use. -/
structure LongerTermData where
  EMA5 : ℚ
  EMA20 : ℚ
  EMA50 : ℚ
  ATR3 : ℚ
  ATR14 : ℚ
  CurrentVolume : ℚ
  AverageVolume : ℚ
  MACDValues : List ℚ
  MacdSignalValues : List ℚ
  MACDHistValues : List ℚ
  RSI14Values : List ℚ
deriving DecidableEq

/-- Modelled from the spec: the declaration of the `Data` type is not among the
source files. The snapshot (spec §3 "MarketSnapshot"); the fields are the ones
`Get` writes. `OpenInterest`, `IntradaySeries`, `MiddleTermContext` and
`LongerTermContext` are pointers (`Get` stores `&OIData{...}` and the results of
the aggregators, `Format` compares the first three with `nil`): `none` is the
nil pointer. -/
structure Data where
  Symbol : String
  CurrentPrice : ℚ
  PriceChange1h : ℚ
  PriceChange4h : ℚ
  CurrentEMA20 : ℚ
  CurrentMACD : ℚ
  CurrentRSI7 : ℚ
  OpenInterest : Option OIData
  FundingRate : ℚ
  IntradaySeries : Option IntradayData
  MiddleTermContext : Option LongerTermData
  LongerTermContext : Option LongerTermData
deriving DecidableEq

/-- What `data.go` calls outside the repository. The third-party library
`go-talib` (sequence indicators; `none` is a panic), the candle source
`WSMonitorCli.GetCurrentKlines`, the HTTP and parsing calls of the standard
library used by `getOpenInterestData` and `getFundingRate`, and the case table
of the standard library used by `strings.ToUpper`. -/
structure World where
  /-- `talib.Macd(inReal, fast, slow, signal)`: the MACD, signal and histogram
  sequences. -/
  Macd : List ℚ → Int → Int → Int → Option (List ℚ × List ℚ × List ℚ)
  /-- `talib.Ema(inReal, period)`. -/
  Ema : List ℚ → Int → Option (List ℚ)
  /-- `talib.Rsi(inReal, period)`. -/
  Rsi : List ℚ → Int → Option (List ℚ)
  /-- `talib.Adx(inHigh, inLow, inClose, period)`. -/
  Adx : List ℚ → List ℚ → List ℚ → Int → Option (List ℚ)
  /-- `WSMonitorCli.GetCurrentKlines(symbol, interval)`: the candles or an error. -/
  GetCurrentKlines : String → String → Except String (List Kline)
  /-- `http.Get(url)` followed by `io.ReadAll(resp.Body)`: the body or an error. -/
  httpGetBody : String → Except String String
  /-- `json.Unmarshal` of an open-interest body: the `openInterest` field or an
  error. -/
  unmarshalOpenInterest : String → Except String String
  /-- `json.Unmarshal` of a premium-index body: the `lastFundingRate` field or an
  error. -/
  unmarshalLastFundingRate : String → Except String String
  /-- `strconv.ParseFloat(s, 64)` with its error discarded. -/
  parseFloat : String → ℚ
  /-- The upper case of a rune outside ASCII in `unicode.ToUpper`: the case table
  of the Unicode standard (for instance the long s `ſ` has the upper case `S`). -/
  unicodeUpper : Char → Char

/-! ## Go primitives -/

/-- A rounding function: the value stored for the exact result of an operation. -/
abbrev Rounding := ℚ → ℚ

/-- Exact arithmetic: nothing is rounded. -/
def exactArith : Rounding := fun q => q

/-- The quotient `n / d` rounded to the nearest natural number, ties to even. -/
def roundHalfEven (n d : Nat) : Nat :=
  let q := n / d
  let r := n % d
  if 2 * r < d then q
  else if d < 2 * r then q + 1
  else if q % 2 = 0 then q else q + 1

/-- Scale the fraction `n / d` by `2 ^ (-e)`, as a pair (numerator, denominator). -/
def scaleFraction (n d : Nat) (e : Int) : Nat × Nat :=
  if 0 ≤ e then (n, d * 2 ^ e.toNat) else (n * 2 ^ (-e).toNat, d)

/-- Halve `n` until it is below 2, at most `fuel` times; the number of halvings. -/
def log2Aux : Nat → Nat → Nat
  | 0, _ => 0
  | fuel + 1, n => if n < 2 then 0 else log2Aux fuel (n / 2) + 1

/-- The position of the leading bit of `n`: the floor of its binary logarithm
(0 for `n = 0`). -/
def log2Floor (n : Nat) : Nat := log2Aux n n

/-- The exponent of the last place of the float64 nearest to the positive
fraction `n / d`: the `e` for which `2^52 <= (n / d) / 2^e < 2^53`, and -1074
when that exponent is lower (below `2^-1022` the float64 numbers keep the
spacing `2^-1074`: gradual underflow). -/
def ulpExponent (n d : Nat) : Int :=
  let e0 : Int := (log2Floor n : Int) - (log2Floor d : Int) - 52
  let e1 : Int :=
    if 2 ^ 52 * (scaleFraction n d e0).2 ≤ (scaleFraction n d e0).1 then e0 else e0 - 1
  max e1 (-1074)

/-- The positive fraction `n / d` rounded to a multiple of its last place
`2^e`, to nearest and ties to even: `roundHalfEven((n / d) / 2^e) * 2^e`. -/
def roundMagnitude (n d : Nat) : ℚ :=
  (roundHalfEven (scaleFraction n d (ulpExponent n d)).1
    (scaleFraction n d (ulpExponent n d)).2 : ℚ) * (2 : ℚ) ^ ulpExponent n d

/-- IEEE 754 binary64 rounding of a rational number: round to nearest, ties to
even, on a 53 bit significand, with gradual underflow. The exponent is not
bounded above: this is the float64 result whenever it is at most `maxFloat64`,
that is, whenever the operation does not overflow; `round64` is the rounding
with overflow. -/
def binary64 : Rounding := fun x =>
  if x = 0 then 0
  else if x < 0 then -roundMagnitude x.num.natAbs x.den
  else roundMagnitude x.num.natAbs x.den

/-- The binary64 number nearest to 0.1, `3602879701896397 / 2^55`. -/
def tenth : ℚ := 3602879701896397 / 36028797018963968

/-- Float addition `a + b`. -/
def fadd (rnd : Rounding) (a b : ℚ) : ℚ := rnd (a + b)

/-- Float subtraction `a - b`. -/
def fsub (rnd : Rounding) (a b : ℚ) : ℚ := rnd (a - b)

/-- Float multiplication `a * b`. -/
def fmul (rnd : Rounding) (a b : ℚ) : ℚ := rnd (a * b)

/-- Float division `a / b`; no rational value when the divisor is zero. -/
def fdiv (rnd : Rounding) (a b : ℚ) : Option ℚ :=
  if b = 0 then none else some (rnd (a / b))

/-- Slice indexing `xs[i]`; panics when `i` is out of range. -/
def index {α : Type} (xs : List α) (i : Int) : Option α :=
  if i < 0 then none else xs[i.toNat]?

/-- The loop `for i := lo; i < hi; i++ { acc = body(i, acc) }` with a body that
may panic. -/
def forLoop {σ : Type} (lo hi : Int) (body : Int → σ → Option σ) (init : σ) : Option σ :=
  (List.range (hi - lo).toNat).foldlM (fun acc (k : Nat) => body (lo + (k : Int)) acc) init

/-! ## Indicators -/

/-- `calculateEMA` (data.go:97). -/
def calculateEMA (rnd : Rounding) (klines : List Kline) (period : Int) : Option ℚ :=
  if (klines.length : Int) < period then some 0
  else do
    let sum ← forLoop 0 period
      (fun i sum => do
        let k ← index klines i
        pure (fadd rnd sum k.Close)) 0
    let ema ← fdiv rnd sum (period : ℚ)
    let multiplier ← fdiv rnd 2 ((period + 1 : Int) : ℚ)
    forLoop period klines.length
      (fun i ema => do
        let k ← index klines i
        pure (fadd rnd (fmul rnd (fsub rnd k.Close ema) multiplier) ema)) ema

/-- `calculateMACD` (data.go:119). -/
def calculateMACD (rnd : Rounding) (klines : List Kline) : Option ℚ :=
  if klines.length < 26 then some 0
  else do
    let ema12 ← calculateEMA rnd klines 12
    let ema26 ← calculateEMA rnd klines 26
    pure (fsub rnd ema12 ema26)

/-- `calculateRSI` (data.go:133). The loop state is the pair
`(gains, losses)`, then the pair `(avgGain, avgLoss)`. -/
def calculateRSI (rnd : Rounding) (klines : List Kline) (period : Int) : Option ℚ :=
  if (klines.length : Int) ≤ period then some 0
  else do
    let sums ← forLoop 1 (period + 1)
      (fun i st => do
        let k ← index klines i
        let kp ← index klines (i - 1)
        let change := fsub rnd k.Close kp.Close
        if change > 0 then pure (fadd rnd st.1 change, st.2)
        else pure (st.1, fadd rnd st.2 (-change))) ((0, 0) : ℚ × ℚ)
    let avgGain ← fdiv rnd sums.1 (period : ℚ)
    let avgLoss ← fdiv rnd sums.2 (period : ℚ)
    let avgs ← forLoop (period + 1) klines.length
      (fun i st => do
        let k ← index klines i
        let kp ← index klines (i - 1)
        let change := fsub rnd k.Close kp.Close
        if change > 0 then do
          let g ← fdiv rnd (fadd rnd (fmul rnd st.1 ((period - 1 : Int) : ℚ)) change) (period : ℚ)
          let l ← fdiv rnd (fmul rnd st.2 ((period - 1 : Int) : ℚ)) (period : ℚ)
          pure (g, l)
        else do
          let g ← fdiv rnd (fmul rnd st.1 ((period - 1 : Int) : ℚ)) (period : ℚ)
          let l ← fdiv rnd (fadd rnd (fmul rnd st.2 ((period - 1 : Int) : ℚ)) (-change)) (period : ℚ)
          pure (g, l)) (avgGain, avgLoss)
    if avgs.2 = 0 then some 100
    else do
      let rs ← fdiv rnd avgs.1 avgs.2
      let q ← fdiv rnd 100 (fadd rnd 1 rs)
      pure (fsub rnd 100 q)

/-- The true range computed in the first loop of `calculateATR` (data.go:184-192)
for the candle `k` and the candle `kp` before it. -/
def trueRange (rnd : Rounding) (kp k : Kline) : ℚ :=
  let high := k.High
  let low := k.Low
  let prevClose := kp.Close
  let tr1 := fsub rnd high low
  let tr2 := |fsub rnd high prevClose|
  let tr3 := |fsub rnd low prevClose|
  max tr1 (max tr2 tr3)

/-- Slice assignment `xs[i] = v`; panics when `i` is out of range. -/
def setIndex {α : Type} (xs : List α) (i : Int) (v : α) : Option (List α) :=
  if i < 0 ∨ (xs.length : Int) ≤ i then none else some (xs.set i.toNat v)

/-- `calculateATR` (data.go:177). -/
def calculateATR (rnd : Rounding) (klines : List Kline) (period : Int) : Option ℚ :=
  if (klines.length : Int) ≤ period then some 0
  else do
    let trs ← forLoop 1 klines.length
      (fun i trs => do
        let k ← index klines i
        let kp ← index klines (i - 1)
        setIndex trs i (trueRange rnd kp k)) (List.replicate klines.length (0 : ℚ))
    let sum ← forLoop 1 (period + 1)
      (fun i sum => do
        let t ← index trs i
        pure (fadd rnd sum t)) 0
    let atr ← fdiv rnd sum (period : ℚ)
    forLoop (period + 1) klines.length
      (fun i atr => do
        let t ← index trs i
        fdiv rnd (fadd rnd (fmul rnd atr ((period - 1 : Int) : ℚ)) t) (period : ℚ)) atr

/-- `unicode.ToUpper` on one rune. On an ASCII rune the standard library
subtracts 32 from the letters `a` to `z` and leaves every other rune unchanged
(which is `Char.toUpper`); beyond ASCII it looks the rune up in its case table
`table`. -/
def toUpperRune (table : Char → Char) (c : Char) : Char :=
  if c.toNat < 128 then c.toUpper else table c

/-- `strings.ToUpper`: `unicode.ToUpper` applied to every rune of the string. -/
def ToUpper (table : Char → Char) (s : String) : String := ⟨s.data.map (toUpperRune table)⟩

/-- `strings.HasSuffix`. -/
def HasSuffix (s suffix : String) : Bool := suffix.data.isSuffixOf s.data

/-- `Normalize` (data.go:530). -/
def Normalize (table : Char → Char) (symbol : String) : String :=
  let symbol := ToUpper table symbol
  if HasSuffix symbol "USDT" then symbol
  else symbol ++ "USDT"

/-- `calculateIntradaySeries` (data.go:211). -/
def calculateIntradaySeries (w : World) (klines : List Kline) : Option IntradayData := do
  let midPrices := klines.map (fun k => k.Close)
  let macd ← w.Macd midPrices 12 26 9
  let ema5 ← w.Ema midPrices 5
  let ema20 ← w.Ema midPrices 20
  let ema50 ← w.Ema midPrices 50
  let rsi7 ← w.Rsi midPrices 7
  let rsi14 ← w.Rsi midPrices 14
  let adx7 ← w.Adx midPrices midPrices midPrices 7
  let adx14 ← w.Adx midPrices midPrices midPrices 14
  pure {
    MidPrices := midPrices
    EMA5Values := ema5
    EMA20Values := ema20
    EMA50Values := ema50
    MACDValues := macd.1
    MACDSignalValues := macd.2.1
    MACDHistValues := macd.2.2
    RSI7Values := rsi7
    RSI14Values := rsi14
    Adx7Values := adx7
    Adx14Values := adx14 }

/-- `calculateLongerTermData` (data.go:282). -/
def calculateLongerTermData (rnd : Rounding) (w : World) (klines : List Kline) :
    Option LongerTermData := do
  let ema5 ← calculateEMA rnd klines 5
  let ema20 ← calculateEMA rnd klines 20
  let ema50 ← calculateEMA rnd klines 50
  let atr3 ← calculateATR rnd klines 3
  let atr14 ← calculateATR rnd klines 14
  let volumes ←
    if klines.length > 0 then do
      let last ← index klines ((klines.length : Int) - 1)
      let sum := klines.foldl (fun sum k => fadd rnd sum k.Volume) 0
      let average ← fdiv rnd sum (klines.length : ℚ)
      pure (last.Volume, average)
    else pure ((0, 0) : ℚ × ℚ)
  let closed := klines.map (fun k => k.Close)
  let macd ← w.Macd closed 12 26 9
  let rsi14 ← w.Rsi closed 14
  pure {
    EMA5 := ema5
    EMA20 := ema20
    EMA50 := ema50
    ATR3 := atr3
    ATR14 := atr14
    CurrentVolume := volumes.1
    AverageVolume := volumes.2
    MACDValues := macd.1
    MacdSignalValues := macd.2.1
    MACDHistValues := macd.2.2
    RSI14Values := rsi14 }

/-- `getOpenInterestData` (data.go:336): the open interest or an error. The
constant `0.999` is the rounded value of 999/1000. -/
def getOpenInterestData (rnd : Rounding) (w : World) (symbol : String) : Except String OIData := do
  let url := "https://fapi.binance.com/fapi/v1/openInterest?symbol=" ++ symbol
  let body ← w.httpGetBody url
  let result ← w.unmarshalOpenInterest body
  let oi := w.parseFloat result
  pure { Latest := oi, Average := fmul rnd oi (rnd (999 / 1000)) }

/-- `getFundingRate` (data.go:369): the Go pair `(rate, err)`; the rate is 0
whenever there is an error. -/
def getFundingRate (w : World) (symbol : String) : ℚ × Option String :=
  let url := "https://fapi.binance.com/fapi/v1/premiumIndex?symbol=" ++ symbol
  match w.httpGetBody url with
  | .error err => (0, some err)
  | .ok body =>
    match w.unmarshalLastFundingRate body with
    | .error err => (0, some err)
    | .ok result => (w.parseFloat result, none)

/-- The block of `Get` that computes `priceChange1h` (data.go:45-51). -/
def priceChange1h (rnd : Rounding) (klines5m : List Kline) (currentPrice : ℚ) : Option ℚ :=
  if klines5m.length ≥ 21 then do
    let k ← index klines5m ((klines5m.length : Int) - 21)
    let price1hAgo := k.Close
    if price1hAgo > 0 then do
      let q ← fdiv rnd (fsub rnd currentPrice price1hAgo) price1hAgo
      pure (fmul rnd q 100)
    else pure 0
  else pure 0

/-- The block of `Get` that computes `priceChange4h` (data.go:54-60). -/
def priceChange4h (rnd : Rounding) (klines4h : List Kline) (currentPrice : ℚ) : Option ℚ :=
  if klines4h.length ≥ 2 then do
    let k ← index klines4h ((klines4h.length : Int) - 2)
    let price4hAgo := k.Close
    if price4hAgo > 0 then do
      let q ← fdiv rnd (fsub rnd currentPrice price4hAgo) price4hAgo
      pure (fmul rnd q 100)
    else pure 0
  else pure 0

/-- `Get` (data.go:15). The outer `Option` is `none` when the run panics; the
`Except` is the Go pair `(*Data, error)`. -/
def Get (rnd : Rounding) (w : World) (symbol : String) : Option (Except String Data) :=
  let symbol := Normalize w.unicodeUpper symbol
  match w.GetCurrentKlines symbol "5m" with
  | .error err => some (.error ("获取5分钟K线失败: " ++ err))
  | .ok klines5m =>
    match w.GetCurrentKlines symbol "30m" with
    | .error err => some (.error ("获取30分钟K线失败: " ++ err))
    | .ok klines30m =>
      match w.GetCurrentKlines symbol "4h" with
      | .error err => some (.error ("获取4小时K线失败: " ++ err))
      | .ok klines4h => do
        let last ← index klines5m ((klines5m.length : Int) - 1)
        let currentPrice := last.Close
        let currentEMA20 ← calculateEMA rnd klines5m 20
        let currentMACD ← calculateMACD rnd klines5m
        let currentRSI7 ← calculateRSI rnd klines5m 7
        let priceChange1h ← priceChange1h rnd klines5m currentPrice
        let priceChange4h ← priceChange4h rnd klines4h currentPrice
        let oiData :=
          match getOpenInterestData rnd w symbol with
          | .error _ => ({ Latest := 0, Average := 0 } : OIData)
          | .ok oi => oi
        let fundingRate := (getFundingRate w symbol).1
        let intradayData ← calculateIntradaySeries w klines5m
        let middleTermData ← calculateLongerTermData rnd w klines30m
        let longerTermData ← calculateLongerTermData rnd w klines4h
        pure (.ok {
          Symbol := symbol
          CurrentPrice := currentPrice
          PriceChange1h := priceChange1h
          PriceChange4h := priceChange4h
          CurrentEMA20 := currentEMA20
          CurrentMACD := currentMACD
          CurrentRSI7 := currentRSI7
          OpenInterest := some oiData
          FundingRate := fundingRate
          IntradaySeries := some intradayData
          MiddleTermContext := some middleTermData
          LongerTermContext := some longerTermData })

/-- A case table for concrete runs: the long s `ſ` has the upper case `S`, every
other rune beyond ASCII is its own upper case. -/
def longSTable : Char → Char := fun c => if c = 'ſ' then 'S' else c

/-- A world for concrete runs. The candle source serves `k5`, `k30` and `k4h`
for the intervals "5m", "30m" and any other. A call into the indicator library
panics when its input is shorter than its period (the slow period for `Macd`):
`go-talib` indexes the first `period` values of its input unguarded; on a longer
input the call returns zeros as long as the input. Every HTTP call fails. -/
def strictWorld (k5 k30 k4h : List Kline) : World where
  Macd := fun l _ slow _ =>
    if (l.length : Int) < slow then none
    else some (l.map (fun _ => 0), l.map (fun _ => 0), l.map (fun _ => 0))
  Ema := fun l period => if (l.length : Int) < period then none else some (l.map (fun _ => 0))
  Rsi := fun l period => if (l.length : Int) < period then none else some (l.map (fun _ => 0))
  Adx := fun _ _ l period =>
    if (l.length : Int) < period then none else some (l.map (fun _ => 0))
  GetCurrentKlines := fun _ interval =>
    if interval = "5m" then .ok k5 else if interval = "30m" then .ok k30 else .ok k4h
  httpGetBody := fun _ => .error "offline"
  unmarshalOpenInterest := fun _ => .error "no body"
  unmarshalLastFundingRate := fun _ => .error "no body"
  parseFloat := fun _ => 0
  unicodeUpper := longSTable

/-- A series of 60 candles, every price and volume 1. -/
def flatSeries : List Kline := List.replicate 60 ⟨1, 1, 1, 1, 1⟩

/-- A short series of 60 candles: forty times close 2, then twenty times close 3
(the close 20 bars before the last, at index 39, is 2). -/
def risingSeries : List Kline :=
  List.replicate 40 ⟨2, 2, 2, 2, 1⟩ ++ List.replicate 20 ⟨3, 3, 3, 3, 1⟩

/-- A short series of 60 candles with close 1, except close -1 at index 39, 20
bars before the last. -/
def negativePastSeries : List Kline :=
  List.replicate 39 ⟨1, 1, 1, 1, 1⟩ ++ ⟨-1, -1, -1, -1, 1⟩ :: List.replicate 20 ⟨1, 1, 1, 1, 1⟩

/-- A short series of 60 candles with close 3, except close 0 at index 39, 20
bars before the last. -/
def zeroPastSeries : List Kline :=
  List.replicate 39 ⟨3, 3, 3, 3, 1⟩ ++ ⟨0, 0, 0, 0, 1⟩ :: List.replicate 20 ⟨3, 3, 3, 3, 1⟩

/-- The binary64 number nearest to 0.8, `3602879701896397 / 2^52`. -/
def fourFifths : ℚ := 3602879701896397 / 4503599627370496

/-- A short series of 60 candles with close 0.5, except the binary64 number
nearest to 0.8 at index 39, 20 bars before the last. -/
def fallingSeries : List Kline :=
  List.replicate 39 ⟨1 / 2, 1 / 2, 1 / 2, 1 / 2, 1⟩
    ++ ⟨fourFifths, fourFifths, fourFifths, fourFifths, 1⟩
      :: List.replicate 20 ⟨1 / 2, 1 / 2, 1 / 2, 1 / 2, 1⟩

/-- A series of five candles with the closes 1, 2, 3, 2, 4 and the volumes
5, 5, 5, 5, 10. -/
def fiveCandles : List Kline :=
  [⟨1, 2, 0, 1, 5⟩, ⟨1, 3, 1, 2, 5⟩, ⟨2, 4, 1, 3, 5⟩, ⟨3, 3, 1, 2, 5⟩, ⟨2, 5, 2, 4, 10⟩]

/-- A long series of 60 candles: 59 times close 2, then close 5. -/
def risingLongSeries : List Kline := List.replicate 59 ⟨2, 2, 2, 2, 1⟩ ++ [⟨5, 5, 5, 5, 1⟩]

/-- A long series of 60 candles with close 1, except close -1 at the
second-to-last candle. -/
def negativeLongSeries : List Kline :=
  List.replicate 58 ⟨1, 1, 1, 1, 1⟩ ++ [⟨-1, -1, -1, -1, 1⟩, ⟨1, 1, 1, 1, 1⟩]

/-- A long series of 60 candles with close 5, except close 0 at the
second-to-last candle. -/
def zeroLongSeries : List Kline :=
  List.replicate 58 ⟨5, 5, 5, 5, 1⟩ ++ [⟨0, 0, 0, 0, 1⟩, ⟨5, 5, 5, 5, 1⟩]

/-- A long series of 60 candles with close 0.5, except the binary64 number
nearest to 0.8 at the second-to-last candle. -/
def fallingLongSeries : List Kline :=
  List.replicate 58 ⟨1 / 2, 1 / 2, 1 / 2, 1 / 2, 1⟩
    ++ [⟨fourFifths, fourFifths, fourFifths, fourFifths, 1⟩, ⟨1 / 2, 1 / 2, 1 / 2, 1 / 2, 1⟩]

/-! ## Functional forms of the loops -/

/-- One pass of the smoothing loop of `calculateEMA` (data.go:112). -/
def emaStep (rnd : Rounding) (multiplier : ℚ) (ema : ℚ) (k : Kline) : ℚ :=
  fadd rnd (fmul rnd (fsub rnd k.Close ema) multiplier) ema

/-- The seed of `calculateEMA` (data.go:103-107) over the candles `ks`. -/
def emaSeed (rnd : Rounding) (ks : List Kline) (period : Int) : ℚ :=
  rnd (ks.foldl (fun a k => fadd rnd a k.Close) 0 / (period : ℚ))

/-- The pairs `(xs[i-1], xs[i])` for `i = 1, ..., len(xs)-1`, in that order. -/
def adjacent {α : Type} (xs : List α) : List (α × α) := xs.zip xs.tail

/-- The values of `change` (data.go:143, 156) in index order:
`klines[i].Close - klines[i-1].Close` for `i = 1, ..., len-1`. -/
def changes (rnd : Rounding) (klines : List Kline) : List ℚ :=
  (adjacent klines).map (fun pr => fsub rnd pr.2.Close pr.1.Close)

/-- One pass of the seeding loop of `calculateRSI` (data.go:144-148) on the
state `(gains, losses)`. -/
def rsiSeedStep (rnd : Rounding) (st : ℚ × ℚ) (change : ℚ) : ℚ × ℚ :=
  if change > 0 then (fadd rnd st.1 change, st.2) else (st.1, fadd rnd st.2 (-change))

/-- One pass of the smoothing loop of `calculateRSI` (data.go:157-163) on the
state `(avgGain, avgLoss)`, for a period other than 0. -/
def rsiSmoothStep (rnd : Rounding) (period : Int) (st : ℚ × ℚ) (change : ℚ) : ℚ × ℚ :=
  if change > 0 then
    (rnd (fadd rnd (fmul rnd st.1 ((period - 1 : Int) : ℚ)) change / (period : ℚ)),
      rnd (fmul rnd st.2 ((period - 1 : Int) : ℚ) / (period : ℚ)))
  else
    (rnd (fmul rnd st.1 ((period - 1 : Int) : ℚ) / (period : ℚ)),
      rnd (fadd rnd (fmul rnd st.2 ((period - 1 : Int) : ℚ)) (-change) / (period : ℚ)))

/-- The state `(avgGain, avgLoss)` of `calculateRSI` after its two loops. -/
def rsiAverages (rnd : Rounding) (klines : List Kline) (period : Nat) : ℚ × ℚ :=
  let sums := ((changes rnd klines).take period).foldl (rsiSeedStep rnd) (0, 0)
  ((changes rnd klines).drop period).foldl (rsiSmoothStep rnd (period : Int))
    (rnd (sums.1 / ((period : Int) : ℚ)), rnd (sums.2 / ((period : Int) : ℚ)))

/-- The end of `calculateRSI` (data.go:166-173) on the state `(avgGain, avgLoss)`. -/
def rsiFinal (rnd : Rounding) (avgs : ℚ × ℚ) : Option ℚ :=
  if avgs.2 = 0 then some 100
  else do
    let rs ← fdiv rnd avgs.1 avgs.2
    let q ← fdiv rnd 100 (fadd rnd 1 rs)
    pure (fsub rnd 100 q)

/-- The pair `(CurrentVolume, AverageVolume)` that `calculateLongerTermData`
computes (data.go:298-306); both stay 0 on the empty series. -/
def volumeStats (rnd : Rounding) (klines : List Kline) : ℚ × ℚ :=
  match klines.getLast? with
  | none => (0, 0)
  | some last =>
    (last.Volume, rnd (klines.foldl (fun sum k => fadd rnd sum k.Volume) 0 / (klines.length : ℚ)))

/-! ## Specification-side definitions -/

/-- The close-to-close deltas of a series, `Close_i - Close_(i-1)` for
`i = 1, ..., len-1` (spec §4.1, RSI). -/
def closeDeltas (s : List Kline) : List ℚ :=
  List.zipWith (fun prev cur => cur - prev) (s.map Kline.Close) (s.map Kline.Close).tail

/-- The Wilder-smoothed RSI as the specification words it (spec §4.1): the
average gain and loss are seeded from the first `p` deltas as (sum of the
positive deltas)/p and (sum of the magnitudes of the non-positive deltas)/p,
each later delta `d` updates them by `avgGain := (avgGain*(p-1) + max(d,0))/p`
and `avgLoss := (avgLoss*(p-1) + max(-d,0))/p`, and the result is
`100 - 100/(1 + avgGain/avgLoss)`, or 100 when `avgLoss = 0`. -/
def wilderRSISpec (s : List Kline) (p : Nat) : ℚ :=
  let first := (closeDeltas s).take p
  let later := (closeDeltas s).drop p
  let seedGain := (first.filter (fun d => 0 < d)).sum / (p : ℚ)
  let seedLoss := ((first.filter (fun d => d ≤ 0)).map (fun d => |d|)).sum / (p : ℚ)
  let avgs := later.foldl
    (fun (a : ℚ × ℚ) d =>
      ((a.1 * ((p : ℚ) - 1) + max d 0) / (p : ℚ), (a.2 * ((p : ℚ) - 1) + max (-d) 0) / (p : ℚ)))
    (seedGain, seedLoss)
  if avgs.2 = 0 then 100 else 100 - 100 / (1 + avgs.1 / avgs.2)

/-- The true ranges `trs[1], ..., trs[len-1]` of `calculateATR` in index order. -/
def trueRanges (rnd : Rounding) (klines : List Kline) : List ℚ :=
  (adjacent klines).map (fun pr => trueRange rnd pr.1 pr.2)

/-- One pass of the smoothing loop of `calculateATR` (data.go:204), for a period
other than 0. -/
def atrStep (rnd : Rounding) (period : Int) (atr : ℚ) (tr : ℚ) : ℚ :=
  rnd (fadd rnd (fmul rnd atr ((period - 1 : Int) : ℚ)) tr / (period : ℚ))

/-- The true range of the candle `cur` against the candle `prev` before it, as
the specification words it (spec §4.1):
`max(high - low, |high - prevClose|, |low - prevClose|)`. -/
def specTrueRange (prev cur : Kline) : ℚ :=
  max (cur.High - cur.Low) (max |cur.High - prev.Close| |cur.Low - prev.Close|)

/-- The true ranges `TR(1), ..., TR(len-1)` of a series (there is none at
index 0). -/
def specTrueRanges (s : List Kline) : List ℚ :=
  List.zipWith specTrueRange s s.tail

/-! ## Format -/

/-- The float verbs of `fmt.Sprintf` that `Format` and `formatFloatSlice` use;
the standard library is outside the repository. -/
structure FloatFormat where
  /-- The verb `%.2f`. -/
  f2 : ℚ → String
  /-- The verb `%.2e`. -/
  e2 : ℚ → String
  /-- The verb `%.3f`. -/
  f3 : ℚ → String

/-- The slice expression `xs[low:]`; panics when `low` is out of range. -/
def sliceFrom {α : Type} (xs : List α) (low : Int) : Option (List α) :=
  if low < 0 ∨ (xs.length : Int) < low then none else some (xs.drop low.toNat)

/-- `formatFloatSlice` (data.go:521): `strValues[i]` is set to the `%.3f`
rendering of `values[i]` for each index, and the strings are joined with ", "
between brackets; `none` when an index is out of range. -/
def formatFloatSlice (F : FloatFormat) (values : List ℚ) : Option String := do
  let strValues ← forLoop 0 values.length
    (fun i strValues => do
      let v ← index values i
      setIndex strValues i (F.f3 v)) (List.replicate values.length "")
  pure ("[" ++ ", ".intercalate strValues ++ "]")

/-- One block of `Format`: when the sequence is not empty, the label and
`formatFloatSlice(values[low:])` are written, followed by an empty line. Its
label, its sequence and the lower index of its slice. -/
structure SeriesBlock where
  label : String
  values : List ℚ
  low : Int

/-- Run one block of `Format` on the string built so far. -/
def writeSeries (F : FloatFormat) (sb : String) (b : SeriesBlock) : Option String :=
  if b.values.length > 0 then do
    let window ← sliceFrom b.values b.low
    let text ← formatFloatSlice F window
    pure (sb ++ b.label ++ text ++ "\n\n")
  else pure sb

/-- The eleven blocks of the intraday section of `Format` (data.go:424-466), in
order. From `EMA50Values` on, the slice is cut at `len(EMA20Values)-10`. -/
def intradayBlocks (i : IntradayData) : List SeriesBlock :=
  [ ⟨"Mid prices: ", i.MidPrices, (i.MidPrices.length : Int) - 10⟩,
    ⟨"EMA indicators (5‑period): ", i.EMA5Values, (i.EMA5Values.length : Int) - 10⟩,
    ⟨"EMA indicators (20‑period): ", i.EMA20Values, (i.EMA20Values.length : Int) - 10⟩,
    ⟨"EMA indicators (50‑period): ", i.EMA50Values, (i.EMA20Values.length : Int) - 10⟩,
    ⟨"MACD indicators: ", i.MACDValues, (i.EMA20Values.length : Int) - 10⟩,
    ⟨"MACD Signal indicators: ", i.MACDSignalValues, (i.EMA20Values.length : Int) - 10⟩,
    ⟨"MACD Histogram indicators: ", i.MACDHistValues, (i.EMA20Values.length : Int) - 10⟩,
    ⟨"RSI indicators (7‑Period): ", i.RSI7Values, (i.EMA20Values.length : Int) - 10⟩,
    ⟨"RSI indicators (14‑Period): ", i.RSI14Values, (i.EMA20Values.length : Int) - 10⟩,
    ⟨"ADX indicators (7‑Period): ", i.Adx7Values, (i.EMA20Values.length : Int) - 10⟩,
    ⟨"ADX indicators (14‑Period): ", i.Adx14Values, (i.EMA20Values.length : Int) - 10⟩ ]

/-- The four blocks of the medium-term section of `Format` (data.go:481-493), in
order. -/
def middleTermBlocks (m : LongerTermData) : List SeriesBlock :=
  [ ⟨"MACD indicators: ", m.MACDValues, (m.MACDValues.length : Int) - 10⟩,
    ⟨"MACD Signal indicators: ", m.MacdSignalValues, (m.MacdSignalValues.length : Int) - 10⟩,
    ⟨"MACD Histogram indicators: ", m.MACDHistValues, (m.MACDHistValues.length : Int) - 10⟩,
    ⟨"RSI indicators (14‑Period): ", m.RSI14Values, (m.RSI14Values.length : Int) - 10⟩ ]

/-- `Format` (data.go:402); `none` when a slice expression panics. The open
interest, the intraday section and the medium-term section are written only when
their pointer is not nil (data.go:414, 421, 469). -/
def Format (F : FloatFormat) (data : Data) : Option String := do
  let sb := "Here is the latest " ++ data.Symbol
    ++ " open interest and funding rate for perps:\n\n"
  let sb :=
    match data.OpenInterest with
    | some oi =>
      sb ++ ("Open Interest: Latest: " ++ F.f2 oi.Latest
        ++ " Average: " ++ F.f2 oi.Average ++ "\n\n")
    | none => sb
  let sb := sb ++ ("Funding Rate: " ++ F.e2 data.FundingRate ++ "\n\n")
  let sb ←
    match data.IntradaySeries with
    | some i =>
      (intradayBlocks i).foldlM (writeSeries F)
        (sb ++ "Intraday series (5‑minute intervals, oldest → latest):\n\n")
    | none => pure sb
  let sb ←
    match data.MiddleTermContext with
    | some m => do
      let sb := sb ++ "Medium‑term context (30m timeframe):\n\n"
      let sb := sb ++ ("5‑Period EMA: " ++ F.f3 m.EMA5
        ++ " vs. 20‑Period EMA: " ++ F.f3 m.EMA20
        ++ " vs. 50‑Period EMA: " ++ F.f3 m.EMA50 ++ "\n\n")
      let sb := sb ++ ("3‑Period ATR: " ++ F.f3 m.ATR3
        ++ " vs. 14‑Period ATR: " ++ F.f3 m.ATR14 ++ "\n\n")
      let sb := sb ++ ("Current Volume: " ++ F.f3 m.CurrentVolume
        ++ " vs. Average Volume: " ++ F.f3 m.AverageVolume ++ "\n\n")
      (middleTermBlocks m).foldlM (writeSeries F) sb
    | none => pure sb
  pure sb

/-- The last 10 values of a sequence, oldest first (the whole sequence when it
has fewer). -/
def lastTen (xs : List ℚ) : List ℚ := xs.drop (xs.length - 10)

/-- A printed list of values: the values in their order, each printed with
`%.3f`, separated by ", " and enclosed in brackets. -/
def printedList (F : FloatFormat) (xs : List ℚ) : String :=
  "[" ++ ", ".intercalate (xs.map F.f3) ++ "]"

/-- A block as the tail-10 rendering words it: a non-empty sequence prints its
label and the list of the last 10 values of that same sequence, oldest first. -/
def writeLastTen (F : FloatFormat) (sb : String) (b : SeriesBlock) : String :=
  if b.values.length > 0 then sb ++ b.label ++ printedList F (lastTen b.values) ++ "\n\n"
  else sb

/-- The text of `Format` when every block prints the list of the last 10 values
of its own sequence. -/
def FormatLastTen (F : FloatFormat) (data : Data) : String :=
  let sb := "Here is the latest " ++ data.Symbol
    ++ " open interest and funding rate for perps:\n\n"
  let sb :=
    match data.OpenInterest with
    | some oi =>
      sb ++ ("Open Interest: Latest: " ++ F.f2 oi.Latest
        ++ " Average: " ++ F.f2 oi.Average ++ "\n\n")
    | none => sb
  let sb := sb ++ ("Funding Rate: " ++ F.e2 data.FundingRate ++ "\n\n")
  let sb :=
    match data.IntradaySeries with
    | some i =>
      (intradayBlocks i).foldl (writeLastTen F)
        (sb ++ "Intraday series (5‑minute intervals, oldest → latest):\n\n")
    | none => sb
  match data.MiddleTermContext with
  | some m =>
    let sb := sb ++ "Medium‑term context (30m timeframe):\n\n"
    let sb := sb ++ ("5‑Period EMA: " ++ F.f3 m.EMA5
      ++ " vs. 20‑Period EMA: " ++ F.f3 m.EMA20
      ++ " vs. 50‑Period EMA: " ++ F.f3 m.EMA50 ++ "\n\n")
    let sb := sb ++ ("3‑Period ATR: " ++ F.f3 m.ATR3
      ++ " vs. 14‑Period ATR: " ++ F.f3 m.ATR14 ++ "\n\n")
    let sb := sb ++ ("Current Volume: " ++ F.f3 m.CurrentVolume
      ++ " vs. Average Volume: " ++ F.f3 m.AverageVolume ++ "\n\n")
    (middleTermBlocks m).foldl (writeLastTen F) sb
  | none => sb

/-- The eleven intraday sequences all have the length `n`. -/
def intradaySameLength (i : IntradayData) (n : Nat) : Prop :=
  i.MidPrices.length = n ∧ i.EMA5Values.length = n ∧ i.EMA20Values.length = n ∧
  i.EMA50Values.length = n ∧ i.MACDValues.length = n ∧ i.MACDSignalValues.length = n ∧
  i.MACDHistValues.length = n ∧ i.RSI7Values.length = n ∧ i.RSI14Values.length = n ∧
  i.Adx7Values.length = n ∧ i.Adx14Values.length = n

/-- Each of the four medium-term sequences is empty or has at least 10 values. -/
def middleTermEmptyOrTen (m : LongerTermData) : Prop :=
  (m.MACDValues = [] ∨ 10 ≤ m.MACDValues.length) ∧
  (m.MacdSignalValues = [] ∨ 10 ≤ m.MacdSignalValues.length) ∧
  (m.MACDHistValues = [] ∨ 10 ≤ m.MACDHistValues.length) ∧
  (m.RSI14Values = [] ∨ 10 ≤ m.RSI14Values.length)

/-- A float format for concrete runs: the numerator and the denominator of the
value. -/
def plainFormat : FloatFormat where
  f2 := fun q => toString q.num ++ "/" ++ toString q.den
  e2 := fun q => toString q.num ++ "/" ++ toString q.den
  f3 := fun q => toString q.num ++ "/" ++ toString q.den

/-- The twelve values `a + 1, a + 2, ..., a + 12`. -/
def twelveFrom (a : ℚ) : List ℚ :=
  [a + 1, a + 2, a + 3, a + 4, a + 5, a + 6, a + 7, a + 8, a + 9, a + 10, a + 11, a + 12]

/-- A snapshot whose eleven intraday sequences have 12 values each, the `k`-th
one the values `100 k + 1, ..., 100 k + 12`, and whose medium-term sequences are
`2001, ..., 2012` (MACD) or empty. -/
def sampleData : Data where
  Symbol := "BTCUSDT"
  CurrentPrice := 12
  PriceChange1h := 0
  PriceChange4h := 0
  CurrentEMA20 := 0
  CurrentMACD := 0
  CurrentRSI7 := 0
  OpenInterest := some { Latest := 7, Average := 8 }
  FundingRate := 9
  IntradaySeries := some ⟨twelveFrom 0, twelveFrom 100, twelveFrom 200, twelveFrom 300,
    twelveFrom 400, twelveFrom 500, twelveFrom 600, twelveFrom 700, twelveFrom 800,
    twelveFrom 900, twelveFrom 1000⟩
  MiddleTermContext := some ⟨1, 2, 3, 4, 5, 6, 7, twelveFrom 2000, [], [], []⟩
  LongerTermContext := some ⟨0, 0, 0, 0, 0, 0, 0, [], [], [], []⟩

/-- The text of `sampleData` in the format `plainFormat`: every list holds the
last ten of the twelve values of its sequence, oldest first. -/
def sampleText : String :=
  "Here is the latest BTCUSDT open interest and funding rate for perps:\n\n"
    ++ "Open Interest: Latest: 7/1 Average: 8/1\n\n"
    ++ "Funding Rate: 9/1\n\n"
    ++ "Intraday series (5‑minute intervals, oldest → latest):\n\n"
    ++ "Mid prices: [3/1, 4/1, 5/1, 6/1, 7/1, 8/1, 9/1, 10/1, 11/1, 12/1]\n\n"
    ++ "EMA indicators (5‑period): [103/1, 104/1, 105/1, 106/1, 107/1, 108/1, 109/1, 110/1, 111/1, 112/1]\n\n"
    ++ "EMA indicators (20‑period): [203/1, 204/1, 205/1, 206/1, 207/1, 208/1, 209/1, 210/1, 211/1, 212/1]\n\n"
    ++ "EMA indicators (50‑period): [303/1, 304/1, 305/1, 306/1, 307/1, 308/1, 309/1, 310/1, 311/1, 312/1]\n\n"
    ++ "MACD indicators: [403/1, 404/1, 405/1, 406/1, 407/1, 408/1, 409/1, 410/1, 411/1, 412/1]\n\n"
    ++ "MACD Signal indicators: [503/1, 504/1, 505/1, 506/1, 507/1, 508/1, 509/1, 510/1, 511/1, 512/1]\n\n"
    ++ "MACD Histogram indicators: [603/1, 604/1, 605/1, 606/1, 607/1, 608/1, 609/1, 610/1, 611/1, 612/1]\n\n"
    ++ "RSI indicators (7‑Period): [703/1, 704/1, 705/1, 706/1, 707/1, 708/1, 709/1, 710/1, 711/1, 712/1]\n\n"
    ++ "RSI indicators (14‑Period): [803/1, 804/1, 805/1, 806/1, 807/1, 808/1, 809/1, 810/1, 811/1, 812/1]\n\n"
    ++ "ADX indicators (7‑Period): [903/1, 904/1, 905/1, 906/1, 907/1, 908/1, 909/1, 910/1, 911/1, 912/1]\n\n"
    ++ "ADX indicators (14‑Period): [1003/1, 1004/1, 1005/1, 1006/1, 1007/1, 1008/1, 1009/1, 1010/1, 1011/1, 1012/1]\n\n"
    ++ "Medium‑term context (30m timeframe):\n\n"
    ++ "5‑Period EMA: 1/1 vs. 20‑Period EMA: 2/1 vs. 50‑Period EMA: 3/1\n\n"
    ++ "3‑Period ATR: 4/1 vs. 14‑Period ATR: 5/1\n\n"
    ++ "Current Volume: 6/1 vs. Average Volume: 7/1\n\n"
    ++ "MACD indicators: [2003/1, 2004/1, 2005/1, 2006/1, 2007/1, 2008/1, 2009/1, 2010/1, 2011/1, 2012/1]\n\n"

/-- A snapshot like `sampleData` whose three pointers read by `Format` are nil. -/
def nilData : Data :=
  { sampleData with OpenInterest := none, IntradaySeries := none, MiddleTermContext := none }

/-- A snapshot like `sampleData` whose intraday sequences have 5 values. -/
def shortData : Data :=
  { sampleData with
    IntradaySeries := some ⟨[1, 2, 3, 4, 5], [1, 2, 3, 4, 5], [1, 2, 3, 4, 5], [1, 2, 3, 4, 5],
      [1, 2, 3, 4, 5], [1, 2, 3, 4, 5], [1, 2, 3, 4, 5], [1, 2, 3, 4, 5], [1, 2, 3, 4, 5],
      [1, 2, 3, 4, 5], [1, 2, 3, 4, 5]⟩ }

/-! ## float64 with infinities and NaN -/

/-- A float64 value with its special values: a finite number (a rational), an
infinity (`negative` is its sign) or a NaN. The two zeros of IEEE 754 are one
value, the zero of the rationals. -/
inductive F64 where
  | finite (q : ℚ)
  | inf (negative : Bool)
  | nan
deriving DecidableEq

/-- The largest finite float64, `(2 - 2^-52) * 2^1023`. -/
def maxFloat64 : ℚ := 2 ^ 1024 - 2 ^ 971

/-- The float64 stored for the exact result `x` of an operation: the number
`binary64 x`, or an infinity of the sign of `x` when that number is beyond
`maxFloat64` (overflow). -/
def round64 (x : ℚ) : F64 :=
  if maxFloat64 < |binary64 x| then .inf (decide (x < 0)) else .finite (binary64 x)

namespace F64

/-- The conversion `float64(n)` of a Go `int`. -/
def ofInt (n : Int) : F64 := round64 (n : ℚ)

/-- Negation `-a`. -/
def neg : F64 → F64
  | finite a => finite (-a)
  | inf s => inf (!s)
  | nan => nan

/-- Addition `a + b`: the sum of two infinities of opposite signs is a NaN. -/
def add : F64 → F64 → F64
  | finite a, finite b => round64 (a + b)
  | finite _, inf s => inf s
  | inf s, finite _ => inf s
  | inf s, inf t => if s = t then inf s else nan
  | _, _ => nan

/-- Subtraction `a - b`. -/
def sub (a b : F64) : F64 := add a (neg b)

/-- Multiplication `a * b`: the product of an infinity and zero is a NaN. -/
def mul : F64 → F64 → F64
  | finite a, finite b => round64 (a * b)
  | finite a, inf s => if a = 0 then nan else inf (xor s (decide (a < 0)))
  | inf s, finite b => if b = 0 then nan else inf (xor s (decide (b < 0)))
  | inf s, inf t => inf (xor s t)
  | _, _ => nan

/-- Division `a / b`: `0/0` and the quotient of two infinities are NaN, another
number divided by zero is an infinity. -/
def div : F64 → F64 → F64
  | finite a, finite b =>
    if b = 0 then (if a = 0 then nan else inf (decide (a < 0))) else round64 (a / b)
  | finite _, inf _ => finite 0
  | inf s, finite b => inf (xor s (decide (b < 0)))
  | inf _, inf _ => nan
  | _, _ => nan

/-- The comparison `a < b`; false when either side is a NaN. -/
def lt : F64 → F64 → Bool
  | finite a, finite b => decide (a < b)
  | finite _, inf s => !s
  | inf s, finite _ => s
  | inf s, inf t => s && !t
  | _, _ => false

/-- The comparison `a == b`; false when either side is a NaN. -/
def eq : F64 → F64 → Bool
  | finite a, finite b => decide (a = b)
  | inf s, inf t => decide (s = t)
  | _, _ => false

/-- `math.Abs`. -/
def abs : F64 → F64
  | finite a => finite |a|
  | inf _ => inf false
  | nan => nan

/-- `math.Max`: `+Inf` when either argument is `+Inf`, otherwise a NaN when
either argument is a NaN, otherwise the larger argument. -/
def max (a b : F64) : F64 :=
  if a = inf false ∨ b = inf false then inf false
  else if a = nan ∨ b = nan then nan
  else if lt b a then a else b

end F64

/-- A float64 value that is not a negative number: a NaN, `+Inf`, or a finite
number that is at least 0. -/
def F64.NotNegative : F64 → Prop
  | .finite q => 0 ≤ q
  | .inf negative => negative = false
  | .nan => True

/-- A float64 value that is a NaN or a finite number of `[lo, hi]`. -/
def F64.NaNOrWithin (lo hi : ℚ) : F64 → Prop
  | .finite q => lo ≤ q ∧ q ≤ hi
  | .inf _ => False
  | .nan => True

/-- `calculateRSI` (data.go:133) on float64 values with infinities and NaN; the
result is `none` only when the run panics. The loop state is the pair
`(gains, losses)`, then the pair `(avgGain, avgLoss)`. -/
def calculateRSI64 (klines : List Kline) (period : Int) : Option F64 :=
  if (klines.length : Int) ≤ period then some (.finite 0)
  else do
    let sums ← forLoop 1 (period + 1)
      (fun i st => do
        let k ← index klines i
        let kp ← index klines (i - 1)
        let change := F64.sub (.finite k.Close) (.finite kp.Close)
        if F64.lt (.finite 0) change then pure (F64.add st.1 change, st.2)
        else pure (st.1, F64.add st.2 (F64.neg change))) ((.finite 0, .finite 0) : F64 × F64)
    let avgGain := F64.div sums.1 (F64.ofInt period)
    let avgLoss := F64.div sums.2 (F64.ofInt period)
    let avgs ← forLoop (period + 1) klines.length
      (fun i st => do
        let k ← index klines i
        let kp ← index klines (i - 1)
        let change := F64.sub (.finite k.Close) (.finite kp.Close)
        if F64.lt (.finite 0) change then
          pure (F64.div (F64.add (F64.mul st.1 (F64.ofInt (period - 1))) change) (F64.ofInt period),
            F64.div (F64.mul st.2 (F64.ofInt (period - 1))) (F64.ofInt period))
        else
          pure (F64.div (F64.mul st.1 (F64.ofInt (period - 1))) (F64.ofInt period),
            F64.div (F64.add (F64.mul st.2 (F64.ofInt (period - 1))) (F64.neg change))
              (F64.ofInt period))) (avgGain, avgLoss)
    if F64.eq avgs.2 (.finite 0) then some (.finite 100)
    else
      let rs := F64.div avgs.1 avgs.2
      pure (F64.sub (.finite 100) (F64.div (.finite 100) (F64.add (.finite 1) rs)))

/-- `calculateATR` (data.go:177) on float64 values with infinities and NaN; the
result is `none` only when the run panics. -/
def calculateATR64 (klines : List Kline) (period : Int) : Option F64 :=
  if (klines.length : Int) ≤ period then some (.finite 0)
  else do
    let trs ← forLoop 1 klines.length
      (fun i trs => do
        let k ← index klines i
        let kp ← index klines (i - 1)
        let high := F64.finite k.High
        let low := F64.finite k.Low
        let prevClose := F64.finite kp.Close
        let tr1 := F64.sub high low
        let tr2 := F64.abs (F64.sub high prevClose)
        let tr3 := F64.abs (F64.sub low prevClose)
        setIndex trs i (F64.max tr1 (F64.max tr2 tr3)))
      (List.replicate klines.length (F64.finite 0))
    let sum ← forLoop 1 (period + 1)
      (fun i sum => do
        let t ← index trs i
        pure (F64.add sum t)) (.finite 0)
    let atr := F64.div sum (F64.ofInt period)
    forLoop (period + 1) klines.length
      (fun i atr => do
        let t ← index trs i
        pure (F64.div (F64.add (F64.mul atr (F64.ofInt (period - 1))) t) (F64.ofInt period))) atr

/-! ## Inputs of the concrete runs on the indicators -/

/-- A candle whose four prices are `c`, with volume 1. -/
def flatCandle (c : ℚ) : Kline := ⟨c, c, c, c, 1⟩

/-- Twenty candles whose close is the binary64 number nearest to 0.1. -/
def tenthSeries : List Kline := List.replicate 20 (flatCandle tenth)

/-- Five candles whose closes are the binary64 numbers nearest to 0.1, 0.3, 0.2,
0.7 and 0.6. -/
def wobblingSeries : List Kline :=
  [flatCandle (binary64 (1 / 10)), flatCandle (binary64 (3 / 10)), flatCandle (binary64 (2 / 10)),
    flatCandle (binary64 (7 / 10)), flatCandle (binary64 (6 / 10))]

/-- Three candles with the closes 0, `-2^-1074` and `-2^-1074` (the smallest
float64 below zero). -/
def tinySeries : List Kline :=
  [flatCandle 0, flatCandle (-(1 / 2 ^ 1074)), flatCandle (-(1 / 2 ^ 1074))]

/-- Three candles with the closes `-2^1023`, `2^1023` and 0. -/
def hugeSeries : List Kline :=
  [flatCandle (-(2 ^ 1023)), flatCandle (2 ^ 1023), flatCandle 0]

/-- Four candles with high 0.1 (the binary64 number nearest to it), low 0 and
close 0: each true range is 0.1. -/
def tenthRangeSeries : List Kline := List.replicate 4 ⟨0, tenth, 0, 0, 0⟩

/-- Three candles: all prices 0, then high `2^1023` and low `-2^1023` with close
0, then all prices 0. -/
def hugeRangeSeries : List Kline :=
  [⟨0, 0, 0, 0, 0⟩, ⟨0, 2 ^ 1023, -(2 ^ 1023), 0, 0⟩, ⟨0, 0, 0, 0, 0⟩]

/-- Sixty candles with price 1 whose volume is the binary64 number nearest to
0.1. -/
def tenthVolumeSeries : List Kline := List.replicate 60 ⟨1, 1, 1, 1, tenth⟩

/-- Sixty candles with price 1: 59 with volume 5, then one with volume 65. -/
def volumeSeries : List Kline := List.replicate 59 ⟨1, 1, 1, 1, 5⟩ ++ [⟨1, 1, 1, 1, 65⟩]

/-! ## Loop and slice lemmas -/

theorem forLoop_empty {σ : Type} (lo hi : Int) (h : hi ≤ lo) (body : Int → σ → Option σ)
    (init : σ) : forLoop lo hi body init = some init := by
  unfold forLoop
  have h0 : (hi - lo).toNat = 0 := by omega
  rw [h0]
  rfl

theorem foldlM_range_eq {σ β : Type} (step : σ → β → Option σ) :
    ∀ (l : List β) (g : Nat → σ → Option σ),
      (∀ (k : Nat) (hk : k < l.length) (a : σ), g k a = step a (l.get ⟨k, hk⟩)) →
      ∀ init : σ, (List.range l.length).foldlM (fun acc k => g k acc) init = l.foldlM step init := by
  intro l
  induction l with
  | nil => intro g _ init; rfl
  | cons x t ih =>
    intro g hg init
    rw [List.length_cons, List.range_succ_eq_map, List.foldlM_cons, List.foldlM_cons]
    have h0 : g 0 init = step init x := hg 0 (by simp) init
    rw [h0]
    congr 1
    funext a
    rw [List.foldlM_map]
    exact ih (fun k acc => g (k + 1) acc)
      (fun k hk a => by
        have := hg (k + 1) (by simpa using hk) a
        simpa using this) a

/-- A counted loop whose body at `lo + k` is one step on the `k`-th element of a
list is the monadic fold of that list. -/
theorem forLoop_eq_foldlM {σ β : Type} (lo hi : Int) (body : Int → σ → Option σ)
    (step : σ → β → Option σ) (l : List β) (hlen : l.length = (hi - lo).toNat)
    (hbody : ∀ (k : Nat) (hk : k < l.length) (a : σ),
      body (lo + (k : Int)) a = step a (l.get ⟨k, hk⟩)) (init : σ) :
    forLoop lo hi body init = l.foldlM step init := by
  unfold forLoop
  rw [← hlen]
  exact foldlM_range_eq step l (fun k a => body (lo + (k : Int)) a) hbody init

theorem foldlM_some_eq_foldl {σ β : Type} (f : σ → β → σ) (l : List β) (init : σ) :
    l.foldlM (fun a x => some (f a x)) init = some (l.foldl f init) := by
  induction l generalizing init with
  | nil => rfl
  | cons x t ih => simp [List.foldlM_cons, ih]

theorem index_eq_get {α : Type} (xs : List α) (k : Nat) (hk : k < xs.length) :
    index xs (k : Int) = some (xs.get ⟨k, hk⟩) := by
  unfold index
  have : ¬ ((k : Int) < 0) := by omega
  simp [this, List.getElem?_eq_getElem hk]

theorem index_add_eq_get {α : Type} (xs : List α) (lo k : Nat) (hk : lo + k < xs.length) :
    index xs ((lo : Int) + (k : Int)) = some (xs.get ⟨lo + k, hk⟩) := by
  have := index_eq_get xs (lo + k) hk
  simpa using this

/-- The loop `for i := lo; i < hi; i++` reading `xs[i]` folds the window
`xs[lo:hi]`. -/
theorem forLoop_index {σ α : Type} (xs : List α) (lo hi : Nat) (hhi : hi ≤ xs.length)
    (f : σ → α → Option σ) (init : σ) :
    forLoop (lo : Int) (hi : Int) (fun i a => (index xs i).bind (fun x => f a x)) init
      = ((xs.drop lo).take (hi - lo)).foldlM f init := by
  apply forLoop_eq_foldlM
  · simp
    omega
  · intro k hk a
    have hk2 : lo + k < xs.length := by
      simp at hk
      omega
    rw [index_add_eq_get xs lo k hk2]
    simp [List.getElem_take, List.getElem_drop]

theorem adjacent_length {α : Type} (xs : List α) : (adjacent xs).length = xs.length - 1 := by
  simp [adjacent]

theorem adjacent_get {α : Type} (xs : List α) (j : Nat) (hj : j + 1 < xs.length) :
    (adjacent xs).get ⟨j, by rw [adjacent_length]; omega⟩
      = (xs.get ⟨j, by omega⟩, xs.get ⟨j + 1, hj⟩) := by
  simp [adjacent]

/-- The loop `for i := lo; i < hi; i++` reading `xs[i]` and `xs[i-1]` folds a
window of the adjacent pairs. -/
theorem forLoop_pairs {σ α : Type} (xs : List α) (lo hi : Nat) (hlo : 1 ≤ lo)
    (hhi : hi ≤ xs.length) (f : σ → α → α → Option σ) (init : σ) :
    forLoop (lo : Int) (hi : Int)
      (fun i a => (index xs i).bind (fun k => (index xs (i - 1)).bind (fun kp => f a kp k))) init
      = (((adjacent xs).drop (lo - 1)).take (hi - lo)).foldlM (fun a pr => f a pr.1 pr.2)
          init := by
  apply forLoop_eq_foldlM
  · simp [adjacent_length]
    omega
  · intro k hk a
    have hk2 : lo + k < xs.length := by
      simp [adjacent_length] at hk
      omega
    have hk3 : (lo - 1) + k < xs.length := by omega
    have e1 : ((lo : Int) + (k : Int) - 1) = (((lo - 1 : Nat) : Int) + (k : Int)) := by omega
    rw [index_add_eq_get xs lo k hk2, e1, index_add_eq_get xs (lo - 1) k hk3]
    have hadj := adjacent_get xs (lo - 1 + k) (by omega)
    simp only [List.get_eq_getElem] at hadj
    simp [List.getElem_take, List.getElem_drop, hadj]
    have e2 : lo - 1 + k + 1 = lo + k := by omega
    simp [e2]

theorem fdiv_of_ne (rnd : Rounding) (a b : ℚ) (hb : b ≠ 0) : fdiv rnd a b = some (rnd (a / b)) := by
  simp [fdiv, hb]

theorem bind_fdiv {β : Type} (rnd : Rounding) (a b : ℚ) (hb : b ≠ 0) (f : ℚ → Option β) :
    (fdiv rnd a b >>= f) = f (rnd (a / b)) := by
  rw [fdiv_of_ne rnd a b hb]
  rfl

theorem forLoop_succ {σ : Type} (lo hi : Int) (h : lo ≤ hi) (body : Int → σ → Option σ)
    (init : σ) : forLoop lo (hi + 1) body init = (forLoop lo hi body init).bind (body hi) := by
  unfold forLoop
  have e1 : (hi + 1 - lo).toNat = (hi - lo).toNat + 1 := by omega
  have e2 : lo + (((hi - lo).toNat : Nat) : Int) = hi := by omega
  rw [e1, List.range_succ, List.foldlM_append]
  simp only [List.foldlM_cons, List.foldlM_nil, e2, Option.bind_eq_bind]
  congr 1
  funext a
  cases body hi a <;> rfl

/-- Invariant rule for a counted loop: a body that returns and re-establishes
the invariant at every index makes the loop return with the invariant at the
upper bound. -/
theorem forLoop_invariant {σ : Type} (lo hi : Int) (hle : lo ≤ hi) (body : Int → σ → Option σ)
    (Inv : Int → σ → Prop) (init : σ) (h0 : Inv lo init)
    (hstep : ∀ i a, lo ≤ i → i < hi → Inv i a → ∃ b, body i a = some b ∧ Inv (i + 1) b) :
    ∃ r, forLoop lo hi body init = some r ∧ Inv hi r := by
  have key : ∀ k : Nat, lo + (k : Int) ≤ hi →
      ∃ r, forLoop lo (lo + (k : Int)) body init = some r ∧ Inv (lo + (k : Int)) r := by
    intro k
    induction k with
    | zero =>
      intro _
      exact ⟨init, by simpa using forLoop_empty lo lo le_rfl body init, by simpa using h0⟩
    | succ k ih =>
      intro hk
      obtain ⟨r, hr, hinv⟩ := ih (by push_cast at hk; omega)
      obtain ⟨b, hb, hinvb⟩ := hstep (lo + (k : Int)) r (by omega) (by push_cast at hk; omega) hinv
      refine ⟨b, ?_, ?_⟩
      · have e : lo + ((k + 1 : Nat) : Int) = (lo + (k : Int)) + 1 := by push_cast; ring
        rw [e, forLoop_succ lo (lo + (k : Int)) (by omega) body init, hr]
        exact hb
      · have e : lo + ((k + 1 : Nat) : Int) = (lo + (k : Int)) + 1 := by push_cast; ring
        rw [e]
        exact hinvb
  have := key (hi - lo).toNat (by omega)
  have e : lo + (((hi - lo).toNat : Nat) : Int) = hi := by omega
  rwa [e] at this

theorem foldl_invariant {σ β : Type} (P : σ → Prop) (f : σ → β → σ)
    (hf : ∀ a x, P a → P (f a x)) (l : List β) (init : σ) (h : P init) : P (l.foldl f init) := by
  induction l generalizing init with
  | nil => exact h
  | cons x t ih => exact ih (f init x) (hf init x h)

theorem foldl_invariant_mem {σ β : Type} (P : σ → Prop) (f : σ → β → σ) (l : List β)
    (hf : ∀ a x, x ∈ l → P a → P (f a x)) (init : σ) (h : P init) : P (l.foldl f init) := by
  induction l generalizing init with
  | nil => exact h
  | cons x t ih =>
    exact ih (fun a y hy ha => hf a y (List.mem_cons_of_mem x hy) ha) (f init x)
      (hf init x (List.mem_cons_self x t) h)

/-! ## Rounding to float64 -/

theorem log2Aux_spec : ∀ (fuel n : Nat), 1 ≤ n → n ≤ fuel →
    2 ^ log2Aux fuel n ≤ n ∧ n < 2 ^ (log2Aux fuel n + 1) := by
  intro fuel
  induction fuel with
  | zero => intro n h1 h2; omega
  | succ f ih =>
    intro n h1 h2
    unfold log2Aux
    by_cases h : n < 2
    · rw [if_pos h]
      have : n = 1 := by omega
      subst this
      simp
    · rw [if_neg h]
      obtain ⟨ha, hb⟩ := ih (n / 2) (by omega) (by omega)
      constructor
      · rw [pow_succ]
        omega
      · rw [pow_succ]
        omega

theorem log2Floor_spec (n : Nat) (h : 1 ≤ n) :
    2 ^ log2Floor n ≤ n ∧ n < 2 ^ (log2Floor n + 1) :=
  log2Aux_spec n n h le_rfl

theorem scaleFraction_den_pos (n d : Nat) (hd : 0 < d) (e : Int) :
    0 < (scaleFraction n d e).2 := by
  unfold scaleFraction
  split
  · exact Nat.mul_pos hd (pow_pos (by decide) _)
  · exact hd

theorem scaleFraction_value (n d : Nat) (hd : 0 < d) (e : Int) :
    ((scaleFraction n d e).1 : ℚ) / ((scaleFraction n d e).2 : ℚ) = (n : ℚ) / (d : ℚ) / 2 ^ e := by
  have hd0 : (d : ℚ) ≠ 0 := by positivity
  unfold scaleFraction
  split
  · rename_i h
    obtain ⟨k, rfl⟩ := Int.eq_ofNat_of_zero_le h
    simp only [Int.toNat_ofNat, Nat.cast_mul, Nat.cast_pow, Nat.cast_ofNat, zpow_natCast]
    field_simp
  · rename_i h
    obtain ⟨k, hk⟩ := Int.eq_ofNat_of_zero_le (by omega : 0 ≤ -e)
    have he : e = -(k : Int) := by omega
    subst he
    simp only [neg_neg, Int.toNat_ofNat, Nat.cast_mul, Nat.cast_pow, Nat.cast_ofNat, zpow_neg,
      zpow_natCast]
    field_simp

theorem roundHalfEven_le (N D K : Nat) (hD : 0 < D) (h : N ≤ K * D) : roundHalfEven N D ≤ K := by
  unfold roundHalfEven
  have hq : N / D ≤ K := by
    calc N / D ≤ K * D / D := Nat.div_le_div_right h
      _ = K := Nat.mul_div_cancel K hD
  have hmod := Nat.div_add_mod N D
  have hlt := Nat.mod_lt N hD
  by_cases hqK : N / D = K
  · have hr : N % D = 0 := by
      have h1 : D * K + N % D = N := by rw [← hqK]; exact hmod
      have h2 : D * K = K * D := Nat.mul_comm D K
      omega
    simp only [hr]
    simp [hD, hqK]
  · have : N / D + 1 ≤ K := by omega
    simp only []
    split
    · omega
    · split
      · omega
      · split <;> omega

theorem le_roundHalfEven (N D K : Nat) (hD : 0 < D) (h : K * D ≤ N) : K ≤ roundHalfEven N D := by
  unfold roundHalfEven
  have hq : K ≤ N / D := (Nat.le_div_iff_mul_le hD).mpr h
  simp only []
  split
  · omega
  · split
    · omega
    · split <;> omega


/-- The exponent of the last place is -1074 or leaves at least 53 significant
bits above it. -/
theorem ulpExponent_spec (n d : Nat) (hn : 1 ≤ n) (hd : 1 ≤ d) :
    ulpExponent n d = -1074 ∨ (2 : ℚ) ^ 52 ≤ (n : ℚ) / (d : ℚ) / 2 ^ ulpExponent n d := by
  have hdq : (0 : ℚ) < (d : ℚ) := by exact_mod_cast hd
  have key : ∀ e1 : Int, (2 : ℚ) ^ 52 ≤ (n : ℚ) / (d : ℚ) / 2 ^ e1 →
      max e1 (-1074) = -1074 ∨ (2 : ℚ) ^ 52 ≤ (n : ℚ) / (d : ℚ) / 2 ^ max e1 (-1074) := by
    intro e1 h
    rcases le_total e1 (-1074) with hle | hle
    · exact Or.inl (max_eq_right hle)
    · rw [max_eq_left hle]
      exact Or.inr h
  unfold ulpExponent
  simp only []
  split
  · rename_i htest
    apply key
    rw [← scaleFraction_value n d hd]
    have hpos := scaleFraction_den_pos n d hd ((log2Floor n : Int) - (log2Floor d : Int) - 52)
    rw [le_div_iff₀ (by exact_mod_cast hpos)]
    exact_mod_cast htest
  · apply key
    obtain ⟨hn1, -⟩ := log2Floor_spec n hn
    obtain ⟨-, hd2⟩ := log2Floor_spec d hd
    have hnq : (2 : ℚ) ^ (log2Floor n : Int) ≤ (n : ℚ) := by
      rw [zpow_natCast]
      exact_mod_cast hn1
    have hdq2 : (d : ℚ) ≤ (2 : ℚ) ^ ((log2Floor d : Int) + 1) := by
      have : (d : ℚ) ≤ (2 : ℚ) ^ (log2Floor d + 1) := by exact_mod_cast hd2.le
      rw [show ((log2Floor d : Int) + 1) = ((log2Floor d + 1 : Nat) : Int) by push_cast; ring,
        zpow_natCast]
      exact this
    have h2pos : (0 : ℚ) < 2 ^ ((log2Floor n : Int) - (log2Floor d : Int) - 52 - 1) := by
      positivity
    rw [le_div_iff₀ h2pos, le_div_iff₀ hdq]
    have hprod : (2 : ℚ) ^ (52 : Nat) * 2 ^ ((log2Floor n : Int) - (log2Floor d : Int) - 52 - 1)
        * 2 ^ ((log2Floor d : Int) + 1) = 2 ^ (log2Floor n : Int) := by
      rw [← zpow_natCast, ← zpow_add₀ (by norm_num), ← zpow_add₀ (by norm_num)]
      congr 1
      push_cast
      ring
    calc (2 : ℚ) ^ 52 * 2 ^ ((log2Floor n : Int) - (log2Floor d : Int) - 52 - 1) * (d : ℚ)
        ≤ (2 : ℚ) ^ 52 * 2 ^ ((log2Floor n : Int) - (log2Floor d : Int) - 52 - 1)
            * 2 ^ ((log2Floor d : Int) + 1) := by
          apply mul_le_mul_of_nonneg_left hdq2
          positivity
      _ = 2 ^ (log2Floor n : Int) := hprod
      _ ≤ (n : ℚ) := hnq

theorem roundMagnitude_nonneg (n d : Nat) : 0 ≤ roundMagnitude n d := by
  unfold roundMagnitude
  positivity

/-- Rounding does not cross a multiple of the last place from below. -/
theorem roundMagnitude_le (n d K : Nat) (hd : 1 ≤ d)
    (h : (n : ℚ) / (d : ℚ) ≤ (K : ℚ) * 2 ^ ulpExponent n d) :
    roundMagnitude n d ≤ (K : ℚ) * 2 ^ ulpExponent n d := by
  have hpos := scaleFraction_den_pos n d hd (ulpExponent n d)
  have hposq : (0 : ℚ) < ((scaleFraction n d (ulpExponent n d)).2 : ℚ) := by exact_mod_cast hpos
  have h2pos : (0 : ℚ) < 2 ^ ulpExponent n d := by positivity
  have hv := scaleFraction_value n d hd (ulpExponent n d)
  have h1 : ((scaleFraction n d (ulpExponent n d)).1 : ℚ)
      / ((scaleFraction n d (ulpExponent n d)).2 : ℚ) ≤ (K : ℚ) := by
    rw [hv, div_le_iff₀ h2pos]
    exact h
  rw [div_le_iff₀ hposq] at h1
  have h2 : (scaleFraction n d (ulpExponent n d)).1
      ≤ K * (scaleFraction n d (ulpExponent n d)).2 := by exact_mod_cast h1
  have h3 := roundHalfEven_le _ _ K hpos h2
  unfold roundMagnitude
  apply mul_le_mul_of_nonneg_right _ h2pos.le
  exact_mod_cast h3

/-- Rounding does not cross a multiple of the last place from above. -/
theorem le_roundMagnitude (n d K : Nat) (hd : 1 ≤ d)
    (h : (K : ℚ) * 2 ^ ulpExponent n d ≤ (n : ℚ) / (d : ℚ)) :
    (K : ℚ) * 2 ^ ulpExponent n d ≤ roundMagnitude n d := by
  have hpos := scaleFraction_den_pos n d hd (ulpExponent n d)
  have hposq : (0 : ℚ) < ((scaleFraction n d (ulpExponent n d)).2 : ℚ) := by exact_mod_cast hpos
  have h2pos : (0 : ℚ) < 2 ^ ulpExponent n d := by positivity
  have hv := scaleFraction_value n d hd (ulpExponent n d)
  have h1 : (K : ℚ) ≤ ((scaleFraction n d (ulpExponent n d)).1 : ℚ)
      / ((scaleFraction n d (ulpExponent n d)).2 : ℚ) := by
    rw [hv, le_div_iff₀ h2pos]
    exact h
  rw [le_div_iff₀ hposq] at h1
  have h2 : K * (scaleFraction n d (ulpExponent n d)).2
      ≤ (scaleFraction n d (ulpExponent n d)).1 := by exact_mod_cast h1
  have h3 := le_roundHalfEven _ _ K hpos h2
  unfold roundMagnitude
  apply mul_le_mul_of_nonneg_right _ h2pos.le
  exact_mod_cast h3

theorem natAbs_num_div_den (x : ℚ) (hx : 0 < x) :
    ((x.num.natAbs : Nat) : ℚ) / (x.den : ℚ) = x := by
  have hnum : 0 < x.num := Rat.num_pos.mpr hx
  have h1 : ((x.num.natAbs : Nat) : ℚ) = (x.num : ℚ) := by
    have h2 : ((x.num.natAbs : Nat) : Int) = x.num := Int.natAbs_of_nonneg hnum.le
    have h3 : (((x.num.natAbs : Nat) : Int) : ℚ) = (x.num : ℚ) := by rw [h2]
    rw [← h3]
    exact (Int.cast_natCast _).symm
  rw [h1]
  exact Rat.num_div_den x

theorem natAbs_num_pos (x : ℚ) (hx : 0 < x) : 1 ≤ x.num.natAbs := by
  have hnum : 0 < x.num := Rat.num_pos.mpr hx
  omega

theorem binary64_of_pos (x : ℚ) (hx : 0 < x) :
    binary64 x = roundMagnitude x.num.natAbs x.den := by
  unfold binary64
  rw [if_neg (ne_of_gt hx), if_neg (not_lt.mpr hx.le)]

theorem binary64_nonneg (x : ℚ) (hx : 0 ≤ x) : 0 ≤ binary64 x := by
  rcases hx.eq_or_lt with h | h
  · subst h
    simp [binary64]
  · rw [binary64_of_pos x h]
    exact roundMagnitude_nonneg _ _

theorem binary64_nonpos (x : ℚ) (hx : x ≤ 0) : binary64 x ≤ 0 := by
  rcases hx.eq_or_lt with h | h
  · subst h
    simp [binary64]
  · unfold binary64
    rw [if_neg (ne_of_lt h), if_pos h]
    have := roundMagnitude_nonneg x.num.natAbs x.den
    linarith

/-- Rounding keeps a number of `[0, 100]` in `[0, 100]`. -/
theorem binary64_le_hundred (x : ℚ) (h0 : 0 ≤ x) (h : x ≤ 100) : binary64 x ≤ 100 := by
  rcases h0.eq_or_lt with hz | hpos
  · subst hz
    simp [binary64]
  · rw [binary64_of_pos x hpos]
    have hd : 1 ≤ x.den := x.den_pos
    have hn := natAbs_num_pos x hpos
    have hval := natAbs_num_div_den x hpos
    have hneg : ulpExponent x.num.natAbs x.den < 0 := by
      rcases ulpExponent_spec x.num.natAbs x.den hn hd with he | he
      · rw [he]
        decide
      · by_contra hcon
        have hge : (0 : Int) ≤ ulpExponent x.num.natAbs x.den := by omega
        have h1 : (1 : ℚ) ≤ 2 ^ ulpExponent x.num.natAbs x.den :=
          one_le_zpow₀ (by norm_num) hge
        rw [hval] at he
        have h2 : x / 2 ^ ulpExponent x.num.natAbs x.den ≤ x :=
          div_le_self hpos.le h1
        have h3 : (2 : ℚ) ^ 52 ≤ 100 := le_trans he (le_trans h2 h)
        norm_num at h3
    obtain ⟨k, hk⟩ := Int.eq_ofNat_of_zero_le (by omega : 0 ≤ -ulpExponent x.num.natAbs x.den)
    have hrep : ((100 * 2 ^ k : Nat) : ℚ) * 2 ^ ulpExponent x.num.natAbs x.den = 100 := by
      have he : ulpExponent x.num.natAbs x.den = -(k : Int) := by omega
      rw [he, zpow_neg, zpow_natCast]
      push_cast
      field_simp
    have := roundMagnitude_le x.num.natAbs x.den (100 * 2 ^ k) hd (by rw [hrep, hval]; exact h)
    rwa [hrep] at this

/-- Rounding keeps a number that is at least 1 at least 1. -/
theorem one_le_binary64 (x : ℚ) (h : 1 ≤ x) : 1 ≤ binary64 x := by
  have hpos : 0 < x := by linarith
  rw [binary64_of_pos x hpos]
  have hd : 1 ≤ x.den := x.den_pos
  have hn := natAbs_num_pos x hpos
  have hval := natAbs_num_div_den x hpos
  by_cases hneg : ulpExponent x.num.natAbs x.den ≤ 0
  · obtain ⟨k, hk⟩ := Int.eq_ofNat_of_zero_le (by omega : 0 ≤ -ulpExponent x.num.natAbs x.den)
    have hrep : ((2 ^ k : Nat) : ℚ) * 2 ^ ulpExponent x.num.natAbs x.den = 1 := by
      have he : ulpExponent x.num.natAbs x.den = -(k : Int) := by omega
      rw [he, zpow_neg, zpow_natCast]
      push_cast
      field_simp
    have := le_roundMagnitude x.num.natAbs x.den (2 ^ k) hd (by rw [hrep, hval]; exact h)
    rwa [hrep] at this
  · have hge : (0 : Int) ≤ ulpExponent x.num.natAbs x.den := by omega
    have h1 : (1 : ℚ) ≤ 2 ^ ulpExponent x.num.natAbs x.den := one_le_zpow₀ (by norm_num) hge
    rcases ulpExponent_spec x.num.natAbs x.den hn hd with he | he
    · omega
    · rw [hval] at he
      have h2pos : (0 : ℚ) < 2 ^ ulpExponent x.num.natAbs x.den := by positivity
      rw [le_div_iff₀ h2pos] at he
      have := le_roundMagnitude x.num.natAbs x.den (2 ^ 52) hd (by
        rw [hval]
        push_cast
        exact he)
      have h3 : (1 : ℚ) ≤ ((2 ^ 52 : Nat) : ℚ) * 2 ^ ulpExponent x.num.natAbs x.den := by
        have : (1 : ℚ) ≤ ((2 ^ 52 : Nat) : ℚ) := by norm_num
        calc (1 : ℚ) = 1 * 1 := by ring
          _ ≤ ((2 ^ 52 : Nat) : ℚ) * 2 ^ ulpExponent x.num.natAbs x.den :=
            mul_le_mul this h1 (by norm_num) (by positivity)
      linarith

/-- Rounding to the nearest integer is monotone in the value of the fraction. -/
theorem roundHalfEven_mono (N1 D1 N2 D2 : Nat) (h1 : 0 < D1) (h2 : 0 < D2)
    (h : N1 * D2 ≤ N2 * D1) : roundHalfEven N1 D1 ≤ roundHalfEven N2 D2 := by
  have hm1 := Nat.div_add_mod N1 D1
  have hm2 := Nat.div_add_mod N2 D2
  have hl1 := Nat.mod_lt N1 h1
  have hl2 := Nat.mod_lt N2 h2
  have hq : N1 / D1 ≤ N2 / D2 := by
    by_contra hcon
    have hlt : N2 / D2 + 1 ≤ N1 / D1 := by omega
    have e1 : D1 * (N2 / D2 + 1) ≤ N1 := by
      calc D1 * (N2 / D2 + 1) ≤ D1 * (N1 / D1) := Nat.mul_le_mul_left _ hlt
        _ ≤ N1 := by omega
    have e2 : N2 < D2 * (N2 / D2 + 1) := by
      rw [Nat.mul_add, Nat.mul_one]
      omega
    nlinarith
  have hup1 : roundHalfEven N1 D1 ≤ N1 / D1 + 1 := by
    unfold roundHalfEven
    simp only []
    split
    · omega
    · split
      · omega
      · split <;> omega
  have hlo2 : N2 / D2 ≤ roundHalfEven N2 D2 := by
    unfold roundHalfEven
    simp only []
    split
    · omega
    · split
      · omega
      · split <;> omega
  rcases Nat.lt_or_ge (N1 / D1) (N2 / D2) with hlt | hge
  · omega
  · have heq : N1 / D1 = N2 / D2 := by omega
    have hr : N1 % D1 * D2 ≤ N2 % D2 * D1 := by
      have a1 : N1 = D1 * (N1 / D1) + N1 % D1 := hm1.symm
      have a2 : N2 = D2 * (N2 / D2) + N2 % D2 := hm2.symm
      rw [heq] at a1
      have : (D1 * (N2 / D2) + N1 % D1) * D2 ≤ (D2 * (N2 / D2) + N2 % D2) * D1 := by
        rw [← a1, ← a2]
        exact h
      nlinarith
    unfold roundHalfEven
    simp only [heq]
    by_cases c1 : 2 * (N1 % D1) < D1
    · rw [if_pos c1]
      split
      · exact le_rfl
      · split
        · omega
        · split <;> omega
    · rw [if_neg c1]
      by_cases c2 : D1 < 2 * (N1 % D1)
      · rw [if_pos c2]
        have c3 : D2 < 2 * (N2 % D2) := by
          by_contra hc
          have : 2 * (N2 % D2) ≤ D2 := by omega
          nlinarith
        have c4 : ¬ 2 * (N2 % D2) < D2 := by omega
        rw [if_neg c4, if_pos c3]
      · rw [if_neg c2]
        have c5 : 2 * (N1 % D1) = D1 := by omega
        have c6 : ¬ 2 * (N2 % D2) < D2 := by
          intro hc
          nlinarith
        rw [if_neg c6]
        by_cases c7 : D2 < 2 * (N2 % D2)
        · rw [if_pos c7]
          split <;> omega
        · rw [if_neg c7]

/-- Above the exponent of the last place there are at most 53 significant
bits. -/
theorem ulpExponent_upper (n d : Nat) (hn : 1 ≤ n) (hd : 1 ≤ d) :
    (n : ℚ) / (d : ℚ) / 2 ^ ulpExponent n d < (2 : ℚ) ^ 53 := by
  have hdq : (0 : ℚ) < (d : ℚ) := by exact_mod_cast hd
  have hnq : (0 : ℚ) < (n : ℚ) := by exact_mod_cast hn
  have key : ∀ e1 : Int, (n : ℚ) / (d : ℚ) / 2 ^ e1 < (2 : ℚ) ^ 53 →
      (n : ℚ) / (d : ℚ) / 2 ^ max e1 (-1074) < (2 : ℚ) ^ 53 := by
    intro e1 h
    have hle : (2 : ℚ) ^ e1 ≤ 2 ^ max e1 (-1074) :=
      zpow_le_zpow_right₀ (by norm_num) (le_max_left _ _)
    have hpos : (0 : ℚ) < 2 ^ e1 := by positivity
    have hxpos : (0 : ℚ) < (n : ℚ) / (d : ℚ) := by positivity
    calc (n : ℚ) / (d : ℚ) / 2 ^ max e1 (-1074) ≤ (n : ℚ) / (d : ℚ) / 2 ^ e1 :=
          div_le_div_of_nonneg_left hxpos.le hpos hle
      _ < 2 ^ 53 := h
  unfold ulpExponent
  simp only []
  split
  · apply key
    obtain ⟨-, hn2⟩ := log2Floor_spec n hn
    obtain ⟨hd1, -⟩ := log2Floor_spec d hd
    have hnq2 : (n : ℚ) < (2 : ℚ) ^ ((log2Floor n : Int) + 1) := by
      have : (n : ℚ) < (2 : ℚ) ^ (log2Floor n + 1) := by exact_mod_cast hn2
      rw [show ((log2Floor n : Int) + 1) = ((log2Floor n + 1 : Nat) : Int) by push_cast; ring,
        zpow_natCast]
      exact this
    have hdq2 : (2 : ℚ) ^ (log2Floor d : Int) ≤ (d : ℚ) := by
      rw [zpow_natCast]
      exact_mod_cast hd1
    have h2pos : (0 : ℚ) < 2 ^ ((log2Floor n : Int) - (log2Floor d : Int) - 52) := by positivity
    rw [div_lt_iff₀ h2pos, div_lt_iff₀ hdq]
    have hprod : (2 : ℚ) ^ (53 : Nat) * 2 ^ ((log2Floor n : Int) - (log2Floor d : Int) - 52)
        * 2 ^ (log2Floor d : Int) = 2 ^ ((log2Floor n : Int) + 1) := by
      rw [← zpow_natCast, ← zpow_add₀ (by norm_num), ← zpow_add₀ (by norm_num)]
      congr 1
      push_cast
      ring
    calc (n : ℚ) < 2 ^ ((log2Floor n : Int) + 1) := hnq2
      _ = (2 : ℚ) ^ 53 * 2 ^ ((log2Floor n : Int) - (log2Floor d : Int) - 52)
            * 2 ^ (log2Floor d : Int) := hprod.symm
      _ ≤ (2 : ℚ) ^ 53 * 2 ^ ((log2Floor n : Int) - (log2Floor d : Int) - 52) * (d : ℚ) := by
          apply mul_le_mul_of_nonneg_left hdq2
          positivity
  · rename_i htest
    apply key
    have hpos := scaleFraction_den_pos n d hd ((log2Floor n : Int) - (log2Floor d : Int) - 52)
    have hv := scaleFraction_value n d hd ((log2Floor n : Int) - (log2Floor d : Int) - 52)
    have hlt : (n : ℚ) / (d : ℚ) / 2 ^ ((log2Floor n : Int) - (log2Floor d : Int) - 52)
        < (2 : ℚ) ^ 52 := by
      rw [← hv, div_lt_iff₀ (by exact_mod_cast hpos)]
      have : (scaleFraction n d ((log2Floor n : Int) - (log2Floor d : Int) - 52)).1
          < 2 ^ 52 * (scaleFraction n d ((log2Floor n : Int) - (log2Floor d : Int) - 52)).2 := by
        omega
      exact_mod_cast this
    have hsplit : (2 : ℚ) ^ ((log2Floor n : Int) - (log2Floor d : Int) - 52)
        = 2 ^ ((log2Floor n : Int) - (log2Floor d : Int) - 52 - 1) * 2 := by
      rw [zpow_sub_one₀ (by norm_num)]
      field_simp
    have h2pos : (0 : ℚ) < 2 ^ ((log2Floor n : Int) - (log2Floor d : Int) - 52 - 1) := by
      positivity
    have h2pos' : (0 : ℚ) < 2 ^ ((log2Floor n : Int) - (log2Floor d : Int) - 52) := by
      positivity
    rw [div_lt_iff₀ h2pos'] at hlt
    rw [div_lt_iff₀ h2pos]
    rw [hsplit] at hlt
    have : (2 : ℚ) ^ 53 = 2 ^ 52 * 2 := by norm_num
    rw [this]
    linarith

theorem ulpExponent_ge (n d : Nat) : -1074 ≤ ulpExponent n d := by
  unfold ulpExponent
  exact le_max_right _ _

/-- The magnitude rounding is monotone in the value of the fraction. -/
theorem roundMagnitude_mono (n1 d1 n2 d2 : Nat) (hn1 : 1 ≤ n1) (hd1 : 1 ≤ d1) (hn2 : 1 ≤ n2)
    (hd2 : 1 ≤ d2) (h : (n1 : ℚ) / (d1 : ℚ) ≤ (n2 : ℚ) / (d2 : ℚ)) :
    roundMagnitude n1 d1 ≤ roundMagnitude n2 d2 := by
  have hlo1 := ulpExponent_spec n1 d1 hn1 hd1
  have hlo2 := ulpExponent_spec n2 d2 hn2 hd2
  have hup1 := ulpExponent_upper n1 d1 hn1 hd1
  have hup2 := ulpExponent_upper n2 d2 hn2 hd2
  have hg1 := ulpExponent_ge n1 d1
  have hg2 := ulpExponent_ge n2 d2
  have hp1 : (0 : ℚ) < 2 ^ ulpExponent n1 d1 := by positivity
  have hp2 : (0 : ℚ) < 2 ^ ulpExponent n2 d2 := by positivity
  rcases lt_trichotomy (ulpExponent n1 d1) (ulpExponent n2 d2) with hlt | heq | hgt
  · have hne : ulpExponent n2 d2 ≠ -1074 := by omega
    have hlo := hlo2.resolve_left hne
    rw [le_div_iff₀ hp2] at hlo
    have hB2 := le_roundMagnitude n2 d2 (2 ^ 52) hd2 (by push_cast; exact hlo)
    obtain ⟨k, hk⟩ := Int.eq_ofNat_of_zero_le
      (by omega : 0 ≤ ulpExponent n2 d2 - ulpExponent n1 d1 - 1)
    have hrep : ((2 ^ 53 * 2 ^ k : Nat) : ℚ) * 2 ^ ulpExponent n1 d1
        = ((2 ^ 52 : Nat) : ℚ) * 2 ^ ulpExponent n2 d2 := by
      have he : ulpExponent n2 d2 = ulpExponent n1 d1 + ((k : Int) + 1) := by omega
      rw [he, zpow_add₀ (by norm_num), zpow_add₀ (by norm_num), zpow_natCast]
      push_cast
      ring
    rw [div_lt_iff₀ hp1] at hup1
    have hk1 : (1 : ℚ) ≤ 2 ^ k := one_le_pow₀ (by norm_num)
    have hB1 := roundMagnitude_le n1 d1 (2 ^ 53 * 2 ^ k) hd1 (by
      push_cast
      have : (2 : ℚ) ^ 53 * 2 ^ ulpExponent n1 d1 ≤ 2 ^ 53 * 2 ^ k * 2 ^ ulpExponent n1 d1 := by
        have h53 : (0 : ℚ) < 2 ^ 53 := by positivity
        nlinarith [mul_pos h53 hp1]
      linarith)
    rw [hrep] at hB1
    exact le_trans hB1 hB2
  · have hd1p := scaleFraction_den_pos n1 d1 hd1 (ulpExponent n1 d1)
    have hd2p := scaleFraction_den_pos n2 d2 hd2 (ulpExponent n2 d2)
    have hv1 := scaleFraction_value n1 d1 hd1 (ulpExponent n1 d1)
    have hv2 := scaleFraction_value n2 d2 hd2 (ulpExponent n2 d2)
    have hle : ((scaleFraction n1 d1 (ulpExponent n1 d1)).1 : ℚ)
        / ((scaleFraction n1 d1 (ulpExponent n1 d1)).2 : ℚ)
        ≤ ((scaleFraction n2 d2 (ulpExponent n2 d2)).1 : ℚ)
          / ((scaleFraction n2 d2 (ulpExponent n2 d2)).2 : ℚ) := by
      rw [hv1, hv2, heq]
      exact div_le_div_of_nonneg_right h hp2.le
    rw [div_le_div_iff₀ (by exact_mod_cast hd1p) (by exact_mod_cast hd2p)] at hle
    have hnat : (scaleFraction n1 d1 (ulpExponent n1 d1)).1
          * (scaleFraction n2 d2 (ulpExponent n2 d2)).2
        ≤ (scaleFraction n2 d2 (ulpExponent n2 d2)).1
          * (scaleFraction n1 d1 (ulpExponent n1 d1)).2 := by exact_mod_cast hle
    have hm := roundHalfEven_mono _ _ _ _ hd1p hd2p hnat
    unfold roundMagnitude
    rw [heq] at hm ⊢
    apply mul_le_mul_of_nonneg_right _ hp2.le
    exact_mod_cast hm
  · exfalso
    have hne : ulpExponent n1 d1 ≠ -1074 := by omega
    have hlo := hlo1.resolve_left hne
    rw [le_div_iff₀ hp1] at hlo
    rw [div_lt_iff₀ hp2] at hup2
    have hchain : (2 : ℚ) ^ 52 * 2 ^ ulpExponent n1 d1 < 2 ^ 53 * 2 ^ ulpExponent n2 d2 :=
      lt_of_le_of_lt (le_trans hlo h) hup2
    have hle : (2 : ℚ) ^ (ulpExponent n2 d2 + 1) ≤ 2 ^ ulpExponent n1 d1 :=
      zpow_le_zpow_right₀ (by norm_num) (by omega)
    rw [zpow_add₀ (by norm_num)] at hle
    have h52 : (0 : ℚ) < 2 ^ 52 := by positivity
    have : (2 : ℚ) ^ 53 = 2 ^ 52 * 2 := by norm_num
    rw [this] at hchain
    nlinarith

theorem natAbs_num_div_den_neg (x : ℚ) (hx : x < 0) :
    ((x.num.natAbs : Nat) : ℚ) / (x.den : ℚ) = -x := by
  have h := natAbs_num_div_den (-x) (by linarith)
  simpa using h

theorem natAbs_num_pos_neg (x : ℚ) (hx : x < 0) : 1 ≤ x.num.natAbs := by
  have h := natAbs_num_pos (-x) (by linarith)
  simpa using h

/-- Rounding to float64 is monotone. -/
theorem monotone_binary64 : Monotone binary64 := by
  intro x y hxy
  rcases lt_trichotomy x 0 with hx | hx | hx
  · rcases lt_or_le y 0 with hy | hy
    · have e1 : binary64 x = -roundMagnitude x.num.natAbs x.den := by
        unfold binary64
        rw [if_neg (ne_of_lt hx), if_pos hx]
      have e2 : binary64 y = -roundMagnitude y.num.natAbs y.den := by
        unfold binary64
        rw [if_neg (ne_of_lt hy), if_pos hy]
      rw [e1, e2]
      have := roundMagnitude_mono y.num.natAbs y.den x.num.natAbs x.den
        (natAbs_num_pos_neg y hy) y.den_pos (natAbs_num_pos_neg x hx) x.den_pos (by
          rw [natAbs_num_div_den_neg y hy, natAbs_num_div_den_neg x hx]
          linarith)
      linarith
    · exact le_trans (binary64_nonpos x hx.le) (binary64_nonneg y hy)
  · subst hx
    have : binary64 0 = 0 := by simp [binary64]
    rw [this]
    exact binary64_nonneg y hxy
  · have hy : 0 < y := lt_of_lt_of_le hx hxy
    rw [binary64_of_pos x hx, binary64_of_pos y hy]
    exact roundMagnitude_mono x.num.natAbs x.den y.num.natAbs y.den
      (natAbs_num_pos x hx) x.den_pos (natAbs_num_pos y hy) y.den_pos (by
        rw [natAbs_num_div_den x hx, natAbs_num_div_den y hy]
        exact hxy)

/-- Rounding to float64 leaves 0, 1 and 100 unchanged. -/
theorem binary64_fixed : binary64 0 = 0 ∧ binary64 1 = 1 ∧ binary64 100 = 100 := by
  decide!

/-! ## float64 with infinities and NaN: signs and bounds -/

theorem round64_notNegative (x : ℚ) (hx : 0 ≤ x) : F64.NotNegative (round64 x) := by
  unfold round64
  split
  · simp [F64.NotNegative, not_lt.mpr hx]
  · exact binary64_nonneg x hx

/-- A result of `[0, 100]` is stored as a number of `[0, 100]`. -/
theorem round64_within (x : ℚ) (h0 : 0 ≤ x) (h : x ≤ 100) :
    F64.NaNOrWithin 0 100 (round64 x) := by
  have hb0 := binary64_nonneg x h0
  have hb := binary64_le_hundred x h0 h
  have hmax : ¬ maxFloat64 < |binary64 x| := by
    rw [abs_of_nonneg hb0, not_lt]
    have : (100 : ℚ) ≤ maxFloat64 := by
      unfold maxFloat64
      norm_num
    linarith
  unfold round64
  rw [if_neg hmax]
  exact ⟨hb0, hb⟩

/-- A result that is at least 1 is stored as `+Inf` or as a number that is at
least 1. -/
theorem round64_one_le (x : ℚ) (h : 1 ≤ x) :
    round64 x = .inf false ∨ ∃ q : ℚ, round64 x = .finite q ∧ 1 ≤ q := by
  unfold round64
  split
  · left
    have : ¬ x < 0 := by linarith
    simp [this]
  · exact Or.inr ⟨_, rfl, one_le_binary64 x h⟩

theorem F64.add_notNegative (a b : F64) (ha : a.NotNegative) (hb : b.NotNegative) :
    (F64.add a b).NotNegative := by
  cases a <;> cases b <;> simp only [F64.add, F64.NotNegative] at *
  · exact round64_notNegative _ (add_nonneg ha hb)
  · exact hb
  · exact ha
  · subst ha hb
    simp [F64.NotNegative]

theorem F64.mul_notNegative (a b : F64) (ha : a.NotNegative) (hb : b.NotNegative) :
    (F64.mul a b).NotNegative := by
  cases a with
  | finite x =>
    cases b with
    | finite y => exact round64_notNegative _ (mul_nonneg ha hb)
    | inf s =>
      have hs : s = false := hb
      subst hs
      by_cases hx : x = 0
      · simp [F64.mul, hx, F64.NotNegative]
      · simp [F64.mul, hx, F64.NotNegative, not_lt.mpr ha]
    | nan => simp [F64.mul, F64.NotNegative]
  | inf s =>
    have hs : s = false := ha
    subst hs
    cases b with
    | finite y =>
      by_cases hy : y = 0
      · simp [F64.mul, hy, F64.NotNegative]
      · simp [F64.mul, hy, F64.NotNegative, not_lt.mpr hb]
    | inf t =>
      have ht : t = false := hb
      subst ht
      simp [F64.mul, F64.NotNegative]
    | nan => simp [F64.mul, F64.NotNegative]
  | nan => cases b <;> simp [F64.mul, F64.NotNegative]

theorem F64.div_notNegative (a b : F64) (ha : a.NotNegative) (hb : b.NotNegative) :
    (F64.div a b).NotNegative := by
  cases a with
  | finite x =>
    cases b with
    | finite y =>
      by_cases hy : y = 0
      · by_cases hx : x = 0
        · simp [F64.div, hy, hx, F64.NotNegative]
        · simp [F64.div, hy, hx, F64.NotNegative, not_lt.mpr ha]
      · have h := round64_notNegative (x / y) (div_nonneg ha hb)
        simpa [F64.div, hy] using h
    | inf t => simp [F64.div, F64.NotNegative]
    | nan => simp [F64.div, F64.NotNegative]
  | inf s =>
    have hs : s = false := ha
    subst hs
    cases b with
    | finite y => simp [F64.div, F64.NotNegative, not_lt.mpr hb]
    | inf t => simp [F64.div, F64.NotNegative]
    | nan => simp [F64.div, F64.NotNegative]
  | nan => cases b <;> simp [F64.div, F64.NotNegative]

theorem F64.ofInt_notNegative (n : Int) (hn : 0 ≤ n) : (F64.ofInt n).NotNegative := by
  unfold F64.ofInt
  exact round64_notNegative _ (by exact_mod_cast hn)

theorem F64.abs_notNegative (a : F64) : (F64.abs a).NotNegative := by
  cases a <;> simp [F64.abs, F64.NotNegative]

theorem F64.max_notNegative (a b : F64) (hb : b.NotNegative) : (F64.max a b).NotNegative := by
  unfold F64.max
  split
  · simp [F64.NotNegative]
  · rename_i h1
    split
    · trivial
    · rename_i h2
      split
      · rename_i h3
        cases a <;> cases b <;> simp_all [F64.lt, F64.NotNegative]
        linarith
      · exact hb

/-- The branch of the loops of `calculateRSI` on the sign of a change: the value
added to the gains, or to the losses, is not negative. -/
theorem F64.change_notNegative (c : F64) :
    (F64.lt (.finite 0) c = true → c.NotNegative) ∧
    (F64.lt (.finite 0) c = false → (F64.neg c).NotNegative) := by
  cases c <;> simp [F64.lt, F64.neg, F64.NotNegative]
  · intro h
    exact h.le

/-- The last step of `calculateRSI`: for a relative strength that is not
negative, `100 - 100 / (1 + rs)` is a NaN or a number of `[0, 100]`. -/
theorem F64.rsi_within (rs : F64) (h : rs.NotNegative) :
    F64.NaNOrWithin 0 100
      (F64.sub (.finite 100) (F64.div (.finite 100) (F64.add (.finite 1) rs))) := by
  have hlast : ∀ z : ℚ, 0 ≤ z → z ≤ 100 →
      F64.NaNOrWithin 0 100 (F64.sub (.finite 100) (.finite z)) := by
    intro z hz0 hz
    simp only [F64.sub, F64.neg, F64.add]
    exact round64_within _ (by linarith) (by linarith)
  have hinf : F64.NaNOrWithin 0 100
      (F64.sub (.finite 100) (F64.div (.finite 100) (.inf false))) := by
    simp only [F64.div]
    exact hlast 0 le_rfl (by norm_num)
  cases rs with
  | nan => simp [F64.add, F64.div, F64.sub, F64.neg, F64.NaNOrWithin]
  | inf s =>
    simp only [F64.NotNegative] at h
    subst h
    simp only [F64.add]
    exact hinf
  | finite q =>
    simp only [F64.NotNegative] at h
    simp only [F64.add]
    rcases round64_one_le (1 + q) (by linarith) with hy | ⟨y, hy, hy1⟩
    · rw [hy]
      exact hinf
    · rw [hy]
      have hy0 : y ≠ 0 := by linarith
      simp only [F64.div, if_neg hy0]
      have hq0 : (0 : ℚ) ≤ 100 / y := by positivity
      have hq1 : (100 : ℚ) / y ≤ 100 := by
        rw [div_le_iff₀ (by linarith)]
        nlinarith
      have hz := round64_within (100 / y) hq0 hq1
      cases hr : round64 (100 / y) with
      | nan => simp [F64.sub, F64.neg, F64.add, F64.NaNOrWithin]
      | inf s =>
        rw [hr] at hz
        exact absurd hz (by simp [F64.NaNOrWithin])
      | finite z =>
        rw [hr] at hz
        exact hlast z hz.1 hz.2

/-! ## The indicators on float64 with infinities and NaN -/

/-- On every series and for every period of at least 1, `calculateATR` on
float64 values returns (no panic) a value that is not a negative number: a
number that is at least 0, `+Inf` or a NaN. -/
theorem calculateATR64_notNegative (p : Int) (hp : 1 ≤ p) (s : List Kline) :
    ∃ a : F64, calculateATR64 s p = some a ∧ a.NotNegative := by
  by_cases hlen : (s.length : Int) ≤ p
  · exact ⟨.finite 0, by simp [calculateATR64, hlen], le_rfl⟩
  · have hp0 : (F64.ofInt p).NotNegative := F64.ofInt_notNegative p (by omega)
    have hp1 : (F64.ofInt (p - 1)).NotNegative := F64.ofInt_notNegative (p - 1) (by omega)
    obtain ⟨trs, htrs, htlen, htnn⟩ := forLoop_invariant 1 (s.length : Int) (by omega)
      (fun i trs => do
        let k ← index s i
        let kp ← index s (i - 1)
        let high := F64.finite k.High
        let low := F64.finite k.Low
        let prevClose := F64.finite kp.Close
        let tr1 := F64.sub high low
        let tr2 := F64.abs (F64.sub high prevClose)
        let tr3 := F64.abs (F64.sub low prevClose)
        setIndex trs i (F64.max tr1 (F64.max tr2 tr3)))
      (fun _ trs => trs.length = s.length ∧ ∀ t ∈ trs, F64.NotNegative t)
      (List.replicate s.length (F64.finite 0))
      ⟨by simp, fun t ht => by
        rw [List.eq_of_mem_replicate ht]
        exact le_rfl⟩
      (by
        intro i trs hi1 hi2 hinv
        obtain ⟨hl, hnn⟩ := hinv
        obtain ⟨j, rfl⟩ := Int.eq_ofNat_of_zero_le (by omega : 0 ≤ i)
        have hj2 : j < s.length := by omega
        have hj3 : j - 1 < s.length := by omega
        have e1 : ((j : Int) - 1) = ((j - 1 : Nat) : Int) := by omega
        have hset : ∀ v : F64, setIndex trs (j : Int) v = some (trs.set j v) := by
          intro v
          have : ¬ ((j : Int) < 0 ∨ (trs.length : Int) ≤ (j : Int)) := by omega
          unfold setIndex
          rw [if_neg this]
          simp
        refine ⟨trs.set j
          (F64.max (F64.sub (.finite (s.get ⟨j, hj2⟩).High) (.finite (s.get ⟨j, hj2⟩).Low))
            (F64.max
              (F64.abs (F64.sub (.finite (s.get ⟨j, hj2⟩).High)
                (.finite (s.get ⟨j - 1, hj3⟩).Close)))
              (F64.abs (F64.sub (.finite (s.get ⟨j, hj2⟩).Low)
                (.finite (s.get ⟨j - 1, hj3⟩).Close))))), ?_, ?_, ?_⟩
        · beta_reduce
          rw [index_eq_get s j hj2, e1, index_eq_get s (j - 1) hj3]
          exact hset _
        · simp [hl]
        · intro t ht
          rcases List.mem_or_eq_of_mem_set ht with h | h
          · exact hnn t h
          · rw [h]
            exact F64.max_notNegative _ _ (F64.max_notNegative _ _ (F64.abs_notNegative _)))
    have hidx : ∀ i : Int, 1 ≤ i → i < (s.length : Int) →
        ∃ t : F64, index trs i = some t ∧ t.NotNegative := by
      intro i hi1 hi2
      obtain ⟨j, rfl⟩ := Int.eq_ofNat_of_zero_le (by omega : 0 ≤ i)
      have hj : j < trs.length := by omega
      exact ⟨_, index_eq_get trs j hj, htnn _ (List.get_mem trs j hj)⟩
    obtain ⟨sum, hsum, hsnn⟩ := forLoop_invariant 1 (p + 1) (by omega)
      (fun i sum => do
        let t ← index trs i
        pure (F64.add sum t))
      (fun _ sum => F64.NotNegative sum) (F64.finite 0) le_rfl
      (by
        intro i sum hi1 hi2 hinv
        obtain ⟨t, ht, htn⟩ := hidx i hi1 (by omega)
        exact ⟨_, by simp [ht], F64.add_notNegative _ _ hinv htn⟩)
    obtain ⟨atr, hatr, hann⟩ := forLoop_invariant (p + 1) (s.length : Int) (by omega)
      (fun i atr => do
        let t ← index trs i
        pure (F64.div (F64.add (F64.mul atr (F64.ofInt (p - 1))) t) (F64.ofInt p)))
      (fun _ atr => F64.NotNegative atr) (F64.div sum (F64.ofInt p))
      (F64.div_notNegative _ _ hsnn hp0)
      (by
        intro i atr hi1 hi2 hinv
        obtain ⟨t, ht, htn⟩ := hidx i (by omega) hi2
        exact ⟨_, by simp [ht], F64.div_notNegative _ _
          (F64.add_notNegative _ _ (F64.mul_notNegative _ _ hinv hp1) htn) hp0⟩)
    refine ⟨atr, ?_, hann⟩
    unfold calculateATR64
    rw [if_neg hlen]
    simp only [Option.bind_eq_bind] at htrs hsum hatr ⊢
    rw [htrs, Option.some_bind, hsum, Option.some_bind]
    exact hatr

/-- On every series and for every period of at least 1, `calculateRSI` on
float64 values returns (no panic) a NaN or a number of `[0, 100]`. -/
theorem calculateRSI64_within (p : Int) (hp : 1 ≤ p) (s : List Kline) :
    ∃ r : F64, calculateRSI64 s p = some r ∧ F64.NaNOrWithin 0 100 r := by
  by_cases hlen : (s.length : Int) ≤ p
  · exact ⟨.finite 0, by simp [calculateRSI64, hlen], le_rfl, by norm_num⟩
  · have hp0 : (F64.ofInt p).NotNegative := F64.ofInt_notNegative p (by omega)
    have hp1 : (F64.ofInt (p - 1)).NotNegative := F64.ofInt_notNegative (p - 1) (by omega)
    have hidx : ∀ i : Int, 1 ≤ i → i < (s.length : Int) →
        ∃ k kp : Kline, index s i = some k ∧ index s (i - 1) = some kp := by
      intro i hi1 hi2
      obtain ⟨j, rfl⟩ := Int.eq_ofNat_of_zero_le (by omega : 0 ≤ i)
      have hj2 : j < s.length := by omega
      have hj3 : j - 1 < s.length := by omega
      have e1 : ((j : Int) - 1) = ((j - 1 : Nat) : Int) := by omega
      exact ⟨_, _, index_eq_get s j hj2, by rw [e1]; exact index_eq_get s (j - 1) hj3⟩
    obtain ⟨sums, hsums, hs1, hs2⟩ := forLoop_invariant 1 (p + 1) (by omega)
      (fun i st => do
        let k ← index s i
        let kp ← index s (i - 1)
        let change := F64.sub (.finite k.Close) (.finite kp.Close)
        if F64.lt (.finite 0) change then pure (F64.add st.1 change, st.2)
        else pure (st.1, F64.add st.2 (F64.neg change)))
      (fun _ (st : F64 × F64) => F64.NotNegative st.1 ∧ F64.NotNegative st.2)
      ((.finite 0, .finite 0) : F64 × F64) ⟨le_rfl, le_rfl⟩
      (by
        intro i st hi1 hi2 hinv
        obtain ⟨k, kp, hk, hkp⟩ := hidx i hi1 (by omega)
        have hc := F64.change_notNegative (F64.sub (.finite k.Close) (.finite kp.Close))
        by_cases hpos : F64.lt (.finite 0) (F64.sub (.finite k.Close) (.finite kp.Close)) = true
        · exact ⟨(F64.add st.1 (F64.sub (.finite k.Close) (.finite kp.Close)), st.2),
            by simp [hk, hkp, hpos], F64.add_notNegative _ _ hinv.1 (hc.1 hpos), hinv.2⟩
        · have hneg : F64.lt (.finite 0) (F64.sub (.finite k.Close) (.finite kp.Close)) = false := by
            simpa using hpos
          exact ⟨(st.1, F64.add st.2 (F64.neg (F64.sub (.finite k.Close) (.finite kp.Close)))),
            by simp [hk, hkp, hneg], hinv.1, F64.add_notNegative _ _ hinv.2 (hc.2 hneg)⟩)
    obtain ⟨avgs, havgs, ha1, ha2⟩ := forLoop_invariant (p + 1) (s.length : Int) (by omega)
      (fun i st => do
        let k ← index s i
        let kp ← index s (i - 1)
        let change := F64.sub (.finite k.Close) (.finite kp.Close)
        if F64.lt (.finite 0) change then
          pure (F64.div (F64.add (F64.mul st.1 (F64.ofInt (p - 1))) change) (F64.ofInt p),
            F64.div (F64.mul st.2 (F64.ofInt (p - 1))) (F64.ofInt p))
        else
          pure (F64.div (F64.mul st.1 (F64.ofInt (p - 1))) (F64.ofInt p),
            F64.div (F64.add (F64.mul st.2 (F64.ofInt (p - 1))) (F64.neg change))
              (F64.ofInt p)))
      (fun _ (st : F64 × F64) => F64.NotNegative st.1 ∧ F64.NotNegative st.2)
      (F64.div sums.1 (F64.ofInt p), F64.div sums.2 (F64.ofInt p))
      ⟨F64.div_notNegative _ _ hs1 hp0, F64.div_notNegative _ _ hs2 hp0⟩
      (by
        intro i st hi1 hi2 hinv
        obtain ⟨k, kp, hk, hkp⟩ := hidx i (by omega) hi2
        have hc := F64.change_notNegative (F64.sub (.finite k.Close) (.finite kp.Close))
        have hm1 := F64.mul_notNegative _ _ hinv.1 hp1
        have hm2 := F64.mul_notNegative _ _ hinv.2 hp1
        by_cases hpos : F64.lt (.finite 0) (F64.sub (.finite k.Close) (.finite kp.Close)) = true
        · exact ⟨(F64.div (F64.add (F64.mul st.1 (F64.ofInt (p - 1)))
                (F64.sub (.finite k.Close) (.finite kp.Close))) (F64.ofInt p),
              F64.div (F64.mul st.2 (F64.ofInt (p - 1))) (F64.ofInt p)),
            by simp [hk, hkp, hpos],
            F64.div_notNegative _ _ (F64.add_notNegative _ _ hm1 (hc.1 hpos)) hp0,
            F64.div_notNegative _ _ hm2 hp0⟩
        · have hneg : F64.lt (.finite 0) (F64.sub (.finite k.Close) (.finite kp.Close)) = false := by
            simpa using hpos
          exact ⟨(F64.div (F64.mul st.1 (F64.ofInt (p - 1))) (F64.ofInt p),
              F64.div (F64.add (F64.mul st.2 (F64.ofInt (p - 1)))
                (F64.neg (F64.sub (.finite k.Close) (.finite kp.Close)))) (F64.ofInt p)),
            by simp [hk, hkp, hneg],
            F64.div_notNegative _ _ hm1 hp0,
            F64.div_notNegative _ _ (F64.add_notNegative _ _ hm2 (hc.2 hneg)) hp0⟩)
    unfold calculateRSI64
    rw [if_neg hlen]
    simp only [Option.bind_eq_bind] at hsums havgs ⊢
    rw [hsums, Option.some_bind, havgs, Option.some_bind]
    by_cases hz : F64.eq avgs.2 (.finite 0) = true
    · rw [if_pos hz]
      exact ⟨_, rfl, by norm_num, le_rfl⟩
    · rw [if_neg hz]
      exact ⟨_, rfl, F64.rsi_within _ (F64.div_notNegative _ _ ha1 ha2)⟩

/-! ## calculateEMA -/

/-- Under every rounding, for a period of at least 1 and at least `period`
candles, `calculateEMA` returns the fold of its smoothing step over the candles
from index `period` on, started at the seed of the first `period` candles. -/
theorem calculateEMA_eq (rnd : Rounding) (s : List Kline) (n : Nat) (hn : 1 ≤ n)
    (hlen : n ≤ s.length) :
    calculateEMA rnd s (n : Int)
      = some ((s.drop n).foldl (emaStep rnd (rnd (2 / (((n : Int) + 1 : Int) : ℚ))))
          (emaSeed rnd (s.take n) (n : Int))) := by
  unfold calculateEMA
  have h1 : ¬ ((s.length : Int) < (n : Int)) := by omega
  rw [if_neg h1]
  have hsum := forLoop_index s 0 n hlen (fun (a : ℚ) (k : Kline) => some (fadd rnd a k.Close)) 0
  have hloop := forLoop_index s n s.length le_rfl
    (fun (a : ℚ) (k : Kline) =>
      some (emaStep rnd (rnd (2 / (((n : Int) + 1 : Int) : ℚ))) a k))
    (emaSeed rnd (s.take n) (n : Int))
  rw [foldlM_some_eq_foldl] at hsum hloop
  have hn0 : ((n : Int) : ℚ) ≠ 0 := by
    have : (n : ℚ) ≠ 0 := by positivity
    simpa using this
  have hn1 : (((n : Int) + 1 : Int) : ℚ) ≠ 0 := by
    have : ((n : ℚ) + 1) ≠ 0 := by positivity
    simpa using this
  simp only [List.drop_zero, Nat.sub_zero, Nat.cast_zero] at hsum
  have hsum2 : forLoop 0 (n : Int)
      (fun i sum => do
        let k ← index s i
        pure (fadd rnd sum k.Close)) (0 : ℚ)
      = some ((s.take n).foldl (fun a k => fadd rnd a k.Close) 0) := hsum
  rw [hsum2]
  have htake : List.take (s.length - n) (s.drop n) = s.drop n :=
    List.take_of_length_le (by simp)
  rw [htake] at hloop
  simp only [fdiv, if_neg hn0, if_neg hn1, Option.bind_eq_bind, Option.some_bind]
  exact hloop

@[simp] theorem fadd_exact (a b : ℚ) : fadd exactArith a b = a + b := rfl

@[simp] theorem fsub_exact (a b : ℚ) : fsub exactArith a b = a - b := rfl

@[simp] theorem fmul_exact (a b : ℚ) : fmul exactArith a b = a * b := rfl

@[simp] theorem exactArith_apply (a : ℚ) : exactArith a = a := rfl

theorem foldl_add_close (ks : List Kline) (init : ℚ) :
    ks.foldl (fun a k => a + k.Close) init = init + (ks.map Kline.Close).sum := by
  induction ks generalizing init with
  | nil => simp
  | cons k t ih => simp [List.foldl_cons, ih, add_assoc]

/-- C1 (as amended): `calculateEMA` follows the seed-plus-recurrence definition
in float64 operations. For every period >= 1 and every candle series `s`, under
every rounding: if `len(s) = period` then `calculateEMA(s, period)` is the rounded
quotient by `period` of the left-to-right rounded sum of the closes of `s`, which
in exact arithmetic is the arithmetic mean of the closes; if `len(s) >= period`
then `calculateEMA(s, period)` returns a value `e` and for every candle `c`,
`calculateEMA(s ++ [c], period) = (c.Close - e) * (2/(period+1)) + e` with each
of its four operations rounded, which in exact arithmetic is that formula
itself. -/
theorem calculateEMA_seed_recurrence (rnd : Rounding) (period : Int) (hp : 1 ≤ period)
    (s : List Kline) :
    ((s.length : Int) = period →
      calculateEMA rnd s period
        = some (rnd (s.foldl (fun sum k => rnd (sum + k.Close)) 0 / (period : ℚ))) ∧
      calculateEMA exactArith s period = some ((s.map Kline.Close).sum / (period : ℚ))) ∧
    (period ≤ (s.length : Int) →
      (∃ e : ℚ, calculateEMA rnd s period = some e ∧
        ∀ c : Kline, calculateEMA rnd (s ++ [c]) period
          = some (rnd (rnd (rnd (c.Close - e) * rnd (2 / ((period + 1 : Int) : ℚ))) + e))) ∧
      (∃ e : ℚ, calculateEMA exactArith s period = some e ∧
        ∀ c : Kline, calculateEMA exactArith (s ++ [c]) period
          = some ((c.Close - e) * (2 / ((period : ℚ) + 1)) + e))) := by
  obtain ⟨n, rfl⟩ := Int.eq_ofNat_of_zero_le (by omega : 0 ≤ period)
  have hn : 1 ≤ n := by omega
  have hrec : ∀ r : Rounding, n ≤ s.length →
      ∃ e : ℚ, calculateEMA r s (n : Int) = some e ∧
        ∀ c : Kline, calculateEMA r (s ++ [c]) (n : Int)
          = some (r (r (r (c.Close - e) * r (2 / (((n : Int) + 1 : Int) : ℚ))) + e)) := by
    intro r hlen2
    refine ⟨_, calculateEMA_eq r s n hn hlen2, ?_⟩
    intro c
    rw [calculateEMA_eq r (s ++ [c]) n hn (by simp; omega)]
    rw [List.drop_append_of_le_length hlen2, List.take_append_of_le_length hlen2,
      List.foldl_append]
    rfl
  constructor
  · intro hlen
    have hlen2 : s.length = n := by omega
    rw [calculateEMA_eq rnd s n hn (by omega), calculateEMA_eq exactArith s n hn (by omega)]
    subst hlen2
    constructor
    · simp [emaSeed, fadd]
    · simp [emaSeed, foldl_add_close]
  · intro hlen
    have hlen2 : n ≤ s.length := by omega
    refine ⟨hrec rnd hlen2, ?_⟩
    obtain ⟨e, he, hc⟩ := hrec exactArith hlen2
    refine ⟨e, he, fun c => ?_⟩
    rw [hc c]
    simp

/-- C1 (as amended) at a concrete input: exact arithmetic, period 2, the closes
1 and 2 give the mean `(1 + 2) / 2`. -/
theorem calculateEMA_seed_recurrence_witness :
    (1 : Int) ≤ 2 ∧
    calculateEMA exactArith [⟨0, 0, 0, 1, 0⟩, ⟨0, 0, 0, 2, 0⟩] 2 = some ((1 + 2) / 2) := by
  refine ⟨by decide, ?_⟩
  have h := ((calculateEMA_seed_recurrence exactArith 2 (by decide)
    [⟨0, 0, 0, 1, 0⟩, ⟨0, 0, 0, 2, 0⟩]).1 rfl).2
  simpa using h

/-- C1 as stated fails in float64 arithmetic: on twenty candles whose close is
the binary64 number nearest to 0.1, with period 20, `calculateEMA` gives
`7205759403792795 / 2^56` (0.10000000000000002), and the arithmetic mean of the
closes is the close itself, `3602879701896397 / 2^55`. -/
theorem calculateEMA_seed_binary64_counterexample :
    (tenthSeries.length : Int) = 20 ∧
    calculateEMA binary64 tenthSeries 20 = some (7205759403792795 / 72057594037927936) ∧
    (tenthSeries.map Kline.Close).sum / 20 = tenth ∧
    (7205759403792795 / 72057594037927936 : ℚ) ≠ tenth := by
  decide!

/-- C2: insufficient data yields exactly 0 and no failure, under every rounding:
`calculateEMA(s, p) = 0` when `len(s) < p`, `calculateRSI(s, p) = 0` and
`calculateATR(s, p) = 0` when `len(s) <= p`, `calculateMACD(s) = 0` when
`len(s) < 26`. -/
theorem insufficient_data_zero (rnd : Rounding) (s : List Kline) (p : Int) :
    ((s.length : Int) < p → calculateEMA rnd s p = some 0) ∧
    ((s.length : Int) ≤ p → calculateRSI rnd s p = some 0) ∧
    ((s.length : Int) ≤ p → calculateATR rnd s p = some 0) ∧
    (s.length < 26 → calculateMACD rnd s = some 0) := by
  refine ⟨?_, ?_, ?_, ?_⟩
  · intro h
    simp [calculateEMA, h]
  · intro h
    simp [calculateRSI, h]
  · intro h
    simp [calculateATR, h]
  · intro h
    simp [calculateMACD, h]

/-- C2 at a concrete input: five candles and RSI period 14 give 0. -/
theorem insufficient_data_zero_witness :
    calculateRSI exactArith
      [⟨1, 2, 0, 1, 5⟩, ⟨1, 3, 1, 2, 5⟩, ⟨2, 4, 1, 3, 5⟩, ⟨3, 3, 1, 2, 5⟩, ⟨2, 5, 2, 4, 5⟩] 14
      = some 0 :=
  (insufficient_data_zero exactArith _ 14).2.1 (by decide)

/-- The scalar EMA returns a value on every series that has at least `period`
candles, for a period of at least 1. -/
theorem calculateEMA_isSome (rnd : Rounding) (s : List Kline) (period : Int) (hp : 1 ≤ period)
    (hlen : period ≤ (s.length : Int)) : ∃ e : ℚ, calculateEMA rnd s period = some e := by
  obtain ⟨n, rfl⟩ := Int.eq_ofNat_of_zero_le (by omega : 0 ≤ period)
  exact ⟨_, calculateEMA_eq rnd s n (by omega) (by omega)⟩

/-- C3: for every series `s` with `len(s) >= 26`, both whole-series EMAs return a
value and `calculateMACD(s)` is exactly their float difference
`calculateEMA(s, 12) - calculateEMA(s, 26)`, under every rounding. -/
theorem calculateMACD_eq_sub (rnd : Rounding) (s : List Kline) (hlen : 26 ≤ s.length) :
    ∃ ema12 ema26 : ℚ, calculateEMA rnd s 12 = some ema12 ∧
      calculateEMA rnd s 26 = some ema26 ∧
      calculateMACD rnd s = some (fsub rnd ema12 ema26) := by
  obtain ⟨e12, h12⟩ := calculateEMA_isSome rnd s 12 (by decide) (by omega)
  obtain ⟨e26, h26⟩ := calculateEMA_isSome rnd s 26 (by decide) (by omega)
  refine ⟨e12, e26, h12, h26, ?_⟩
  have h : ¬ (s.length < 26) := by omega
  simp [calculateMACD, h, h12, h26]

/-- C3 at a concrete input: 26 candles with close 1. -/
theorem calculateMACD_eq_sub_witness :
    ∃ ema12 ema26 : ℚ,
      calculateEMA exactArith (List.replicate 26 ⟨1, 1, 1, 1, 1⟩) 12 = some ema12 ∧
      calculateEMA exactArith (List.replicate 26 ⟨1, 1, 1, 1, 1⟩) 26 = some ema26 ∧
      calculateMACD exactArith (List.replicate 26 ⟨1, 1, 1, 1, 1⟩) = some (ema12 - ema26) :=
  calculateMACD_eq_sub exactArith (List.replicate 26 ⟨1, 1, 1, 1, 1⟩) (by simp)

theorem sum_close_const (P : ℚ) (l : List Kline) (hl : ∀ k ∈ l, k.Close = P) :
    (l.map Kline.Close).sum = (l.length : ℚ) * P := by
  induction l with
  | nil => simp
  | cons k t ih =>
    have hk : k.Close = P := hl k (List.mem_cons_self k t)
    have ht := ih (fun x hx => hl x (List.mem_cons_of_mem k hx))
    simp only [List.map_cons, List.sum_cons, List.length_cons, hk, ht]
    push_cast
    ring

theorem emaStep_const (rnd : Rounding) (h0 : rnd 0 = 0) (P : ℚ) (hP : rnd P = P) (m : ℚ)
    (k : Kline) (hk : k.Close = P) : emaStep rnd m P k = P := by
  simp [emaStep, fadd, fmul, fsub, hk, h0, hP]

/-- A constant series keeps the EMA at `P` once the seed is `P`, under every
rounding that leaves 0 and `P` unchanged. -/
theorem calculateEMA_const_of_seed (rnd : Rounding) (h0 : rnd 0 = 0) (P : ℚ) (hP : rnd P = P)
    (n : Nat) (hn : 1 ≤ n) (s : List Kline) (hlen : n ≤ s.length)
    (hs : ∀ k ∈ s, k.Close = P) (hseed : calculateEMA rnd (s.take n) (n : Int) = some P) :
    calculateEMA rnd s (n : Int) = some P := by
  rw [calculateEMA_eq rnd (s.take n) n hn (by simp [hlen])] at hseed
  have hd : List.drop n (List.take n s) = [] := by simp
  have ht : List.take n (List.take n s) = List.take n s := by simp
  rw [hd, ht, List.foldl_nil] at hseed
  have hseed2 : emaSeed rnd (s.take n) (n : Int) = P := Option.some.inj hseed
  rw [calculateEMA_eq rnd s n hn hlen, hseed2]
  congr 1
  exact foldl_invariant_mem (fun a : ℚ => a = P) _ _
    (fun a k hk ha => by
      rw [ha]
      exact emaStep_const rnd h0 P hP _ k (hs k (List.mem_of_mem_drop hk)))
    P rfl

/-- C9 (as amended): for every price `P`, every period `p >= 1` and every series
`s` of length `n >= p` whose closes all equal `P`: in exact arithmetic
`calculateEMA(s, p) = P`; under a rounding that leaves 0 and `P` unchanged,
`calculateEMA(s, p) = P` whenever the seed, the EMA of the first `p` candles, is
exactly `P`. -/
theorem calculateEMA_const_fixed_point (P : ℚ) (p : Int) (hp : 1 ≤ p) (s : List Kline)
    (hlen : p ≤ (s.length : Int)) (hs : ∀ k ∈ s, k.Close = P) :
    calculateEMA exactArith s p = some P ∧
    ∀ rnd : Rounding, rnd 0 = 0 → rnd P = P →
      calculateEMA rnd (s.take p.toNat) p = some P → calculateEMA rnd s p = some P := by
  obtain ⟨n, rfl⟩ := Int.eq_ofNat_of_zero_le (by omega : 0 ≤ p)
  have hn : 1 ≤ n := by omega
  have hlen2 : n ≤ s.length := by omega
  constructor
  · apply calculateEMA_const_of_seed exactArith rfl P rfl n hn s hlen2 hs
    rw [calculateEMA_eq exactArith (s.take n) n hn (by simp [hlen2])]
    have hd : List.drop n (List.take n s) = [] := by simp
    have ht : List.take n (List.take n s) = List.take n s := by simp
    have hsum := sum_close_const P (s.take n) (fun k hk => hs k (List.mem_of_mem_take hk))
    have hl : (List.take n s).length = n := by simp [hlen2]
    have hn0 : (n : ℚ) ≠ 0 := by positivity
    rw [hd, ht, List.foldl_nil]
    unfold emaSeed
    simp only [fadd_exact, exactArith_apply]
    rw [foldl_add_close, hsum, hl]
    congr 1
    push_cast
    field_simp
  · intro rnd h0 hP hseed
    exact calculateEMA_const_of_seed rnd h0 P hP n hn s hlen2 hs (by simpa using hseed)

/-- C9 (as amended) at the input of the specification: 30 candles of close 100,
period 20. -/
theorem calculateEMA_const_fixed_point_witness :
    (1 : Int) ≤ 20 ∧
    calculateEMA exactArith (List.replicate 30 ⟨100, 100, 100, 100, 1⟩) 20 = some 100 :=
  ⟨by decide,
    (calculateEMA_const_fixed_point 100 20 (by decide)
      (List.replicate 30 ⟨100, 100, 100, 100, 1⟩) (by simp)
      (fun k hk => by rw [List.eq_of_mem_replicate hk])).1⟩

/-- C9 as stated fails in float64 arithmetic: on candles whose close is the
binary64 number nearest to 0.1, with period 20, the seed alone (20 candles) and
the whole run on 30 candles both give `7205759403792795 / 2^56`
(0.10000000000000002), not the close. -/
theorem calculateEMA_const_binary64_counterexample :
    binary64 tenth = tenth ∧
    calculateEMA binary64 (List.replicate 20 ⟨tenth, tenth, tenth, tenth, 1⟩) 20
      = some (7205759403792795 / 72057594037927936) ∧
    calculateEMA binary64 (List.replicate 30 ⟨tenth, tenth, tenth, tenth, 1⟩) 20
      = some (7205759403792795 / 72057594037927936) ∧
    calculateEMA binary64 (List.replicate 30 ⟨tenth, tenth, tenth, tenth, 1⟩) 20 ≠ some tenth := by
  decide!

/-! ## calculateRSI -/

theorem foldlM_pairs_eq_foldl {σ α β : Type} (g : σ → β → σ) (c : α × α → β)
    (l : List (α × α)) (init : σ) :
    l.foldlM (fun a pr => some (g a (c pr))) init = some ((l.map c).foldl g init) := by
  rw [foldlM_some_eq_foldl (fun a pr => g a (c pr)) l init, List.foldl_map]

/-- Under every rounding, for a period of at least 1 and more than `period`
candles, `calculateRSI` is the end of the function applied to the averages that
its two loops fold out of the close-to-close changes. -/
theorem calculateRSI_eq (rnd : Rounding) (s : List Kline) (n : Nat) (hn : 1 ≤ n)
    (hlen : n < s.length) :
    calculateRSI rnd s (n : Int) = rsiFinal rnd (rsiAverages rnd s n) := by
  unfold calculateRSI
  have h1 : ¬ ((s.length : Int) ≤ (n : Int)) := by omega
  rw [if_neg h1]
  have hn0 : ((n : Int) : ℚ) ≠ 0 := by
    have : (n : ℚ) ≠ 0 := by positivity
    simpa using this
  have hseed := (forLoop_pairs s 1 (n + 1) le_rfl (by omega)
    (fun (st : ℚ × ℚ) kp k => some (rsiSeedStep rnd st (fsub rnd k.Close kp.Close))) (0, 0)).trans
    (foldlM_pairs_eq_foldl (rsiSeedStep rnd)
      (fun pr : Kline × Kline => fsub rnd pr.2.Close pr.1.Close) _ _)
  have hsmooth := fun init => (forLoop_pairs s (n + 1) s.length (by omega) le_rfl
    (fun (st : ℚ × ℚ) kp k =>
      some (rsiSmoothStep rnd (n : Int) st (fsub rnd k.Close kp.Close))) init).trans
    (foldlM_pairs_eq_foldl (rsiSmoothStep rnd (n : Int))
      (fun pr : Kline × Kline => fsub rnd pr.2.Close pr.1.Close) _ _)
  simp only [Nat.cast_add, Nat.cast_one, Nat.sub_self, List.drop_zero, Nat.add_sub_cancel,
    Nat.add_sub_cancel_left, List.map_take, List.map_drop] at hseed hsmooth
  have hseed2 : forLoop 1 ((n : Int) + 1)
      (fun i st => do
        let k ← index s i
        let kp ← index s (i - 1)
        let change := fsub rnd k.Close kp.Close
        if change > 0 then pure (fadd rnd st.1 change, st.2)
        else pure (st.1, fadd rnd st.2 (-change))) ((0, 0) : ℚ × ℚ)
      = some (((changes rnd s).take n).foldl (rsiSeedStep rnd) (0, 0)) := by
    rw [changes, ← hseed]
    congr 1
    funext i st
    congr 1
    funext k
    congr 1
    funext kp
    simp only [rsiSeedStep]
    split <;> rfl
  have hsmooth2 : ∀ init : ℚ × ℚ, forLoop ((n : Int) + 1) (s.length : Int)
      (fun i st => do
        let k ← index s i
        let kp ← index s (i - 1)
        let change := fsub rnd k.Close kp.Close
        if change > 0 then do
          let g ← fdiv rnd (fadd rnd (fmul rnd st.1 (((n : Int) - 1 : Int) : ℚ)) change) ((n : Int) : ℚ)
          let l ← fdiv rnd (fmul rnd st.2 (((n : Int) - 1 : Int) : ℚ)) ((n : Int) : ℚ)
          pure (g, l)
        else do
          let g ← fdiv rnd (fmul rnd st.1 (((n : Int) - 1 : Int) : ℚ)) ((n : Int) : ℚ)
          let l ← fdiv rnd (fadd rnd (fmul rnd st.2 (((n : Int) - 1 : Int) : ℚ)) (-change)) ((n : Int) : ℚ)
          pure (g, l)) init
      = some (((changes rnd s).drop n).foldl (rsiSmoothStep rnd (n : Int)) init) := by
    intro init
    have htake : List.take (s.length - (n + 1)) (List.drop n (changes rnd s))
        = List.drop n (changes rnd s) :=
      List.take_of_length_le (by simp [changes, adjacent_length]; omega)
    have h := hsmooth init
    rw [← changes, htake] at h
    rw [← h]
    congr 1
    funext i st
    congr 1
    funext k
    congr 1
    funext kp
    simp only [rsiSmoothStep, fdiv, if_neg hn0]
    split <;> rfl
  rw [hseed2, Option.bind_eq_bind, Option.some_bind, bind_fdiv rnd _ _ hn0,
    bind_fdiv rnd _ _ hn0, hsmooth2]
  rfl

theorem rnd_nonneg (rnd : Rounding) (hmono : Monotone rnd) (h0 : rnd 0 = 0) (x : ℚ)
    (hx : 0 ≤ x) : 0 ≤ rnd x := by
  have := hmono hx
  rwa [h0] at this

theorem rsiSeedStep_nonneg (rnd : Rounding) (hmono : Monotone rnd) (h0 : rnd 0 = 0)
    (st : ℚ × ℚ) (d : ℚ) (hst : 0 ≤ st.1 ∧ 0 ≤ st.2) :
    0 ≤ (rsiSeedStep rnd st d).1 ∧ 0 ≤ (rsiSeedStep rnd st d).2 := by
  unfold rsiSeedStep
  split
  · next hd =>
    exact ⟨rnd_nonneg rnd hmono h0 _ (by have := hst.1; linarith), hst.2⟩
  · next hd =>
    exact ⟨hst.1, rnd_nonneg rnd hmono h0 _ (by have := hst.2; linarith)⟩

theorem rsiSmoothStep_nonneg (rnd : Rounding) (hmono : Monotone rnd) (h0 : rnd 0 = 0)
    (n : Nat) (hn : 1 ≤ n) (st : ℚ × ℚ) (d : ℚ) (hst : 0 ≤ st.1 ∧ 0 ≤ st.2) :
    0 ≤ (rsiSmoothStep rnd (n : Int) st d).1 ∧ 0 ≤ (rsiSmoothStep rnd (n : Int) st d).2 := by
  have hn0 : (0 : ℚ) ≤ (((n : Int) : ℚ)) := by simp
  have hn1 : (0 : ℚ) ≤ ((((n : Int) - 1 : Int)) : ℚ) := by
    have : (0 : Int) ≤ (n : Int) - 1 := by omega
    exact_mod_cast this
  have hm1 : 0 ≤ fmul rnd st.1 ((((n : Int) - 1 : Int)) : ℚ) :=
    rnd_nonneg rnd hmono h0 _ (mul_nonneg hst.1 hn1)
  have hm2 : 0 ≤ fmul rnd st.2 ((((n : Int) - 1 : Int)) : ℚ) :=
    rnd_nonneg rnd hmono h0 _ (mul_nonneg hst.2 hn1)
  unfold rsiSmoothStep
  split
  · next hd =>
    refine ⟨rnd_nonneg rnd hmono h0 _ (div_nonneg ?_ hn0),
      rnd_nonneg rnd hmono h0 _ (div_nonneg hm2 hn0)⟩
    exact rnd_nonneg rnd hmono h0 _ (by linarith)
  · next hd =>
    refine ⟨rnd_nonneg rnd hmono h0 _ (div_nonneg hm1 hn0),
      rnd_nonneg rnd hmono h0 _ (div_nonneg ?_ hn0)⟩
    exact rnd_nonneg rnd hmono h0 _ (by linarith)

/-- The average gain and the average loss are never negative. -/
theorem rsiAverages_nonneg (rnd : Rounding) (hmono : Monotone rnd) (h0 : rnd 0 = 0)
    (s : List Kline) (n : Nat) (hn : 1 ≤ n) :
    0 ≤ (rsiAverages rnd s n).1 ∧ 0 ≤ (rsiAverages rnd s n).2 := by
  unfold rsiAverages
  have hseed := foldl_invariant (fun st : ℚ × ℚ => 0 ≤ st.1 ∧ 0 ≤ st.2) (rsiSeedStep rnd)
    (fun a x ha => rsiSeedStep_nonneg rnd hmono h0 a x ha) ((changes rnd s).take n) (0, 0)
    ⟨le_rfl, le_rfl⟩
  have hn0 : (0 : ℚ) ≤ (((n : Int) : ℚ)) := by simp
  exact foldl_invariant (fun st : ℚ × ℚ => 0 ≤ st.1 ∧ 0 ≤ st.2) (rsiSmoothStep rnd (n : Int))
    (fun a x ha => rsiSmoothStep_nonneg rnd hmono h0 n hn a x ha) _ _
    ⟨rnd_nonneg rnd hmono h0 _ (div_nonneg hseed.1 hn0),
      rnd_nonneg rnd hmono h0 _ (div_nonneg hseed.2 hn0)⟩

theorem monotone_exactArith : Monotone exactArith := fun _ _ h => h

theorem rsiFinal_bounded (rnd : Rounding) (hmono : Monotone rnd) (h0 : rnd 0 = 0)
    (h1 : rnd 1 = 1) (h100 : rnd 100 = 100) (avgs : ℚ × ℚ) (hg : 0 ≤ avgs.1)
    (hl : 0 ≤ avgs.2) : ∃ r : ℚ, rsiFinal rnd avgs = some r ∧ 0 ≤ r ∧ r ≤ 100 := by
  unfold rsiFinal
  by_cases hz : avgs.2 = 0
  · exact ⟨100, by simp [hz], by norm_num, le_rfl⟩
  · have hrs : 0 ≤ rnd (avgs.1 / avgs.2) := rnd_nonneg rnd hmono h0 _ (div_nonneg hg hl)
    have hd : 1 ≤ fadd rnd 1 (rnd (avgs.1 / avgs.2)) := by
      have := hmono (show (1 : ℚ) ≤ 1 + rnd (avgs.1 / avgs.2) by linarith)
      rwa [h1] at this
    have hd0 : fadd rnd 1 (rnd (avgs.1 / avgs.2)) ≠ 0 := by linarith
    have hq0 : 0 ≤ rnd (100 / fadd rnd 1 (rnd (avgs.1 / avgs.2))) :=
      rnd_nonneg rnd hmono h0 _ (div_nonneg (by norm_num) (by linarith))
    have hq100 : rnd (100 / fadd rnd 1 (rnd (avgs.1 / avgs.2))) ≤ 100 := by
      have hle : 100 / fadd rnd 1 (rnd (avgs.1 / avgs.2)) ≤ 100 := by
        rw [div_le_iff₀ (by linarith)]
        nlinarith
      have := hmono hle
      rwa [h100] at this
    refine ⟨fsub rnd 100 (rnd (100 / fadd rnd 1 (rnd (avgs.1 / avgs.2)))), ?_, ?_, ?_⟩
    · rw [if_neg hz, fdiv_of_ne rnd _ _ hz]
      simp only [Option.bind_eq_bind, Option.some_bind]
      rw [fdiv_of_ne rnd _ _ hd0]
      rfl
    · exact rnd_nonneg rnd hmono h0 _ (by linarith)
    · have := hmono (show 100 - rnd (100 / fadd rnd 1 (rnd (avgs.1 / avgs.2))) ≤ (100 : ℚ) by
        linarith)
      rwa [h100] at this

theorem calculateRSI_range (rnd : Rounding) (hmono : Monotone rnd) (h0 : rnd 0 = 0)
    (h1 : rnd 1 = 1) (h100 : rnd 100 = 100) (p : Int) (hp : 1 ≤ p) (s : List Kline) :
    ∃ r : ℚ, calculateRSI rnd s p = some r ∧ 0 ≤ r ∧ r ≤ 100 := by
  by_cases hlen : (s.length : Int) ≤ p
  · exact ⟨0, by simp [calculateRSI, hlen], le_rfl, by norm_num⟩
  · obtain ⟨n, rfl⟩ := Int.eq_ofNat_of_zero_le (by omega : 0 ≤ p)
    have hn : 1 ≤ n := by omega
    rw [calculateRSI_eq rnd s n hn (by omega)]
    have hnn := rsiAverages_nonneg rnd hmono h0 s n hn
    exact rsiFinal_bounded rnd hmono h0 h1 h100 _ hnn.1 hnn.2

/-- C5 (as amended): RSI is bounded unless an operation overflows. For every
period `p >= 1` and every candle series `s` (any finite closes, any length): on
float64 values `calculateRSI(s, p)` returns a NaN or a number `r` with
`0 <= r <= 100`; and in the arithmetic of rounded rationals, in which no
operation overflows, it returns a number `r` with `0 <= r <= 100`, with the
rounding of float64 and with every monotone rounding that leaves 0, 1 and 100
unchanged. -/
theorem calculateRSI_bounded (p : Int) (hp : 1 ≤ p) (s : List Kline) :
    (∃ r : F64, calculateRSI64 s p = some r ∧
      (r = .nan ∨ ∃ q : ℚ, r = .finite q ∧ 0 ≤ q ∧ q ≤ 100)) ∧
    (∃ r : ℚ, calculateRSI binary64 s p = some r ∧ 0 ≤ r ∧ r ≤ 100) ∧
    ∀ rnd : Rounding, Monotone rnd → rnd 0 = 0 → rnd 1 = 1 → rnd 100 = 100 →
      ∃ r : ℚ, calculateRSI rnd s p = some r ∧ 0 ≤ r ∧ r ≤ 100 := by
  refine ⟨?_, calculateRSI_range binary64 monotone_binary64 binary64_fixed.1 binary64_fixed.2.1
    binary64_fixed.2.2 p hp s,
    fun rnd hmono h0 h1 h100 => calculateRSI_range rnd hmono h0 h1 h100 p hp s⟩
  obtain ⟨r, hr, hw⟩ := calculateRSI64_within p hp s
  refine ⟨r, hr, ?_⟩
  cases r with
  | finite q => exact Or.inr ⟨q, rfl, hw.1, hw.2⟩
  | inf negative => exact absurd hw (by simp [F64.NaNOrWithin])
  | nan => exact Or.inl rfl

/-- C5 (as amended) at a concrete input: period 2, closes 1, 2, 4, 3, on float64
values and in exact arithmetic. -/
theorem calculateRSI_bounded_witness :
    (1 : Int) ≤ 2 ∧
    (∃ r : F64, calculateRSI64
        [⟨0, 0, 0, 1, 0⟩, ⟨0, 0, 0, 2, 0⟩, ⟨0, 0, 0, 4, 0⟩, ⟨0, 0, 0, 3, 0⟩] 2 = some r ∧
      (r = .nan ∨ ∃ q : ℚ, r = .finite q ∧ 0 ≤ q ∧ q ≤ 100)) ∧
    ∃ r : ℚ, calculateRSI exactArith
      [⟨0, 0, 0, 1, 0⟩, ⟨0, 0, 0, 2, 0⟩, ⟨0, 0, 0, 4, 0⟩, ⟨0, 0, 0, 3, 0⟩] 2 = some r ∧
      0 ≤ r ∧ r ≤ 100 :=
  ⟨by decide,
    (calculateRSI_bounded 2 (by decide)
      [⟨0, 0, 0, 1, 0⟩, ⟨0, 0, 0, 2, 0⟩, ⟨0, 0, 0, 4, 0⟩, ⟨0, 0, 0, 3, 0⟩]).1,
    (calculateRSI_bounded 2 (by decide)
      [⟨0, 0, 0, 1, 0⟩, ⟨0, 0, 0, 2, 0⟩, ⟨0, 0, 0, 4, 0⟩, ⟨0, 0, 0, 3, 0⟩]).2.2
      exactArith monotone_exactArith rfl rfl rfl⟩

/-- C5 as stated fails on closes whose difference overflows: on the float64
closes `-2^1023`, `2^1023` and 0 with period 1, the first change `2^1024` is
`+Inf`, the smoothing step computes `+Inf * 0`, and `calculateRSI` returns a NaN,
which is not in `[0, 100]`. -/
theorem calculateRSI_overflow_counterexample :
    (1 : Int) ≤ 1 ∧
    F64.sub (.finite (2 ^ 1023)) (.finite (-(2 ^ 1023))) = .inf false ∧
    F64.mul (.inf false) (F64.ofInt (1 - 1)) = .nan ∧
    calculateRSI64 hugeSeries 1 = some .nan ∧
    F64.lt .nan (.finite 0) = false ∧ F64.eq .nan (.finite 0) = false ∧
    F64.lt (.finite 0) .nan = false := by
  decide!

theorem changes_exact (s : List Kline) : changes exactArith s = closeDeltas s := by
  unfold changes closeDeltas adjacent
  apply List.ext_getElem
  · simp
  · intro i h1 h2
    simp

theorem foldl_rsiSeedStep_exact (ds : List ℚ) (g l : ℚ) :
    ds.foldl (rsiSeedStep exactArith) (g, l)
      = (g + (ds.filter (fun d => 0 < d)).sum,
          l + ((ds.filter (fun d => d ≤ 0)).map (fun d => |d|)).sum) := by
  induction ds generalizing g l with
  | nil => simp
  | cons d t ih =>
    rw [List.foldl_cons]
    by_cases hd : 0 < d
    · have hd2 : ¬ d ≤ 0 := not_le.mpr hd
      have hstep : rsiSeedStep exactArith (g, l) d = (g + d, l) := by
        simp [rsiSeedStep, hd]
      rw [hstep, ih]
      simp [hd, hd2, add_assoc]
    · have hd2 : d ≤ 0 := not_lt.mp hd
      have hstep : rsiSeedStep exactArith (g, l) d = (g, l + -d) := by
        simp [rsiSeedStep, hd]
      rw [hstep, ih]
      simp [hd, hd2, abs_of_nonpos hd2, add_assoc]

theorem rsiSmoothStep_exact (n : Nat) (a : ℚ × ℚ) (d : ℚ) :
    rsiSmoothStep exactArith (n : Int) a d
      = ((a.1 * ((n : ℚ) - 1) + max d 0) / (n : ℚ), (a.2 * ((n : ℚ) - 1) + max (-d) 0) / (n : ℚ)) := by
  unfold rsiSmoothStep
  by_cases hd : d > 0
  · have h1 : max d 0 = d := max_eq_left (le_of_lt hd)
    have h2 : max (-d) 0 = 0 := max_eq_right (by linarith)
    simp [hd, h1, h2]
  · have hd2 : d ≤ 0 := not_lt.mp hd
    have h1 : max d 0 = 0 := max_eq_right hd2
    have h2 : max (-d) 0 = -d := max_eq_left (by linarith)
    simp [hd, h1, h2]

theorem rsiFinal_exact (avgs : ℚ × ℚ) (hg : 0 ≤ avgs.1) (hl : 0 ≤ avgs.2) :
    rsiFinal exactArith avgs
      = some (if avgs.2 = 0 then 100 else 100 - 100 / (1 + avgs.1 / avgs.2)) := by
  unfold rsiFinal
  by_cases hz : avgs.2 = 0
  · simp [hz]
  · have hrs : 0 ≤ avgs.1 / avgs.2 := div_nonneg hg hl
    have hd0 : fadd exactArith 1 (exactArith (avgs.1 / avgs.2)) ≠ 0 := by
      simp only [fadd_exact, exactArith_apply]
      linarith
    rw [if_neg hz, if_neg hz, fdiv_of_ne _ _ _ hz]
    simp only [Option.bind_eq_bind, Option.some_bind]
    rw [fdiv_of_ne _ _ _ hd0]
    rfl

/-- C4 (as amended): `calculateRSI` is Wilder-smoothed, in float64 operations.
For every period `p >= 1` and series `s` with `len(s) > p`: in exact arithmetic
`calculateRSI(s, p)` returns the Wilder-smoothed RSI of the specification (seeds
(sum of positive deltas)/p and (sum of magnitudes of the non-positive deltas)/p
over the first `p` deltas, updates `(avg*(p-1) + max(±d, 0))/p` on each later
delta, result `100 - 100/(1 + avgGain/avgLoss)`, or 100 when `avgLoss = 0`); and
under every rounding it is the same computation with each operation rounded, the
end of the function applied to the averages folded out of the rounded changes. -/
theorem calculateRSI_wilder (p : Nat) (hp : 1 ≤ p) (s : List Kline) (hlen : p < s.length) :
    calculateRSI exactArith s (p : Int) = some (wilderRSISpec s p) ∧
    ∀ rnd : Rounding, calculateRSI rnd s (p : Int) = rsiFinal rnd (rsiAverages rnd s p) := by
  refine ⟨?_, fun rnd => calculateRSI_eq rnd s p hp hlen⟩
  rw [calculateRSI_eq exactArith s p hp hlen]
  have hnn := rsiAverages_nonneg exactArith monotone_exactArith rfl s p hp
  rw [rsiFinal_exact _ hnn.1 hnn.2]
  have havg : rsiAverages exactArith s p
      = ((closeDeltas s).drop p).foldl
          (fun (a : ℚ × ℚ) d =>
            ((a.1 * ((p : ℚ) - 1) + max d 0) / (p : ℚ),
              (a.2 * ((p : ℚ) - 1) + max (-d) 0) / (p : ℚ)))
          ((((closeDeltas s).take p).filter (fun d => 0 < d)).sum / (p : ℚ),
            ((((closeDeltas s).take p).filter (fun d => d ≤ 0)).map (fun d => |d|)).sum
              / (p : ℚ)) := by
    unfold rsiAverages
    rw [changes_exact, foldl_rsiSeedStep_exact]
    have hf : rsiSmoothStep exactArith (p : Int)
        = (fun (a : ℚ × ℚ) d =>
            ((a.1 * ((p : ℚ) - 1) + max d 0) / (p : ℚ),
              (a.2 * ((p : ℚ) - 1) + max (-d) 0) / (p : ℚ))) := by
      funext a d
      exact rsiSmoothStep_exact p a d
    rw [hf]
    simp
  rw [havg]
  rfl

/-- C4 (as amended) at a concrete input: period 2, closes 1, 2, 4, 3. -/
theorem calculateRSI_wilder_witness :
    1 ≤ 2 ∧ 2 < [(⟨0, 0, 0, 1, 0⟩ : Kline), ⟨0, 0, 0, 2, 0⟩, ⟨0, 0, 0, 4, 0⟩, ⟨0, 0, 0, 3, 0⟩].length ∧
    calculateRSI exactArith
      [⟨0, 0, 0, 1, 0⟩, ⟨0, 0, 0, 2, 0⟩, ⟨0, 0, 0, 4, 0⟩, ⟨0, 0, 0, 3, 0⟩] ((2 : Nat) : Int)
      = some (wilderRSISpec
          [⟨0, 0, 0, 1, 0⟩, ⟨0, 0, 0, 2, 0⟩, ⟨0, 0, 0, 4, 0⟩, ⟨0, 0, 0, 3, 0⟩] 2) :=
  ⟨by decide, by decide, (calculateRSI_wilder 2 (by decide) _ (by decide)).1⟩

/-- C4 as stated fails in float64 arithmetic. On five candles whose closes are
the binary64 numbers nearest to 0.1, 0.3, 0.2, 0.7 and 0.6, with period 3,
`calculateRSI` gives `5185065360459453 / 2^46` and the formula of the claim gives
`168134386088498500 / 2281823811201051`. On the closes 0, `-2^-1074` and
`-2^-1074` with period 2 the average loss `2^-1074 / 2` underflows to 0, so
`calculateRSI` returns 100 where the formula gives 0. -/
theorem calculateRSI_wilder_binary64_counterexample :
    calculateRSI binary64 wobblingSeries 3 = some (5185065360459453 / 70368744177664) ∧
    calculateRSI64 wobblingSeries 3 = some (.finite (5185065360459453 / 70368744177664)) ∧
    wilderRSISpec wobblingSeries 3 = 168134386088498500 / 2281823811201051 ∧
    (5185065360459453 / 70368744177664 : ℚ) ≠ 168134386088498500 / 2281823811201051 ∧
    calculateRSI binary64 tinySeries 2 = some 100 ∧
    calculateRSI64 tinySeries 2 = some (.finite 100) ∧
    wilderRSISpec tinySeries 2 = 0 := by
  decide!

theorem adjacent_of_chain {α : Type} (R : α → α → Prop) (xs : List α) (h : List.Chain' R xs) :
    ∀ pr ∈ adjacent xs, R pr.1 pr.2 := by
  induction xs with
  | nil => simp [adjacent]
  | cons a t ih =>
    cases t with
    | nil => simp [adjacent]
    | cons b u =>
      intro pr hpr
      have hc := List.chain'_cons.mp h
      have hpr2 : pr = (a, b) ∨ pr ∈ adjacent (b :: u) := by
        simpa [adjacent] using hpr
      rcases hpr2 with rfl | hmem
      · exact hc.1
      · exact ih hc.2 pr hmem

theorem changes_nonneg_of_chain (rnd : Rounding) (hmono : Monotone rnd) (h0 : rnd 0 = 0)
    (s : List Kline) (h : List.Chain' (fun a b : Kline => a.Close ≤ b.Close) s) :
    ∀ d ∈ changes rnd s, 0 ≤ d := by
  intro d hd
  obtain ⟨pr, hpr, rfl⟩ := List.mem_map.mp hd
  have := adjacent_of_chain _ s h pr hpr
  exact rnd_nonneg rnd hmono h0 _ (by linarith)

theorem rsiSeedStep_no_loss (rnd : Rounding) (h0 : rnd 0 = 0) (st : ℚ × ℚ) (d : ℚ)
    (hd : 0 ≤ d) (hst : st.2 = 0) : (rsiSeedStep rnd st d).2 = 0 := by
  unfold rsiSeedStep
  split
  · exact hst
  · next hneg =>
    have hd0 : d = 0 := le_antisymm (not_lt.mp hneg) hd
    simp [fadd, hst, hd0, h0]

theorem rsiSmoothStep_no_loss (rnd : Rounding) (h0 : rnd 0 = 0) (p : Int) (st : ℚ × ℚ)
    (d : ℚ) (hd : 0 ≤ d) (hst : st.2 = 0) : (rsiSmoothStep rnd p st d).2 = 0 := by
  unfold rsiSmoothStep
  split
  · simp [fmul, hst, h0]
  · next hneg =>
    have hd0 : d = 0 := le_antisymm (not_lt.mp hneg) hd
    simp [fadd, fmul, hst, hd0, h0]

/-- C6: for every period `p >= 1` and every series `s` with `len(s) > p` in
which no close is lower than the close before it (a flat series included),
`calculateRSI(s, p) = 100`; this holds in exact arithmetic and under every
monotone rounding that leaves 0 unchanged. -/
theorem calculateRSI_no_loss (rnd : Rounding) (hmono : Monotone rnd) (h0 : rnd 0 = 0)
    (p : Int) (hp : 1 ≤ p) (s : List Kline) (hlen : p < (s.length : Int))
    (hup : List.Chain' (fun a b : Kline => a.Close ≤ b.Close) s) :
    calculateRSI rnd s p = some 100 := by
  obtain ⟨n, rfl⟩ := Int.eq_ofNat_of_zero_le (by omega : 0 ≤ p)
  rw [calculateRSI_eq rnd s n (by omega) (by omega)]
  have hch := changes_nonneg_of_chain rnd hmono h0 s hup
  have hseed : (((changes rnd s).take n).foldl (rsiSeedStep rnd) (0, 0)).2 = 0 :=
    foldl_invariant_mem (fun st : ℚ × ℚ => st.2 = 0) (rsiSeedStep rnd) _
      (fun a x hx ha => rsiSeedStep_no_loss rnd h0 a x (hch x (List.mem_of_mem_take hx)) ha)
      (0, 0) rfl
  have havg : (rsiAverages rnd s n).2 = 0 := by
    unfold rsiAverages
    exact foldl_invariant_mem (fun st : ℚ × ℚ => st.2 = 0) (rsiSmoothStep rnd (n : Int)) _
      (fun a x hx ha =>
        rsiSmoothStep_no_loss rnd h0 (n : Int) a x (hch x (List.mem_of_mem_drop hx)) ha)
      _ (by rw [hseed]; simp [h0])
  simp [rsiFinal, havg]

/-- C6 at a concrete input: exact arithmetic, period 2, closes 1, 1, 3, 3. -/
theorem calculateRSI_no_loss_witness :
    Monotone exactArith ∧ exactArith 0 = 0 ∧ (1 : Int) ≤ 2 ∧
    calculateRSI exactArith
      [⟨0, 0, 0, 1, 0⟩, ⟨0, 0, 0, 1, 0⟩, ⟨0, 0, 0, 3, 0⟩, ⟨0, 0, 0, 3, 0⟩] 2 = some 100 :=
  ⟨monotone_exactArith, rfl, by decide,
    calculateRSI_no_loss exactArith monotone_exactArith rfl 2 (by decide) _ (by decide)
      (by norm_num)⟩

/-! ## calculateATR -/

theorem trueRanges_length (rnd : Rounding) (s : List Kline) :
    (trueRanges rnd s).length = s.length - 1 := by
  simp [trueRanges, adjacent_length]

theorem trueRanges_getElem? (rnd : Rounding) (s : List Kline) (k : Nat) (hk : k + 1 < s.length) :
    (trueRanges rnd s)[k]? = some (trueRange rnd (s.get ⟨k, by omega⟩) (s.get ⟨k + 1, hk⟩)) := by
  have hk2 : k < (trueRanges rnd s).length := by rw [trueRanges_length]; omega
  rw [List.getElem?_eq_getElem hk2]
  have hadj := adjacent_get s k hk
  simp only [List.get_eq_getElem] at hadj
  simp [trueRanges, hadj]

/-- The first loop of `calculateATR` fills `trs` with 0 at index 0 and the true
ranges behind it. -/
theorem atr_trs_loop (rnd : Rounding) (s : List Kline) (hlen : 1 ≤ s.length) :
    forLoop 1 (s.length : Int)
      (fun i trs => do
        let k ← index s i
        let kp ← index s (i - 1)
        setIndex trs i (trueRange rnd kp k)) (List.replicate s.length (0 : ℚ))
      = some (0 :: trueRanges rnd s) := by
  obtain ⟨r, hr, hlenr, hr0, hrk⟩ := forLoop_invariant 1 (s.length : Int) (by omega)
    (fun i trs => do
        let k ← index s i
        let kp ← index s (i - 1)
        setIndex trs i (trueRange rnd kp k))
    (fun i trs => trs.length = s.length ∧ trs[0]? = some 0 ∧
      ∀ k : Nat, (k : Int) + 1 < i → trs[k + 1]? = (trueRanges rnd s)[k]?)
    (List.replicate s.length (0 : ℚ))
    ⟨by simp, List.getElem?_replicate_of_lt (by omega), fun k hk => by omega⟩
    (by
      intro i trs hi1 hi2 hinv
      obtain ⟨hl, h0, hk⟩ := hinv
      obtain ⟨j, rfl⟩ := Int.eq_ofNat_of_zero_le (by omega : 0 ≤ i)
      have hj1 : 1 ≤ j := by omega
      have hj2 : j < s.length := by omega
      have hj3 : j - 1 < s.length := by omega
      have e1 : ((j : Int) - 1) = ((j - 1 : Nat) : Int) := by omega
      have hset : setIndex trs (j : Int)
          (trueRange rnd (s.get ⟨j - 1, hj3⟩) (s.get ⟨j, hj2⟩))
          = some (trs.set j (trueRange rnd (s.get ⟨j - 1, hj3⟩) (s.get ⟨j, hj2⟩))) := by
        have : ¬ ((j : Int) < 0 ∨ (trs.length : Int) ≤ (j : Int)) := by omega
        unfold setIndex
        rw [if_neg this]
        simp
      refine ⟨trs.set j (trueRange rnd (s.get ⟨j - 1, hj3⟩) (s.get ⟨j, hj2⟩)), ?_, ?_, ?_, ?_⟩
      · beta_reduce
        rw [index_eq_get s j hj2, e1, index_eq_get s (j - 1) hj3]
        exact hset
      · simp [hl]
      · rw [List.getElem?_set_ne (by omega)]
        exact h0
      · intro k hk2
        by_cases hkj : k + 1 = j
        · have hk3 : k + 1 < s.length := by omega
          rw [trueRanges_getElem? rnd s k hk3]
          subst hkj
          rw [List.getElem?_set_self (by omega)]
          rfl
        · rw [List.getElem?_set_ne (by omega)]
          exact hk k (by omega))
  rw [hr]
  congr 1
  apply List.ext_getElem?
  intro m
  cases m with
  | zero => simpa using hr0
  | succ k =>
    rw [List.getElem?_cons_succ]
    by_cases hk : k + 1 < s.length
    · exact hrk k (by omega)
    · rw [List.getElem?_eq_none (by omega), List.getElem?_eq_none (by rw [trueRanges_length]; omega)]

/-- Under every rounding, for a period of at least 1 and more than `period`
candles, `calculateATR` returns the fold of the Wilder step over the true ranges
from index `period` on, started at the rounded mean of the first `period` true
ranges. -/
theorem calculateATR_eq (rnd : Rounding) (s : List Kline) (n : Nat) (hn : 1 ≤ n)
    (hlen : n < s.length) :
    calculateATR rnd s (n : Int)
      = some (((trueRanges rnd s).drop n).foldl (atrStep rnd (n : Int))
          (rnd (((trueRanges rnd s).take n).foldl (fun a t => fadd rnd a t) 0
            / ((n : Int) : ℚ)))) := by
  unfold calculateATR
  have h1 : ¬ ((s.length : Int) ≤ (n : Int)) := by omega
  have hn0 : ((n : Int) : ℚ) ≠ 0 := by
    have : (n : ℚ) ≠ 0 := by positivity
    simpa using this
  have hl : ((0 : ℚ) :: trueRanges rnd s).length = s.length := by
    simp [trueRanges_length]
    omega
  have hsum := (forLoop_index ((0 : ℚ) :: trueRanges rnd s) 1 (n + 1) (by omega)
    (fun (a : ℚ) (t : ℚ) => some (fadd rnd a t)) 0).trans (foldlM_some_eq_foldl _ _ _)
  have hstep : (fun (a : ℚ) (t : ℚ) =>
      fdiv rnd (fadd rnd (fmul rnd a (((n : Int) - 1 : Int) : ℚ)) t) ((n : Int) : ℚ))
      = (fun a t => some (atrStep rnd (n : Int) a t)) := by
    funext a t
    rw [fdiv_of_ne rnd _ _ hn0]
    rfl
  have hsmooth := fun init => (forLoop_index ((0 : ℚ) :: trueRanges rnd s) (n + 1) s.length
    (by omega)
    (fun (a : ℚ) (t : ℚ) =>
      fdiv rnd (fadd rnd (fmul rnd a (((n : Int) - 1 : Int) : ℚ)) t) ((n : Int) : ℚ)) init)
  simp only [hstep, foldlM_some_eq_foldl] at hsmooth
  have htake : List.take (s.length - (n + 1)) (List.drop n (trueRanges rnd s))
      = List.drop n (trueRanges rnd s) :=
    List.take_of_length_le (by simp [trueRanges_length]; omega)
  simp only [Nat.cast_add, Nat.cast_one, Nat.add_sub_cancel, List.drop_succ_cons, List.drop_zero,
    htake] at hsum hsmooth
  rw [if_neg h1, atr_trs_loop rnd s (by omega), Option.bind_eq_bind, Option.some_bind]
  have hsum2 : forLoop 1 ((n : Int) + 1)
      (fun i sum => do
        let t ← index ((0 : ℚ) :: trueRanges rnd s) i
        pure (fadd rnd sum t)) (0 : ℚ)
      = some (((trueRanges rnd s).take n).foldl (fun a t => fadd rnd a t) 0) := hsum
  rw [hsum2, Option.bind_eq_bind, Option.some_bind, fdiv_of_ne rnd _ _ hn0, Option.some_bind]
  exact hsmooth _

theorem trueRanges_exact (s : List Kline) : trueRanges exactArith s = specTrueRanges s := by
  unfold trueRanges specTrueRanges adjacent
  apply List.ext_getElem
  · simp
  · intro i h1 h2
    simp [trueRange, specTrueRange]

theorem adjacent_snoc {α : Type} (xs : List α) (last c : α) (h : xs.getLast? = some last) :
    adjacent (xs ++ [c]) = adjacent xs ++ [(last, c)] := by
  induction xs with
  | nil => simp at h
  | cons a t ih =>
    cases t with
    | nil =>
      have : a = last := by simpa using h
      subst this
      simp [adjacent]
    | cons b u =>
      have h2 : (b :: u).getLast? = some last := by
        simpa [List.getLast?_cons_cons] using h
      have := ih h2
      simp only [adjacent, List.cons_append, List.tail_cons, List.zip_cons_cons] at this ⊢
      rw [this]

theorem trueRanges_snoc (rnd : Rounding) (s : List Kline) (last c : Kline)
    (h : s.getLast? = some last) :
    trueRanges rnd (s ++ [c]) = trueRanges rnd s ++ [trueRange rnd last c] := by
  simp [trueRanges, adjacent_snoc s last c h]

theorem foldl_add_eq_sum (l : List ℚ) (init : ℚ) :
    l.foldl (fun a t => a + t) init = init + l.sum := by
  induction l generalizing init with
  | nil => simp
  | cons x t ih => simp [List.foldl_cons, ih, add_assoc]

/-- C7 (as amended): `calculateATR` is the Wilder-smoothed true range, in float64
operations. With `TR(i) = max(High_i - Low_i, |High_i - Close_(i-1)|, |Low_i - Close_(i-1)|)`
for `i >= 1`, for every period `p >= 1`, under every rounding: a series of length
exactly `p+1` gives the rounded quotient by `p` of the left-to-right rounded sum
of `TR(1), ..., TR(p)` (the differences inside each `TR` rounded), which in exact
arithmetic is `(TR(1) + ... + TR(p))/p`; and for every series `s` with
`len(s) > p`, `calculateATR(s, p)` returns a value `a` and for every candle `c`,
`calculateATR(s ++ [c], p) = (a*(p-1) + TR)/p` with each operation rounded, where
`TR` is the true range of `c` against the last candle of `s`, which in exact
arithmetic is that formula itself. -/
theorem calculateATR_wilder (rnd : Rounding) (p : Int) (hp : 1 ≤ p) (s : List Kline) :
    ((s.length : Int) = p + 1 →
      calculateATR rnd s p
        = some (rnd ((trueRanges rnd s).foldl (fun sum t => rnd (sum + t)) 0 / (p : ℚ))) ∧
      calculateATR exactArith s p = some ((specTrueRanges s).sum / (p : ℚ))) ∧
    (p < (s.length : Int) →
      (∃ a : ℚ, calculateATR rnd s p = some a ∧
        ∀ c last : Kline, s.getLast? = some last →
          calculateATR rnd (s ++ [c]) p
            = some (rnd (rnd (rnd (a * ((p - 1 : Int) : ℚ)) + trueRange rnd last c)
                / (p : ℚ)))) ∧
      (∃ a : ℚ, calculateATR exactArith s p = some a ∧
        ∀ c last : Kline, s.getLast? = some last →
          calculateATR exactArith (s ++ [c]) p
            = some ((a * ((p : ℚ) - 1) + specTrueRange last c) / (p : ℚ)))) := by
  obtain ⟨n, rfl⟩ := Int.eq_ofNat_of_zero_le (by omega : 0 ≤ p)
  have hn : 1 ≤ n := by omega
  have hrec : ∀ r : Rounding, n < s.length →
      ∃ a : ℚ, calculateATR r s (n : Int) = some a ∧
        ∀ c last : Kline, s.getLast? = some last →
          calculateATR r (s ++ [c]) (n : Int)
            = some (r (r (r (a * (((n : Int) - 1 : Int) : ℚ)) + trueRange r last c)
                / ((n : Int) : ℚ))) := by
    intro r hlen2
    refine ⟨_, calculateATR_eq r s n hn hlen2, ?_⟩
    intro c last hlast
    rw [calculateATR_eq r (s ++ [c]) n hn (by simp; omega)]
    have hl : n ≤ (trueRanges r s).length := by
      rw [trueRanges_length]
      omega
    rw [trueRanges_snoc r s last c hlast, List.drop_append_of_le_length hl,
      List.take_append_of_le_length hl, List.foldl_append]
    rfl
  constructor
  · intro hlen
    have hlen2 : s.length = n + 1 := by omega
    rw [calculateATR_eq rnd s n hn (by omega), calculateATR_eq exactArith s n hn (by omega)]
    have hl : ∀ r : Rounding, (trueRanges r s).length = n := by
      intro r
      rw [trueRanges_length]
      omega
    rw [List.drop_of_length_le (by rw [hl]), List.take_of_length_le (by rw [hl]),
      List.drop_of_length_le (by rw [hl]), List.take_of_length_le (by rw [hl])]
    constructor
    · simp [fadd]
    · simp [foldl_add_eq_sum, trueRanges_exact]
  · intro hlen
    have hlen2 : n < s.length := by omega
    refine ⟨hrec rnd hlen2, ?_⟩
    obtain ⟨a, ha, hc⟩ := hrec exactArith hlen2
    refine ⟨a, ha, fun c last hlast => ?_⟩
    rw [hc c last hlast]
    have htr : trueRange exactArith last c = specTrueRange last c := by
      simp [trueRange, specTrueRange]
    simp [htr]

/-- C7 (as amended) at a concrete input: exact arithmetic, period 1 and two
candles. -/
theorem calculateATR_wilder_witness :
    (1 : Int) ≤ 1 ∧
    calculateATR exactArith [⟨1, 2, 0, 1, 5⟩, ⟨1, 4, 1, 3, 5⟩] 1
      = some ((specTrueRanges [⟨1, 2, 0, 1, 5⟩, ⟨1, 4, 1, 3, 5⟩]).sum / ((1 : Int) : ℚ)) :=
  ⟨by decide,
    ((calculateATR_wilder exactArith 1 (by decide) [⟨1, 2, 0, 1, 5⟩, ⟨1, 4, 1, 3, 5⟩]).1 rfl).2⟩

/-- C7 as stated fails in float64 arithmetic: on four candles with high 0.1 (the
binary64 number nearest to it), low 0 and close 0, with period 3, the three true
ranges are 0.1, their mean is 0.1, and `calculateATR` gives
`7205759403792795 / 2^56` (0.10000000000000002). -/
theorem calculateATR_wilder_binary64_counterexample :
    (tenthRangeSeries.length : Int) = 3 + 1 ∧
    specTrueRanges tenthRangeSeries = [tenth, tenth, tenth] ∧
    (specTrueRanges tenthRangeSeries).sum / 3 = tenth ∧
    calculateATR binary64 tenthRangeSeries 3 = some (7205759403792795 / 72057594037927936) ∧
    calculateATR64 tenthRangeSeries 3 = some (.finite (7205759403792795 / 72057594037927936)) ∧
    (7205759403792795 / 72057594037927936 : ℚ) ≠ tenth := by
  decide!

theorem trueRange_nonneg (rnd : Rounding) (kp k : Kline) : 0 ≤ trueRange rnd kp k := by
  unfold trueRange
  exact le_max_of_le_right (le_max_of_le_left (abs_nonneg _))

/-- In the arithmetic of rounded rationals, `calculateATR` returns a value that
is not negative, under every monotone rounding that leaves 0 unchanged. -/
theorem calculateATR_range (rnd : Rounding) (hmono : Monotone rnd) (h0 : rnd 0 = 0)
    (p : Int) (hp : 1 ≤ p) (s : List Kline) :
    ∃ a : ℚ, calculateATR rnd s p = some a ∧ 0 ≤ a := by
  by_cases hlen : (s.length : Int) ≤ p
  · exact ⟨0, by simp [calculateATR, hlen], le_rfl⟩
  · obtain ⟨n, rfl⟩ := Int.eq_ofNat_of_zero_le (by omega : 0 ≤ p)
    have hn : 1 ≤ n := by omega
    refine ⟨_, calculateATR_eq rnd s n hn (by omega), ?_⟩
    have htr : ∀ t ∈ trueRanges rnd s, 0 ≤ t := by
      intro t ht
      obtain ⟨pr, _, rfl⟩ := List.mem_map.mp ht
      exact trueRange_nonneg rnd pr.1 pr.2
    have hn0 : (0 : ℚ) ≤ (((n : Int) : ℚ)) := by simp
    have hn1 : (0 : ℚ) ≤ ((((n : Int) - 1 : Int)) : ℚ) := by
      have : (0 : Int) ≤ (n : Int) - 1 := by omega
      exact_mod_cast this
    have hsum : 0 ≤ ((trueRanges rnd s).take n).foldl (fun a t => fadd rnd a t) 0 :=
      foldl_invariant_mem (fun a : ℚ => 0 ≤ a) (fun a t => fadd rnd a t) _
        (fun a x hx ha =>
          rnd_nonneg rnd hmono h0 _ (add_nonneg ha (htr x (List.mem_of_mem_take hx))))
        0 le_rfl
    exact foldl_invariant_mem (fun a : ℚ => 0 ≤ a) (atrStep rnd (n : Int)) _
      (fun a x hx ha =>
        rnd_nonneg rnd hmono h0 _ (div_nonneg
          (rnd_nonneg rnd hmono h0 _ (add_nonneg
            (rnd_nonneg rnd hmono h0 _ (mul_nonneg ha hn1))
            (htr x (List.mem_of_mem_drop hx)))) hn0))
      _ (rnd_nonneg rnd hmono h0 _ (div_nonneg hsum hn0))

/-- C8 (as amended): ATR is never a negative number. For every period `p >= 1`
and every candle series `s` (finite prices, candles whose High is below their
Low included): on float64 values `calculateATR(s, p)` returns a number that is at
least 0, `+Inf`, or a NaN; and in the arithmetic of rounded rationals, in which
no operation overflows, it returns a number that is at least 0, with the
rounding of float64 and with every monotone rounding that leaves 0 unchanged. -/
theorem calculateATR_nonneg (p : Int) (hp : 1 ≤ p) (s : List Kline) :
    (∃ a : F64, calculateATR64 s p = some a ∧
      (a = .nan ∨ a = .inf false ∨ ∃ q : ℚ, a = .finite q ∧ 0 ≤ q)) ∧
    (∃ a : ℚ, calculateATR binary64 s p = some a ∧ 0 ≤ a) ∧
    ∀ rnd : Rounding, Monotone rnd → rnd 0 = 0 →
      ∃ a : ℚ, calculateATR rnd s p = some a ∧ 0 ≤ a := by
  refine ⟨?_, calculateATR_range binary64 monotone_binary64 binary64_fixed.1 p hp s,
    fun rnd hmono h0 => calculateATR_range rnd hmono h0 p hp s⟩
  obtain ⟨a, ha, hn⟩ := calculateATR64_notNegative p hp s
  refine ⟨a, ha, ?_⟩
  cases a with
  | finite q => exact Or.inr (Or.inr ⟨q, rfl, hn⟩)
  | inf negative =>
    have hs : negative = false := hn
    subst hs
    exact Or.inr (Or.inl rfl)
  | nan => exact Or.inl rfl

/-- C8 (as amended) at a concrete input: period 1, a candle with its High below
its Low, on float64 values and in exact arithmetic. -/
theorem calculateATR_nonneg_witness :
    (1 : Int) ≤ 1 ∧
    (∃ a : F64, calculateATR64 [⟨1, 2, 0, 1, 5⟩, ⟨1, 1, 4, 3, 5⟩] 1 = some a ∧
      (a = .nan ∨ a = .inf false ∨ ∃ q : ℚ, a = .finite q ∧ 0 ≤ q)) ∧
    ∃ a : ℚ, calculateATR exactArith [⟨1, 2, 0, 1, 5⟩, ⟨1, 1, 4, 3, 5⟩] 1 = some a ∧ 0 ≤ a :=
  ⟨by decide, (calculateATR_nonneg 1 (by decide) [⟨1, 2, 0, 1, 5⟩, ⟨1, 1, 4, 3, 5⟩]).1,
    (calculateATR_nonneg 1 (by decide) [⟨1, 2, 0, 1, 5⟩, ⟨1, 1, 4, 3, 5⟩]).2.2
      exactArith monotone_exactArith rfl⟩

/-- C8 as stated fails on candles whose range overflows: on the float64 candles
with all prices 0, then high `2^1023` and low `-2^1023`, then all prices 0, with
period 1, the true range `high - low = 2^1024` of the second candle is `+Inf`,
the smoothing step computes `+Inf * 0`, and `calculateATR` returns a NaN, for
which `NaN >= 0` is false. -/
theorem calculateATR_overflow_counterexample :
    (1 : Int) ≤ 1 ∧
    F64.sub (.finite (2 ^ 1023)) (.finite (-(2 ^ 1023))) = .inf false ∧
    calculateATR64 hugeRangeSeries 1 = some .nan ∧
    F64.lt (.finite 0) .nan = false ∧ F64.eq .nan (.finite 0) = false := by
  decide!

/-! ## Get -/

theorem index_sub_eq_getElem? {α : Type} (xs : List α) (j : Nat) (hj : j ≤ xs.length) :
    index xs ((xs.length : Int) - (j : Int)) = xs[xs.length - j]? := by
  unfold index
  have h1 : ¬ ((xs.length : Int) - (j : Int) < 0) := by omega
  have h2 : ((xs.length : Int) - (j : Int)).toNat = xs.length - j := by omega
  rw [if_neg h1, h2]

theorem index_last {α : Type} (xs : List α) (c : α) (h : xs.getLast? = some c) :
    index xs ((xs.length : Int) - 1) = some c := by
  have hne : xs ≠ [] := by
    intro h0
    simp [h0] at h
  have hl : 1 ≤ xs.length := Nat.succ_le_of_lt (List.length_pos.mpr hne)
  have := index_sub_eq_getElem? xs 1 hl
  rw [List.getLast?_eq_getElem?] at h
  simpa [h] using this

theorem calculateEMA_total (rnd : Rounding) (s : List Kline) (period : Int) (hp : 1 ≤ period) :
    ∃ e : ℚ, calculateEMA rnd s period = some e := by
  by_cases hlen : (s.length : Int) < period
  · exact ⟨0, by simp [calculateEMA, hlen]⟩
  · exact calculateEMA_isSome rnd s period hp (by omega)

theorem calculateMACD_total (rnd : Rounding) (s : List Kline) :
    ∃ m : ℚ, calculateMACD rnd s = some m := by
  obtain ⟨e12, h12⟩ := calculateEMA_total rnd s 12 (by decide)
  obtain ⟨e26, h26⟩ := calculateEMA_total rnd s 26 (by decide)
  by_cases hlen : s.length < 26
  · exact ⟨0, by simp [calculateMACD, hlen]⟩
  · exact ⟨fsub rnd e12 e26, by simp [calculateMACD, hlen, h12, h26]⟩

theorem priceChange1h_short (rnd : Rounding) (k5 : List Kline) (cur : ℚ) (h : k5.length < 21) :
    priceChange1h rnd k5 cur = some 0 := by
  have h2 : ¬ (k5.length ≥ 21) := by omega
  simp [priceChange1h, h2]

/-- The value of a percentage-change block of `Get` for the reference candle
`past`: 0 unless the reference close is positive. -/
theorem priceChange1h_value (rnd : Rounding) (k5 : List Kline) (cur : ℚ) (past : Kline)
    (h : 21 ≤ k5.length) (hpast : k5[k5.length - 21]? = some past) :
    priceChange1h rnd k5 cur
      = some (if 0 < past.Close then fmul rnd (rnd (fsub rnd cur past.Close / past.Close)) 100
          else 0) := by
  have hidx : index k5 ((k5.length : Int) - 21) = some past := by
    have := index_sub_eq_getElem? k5 21 h
    rw [hpast] at this
    exact_mod_cast this
  unfold priceChange1h
  rw [if_pos h, hidx]
  by_cases hp : 0 < past.Close
  · have hne : past.Close ≠ 0 := ne_of_gt hp
    simp [hp, fdiv, hne]
  · simp [hp]

theorem priceChange4h_short (rnd : Rounding) (k4h : List Kline) (cur : ℚ) (h : k4h.length < 2) :
    priceChange4h rnd k4h cur = some 0 := by
  have h2 : ¬ (k4h.length ≥ 2) := by omega
  simp [priceChange4h, h2]

theorem priceChange4h_value (rnd : Rounding) (k4h : List Kline) (cur : ℚ) (past : Kline)
    (h : 2 ≤ k4h.length) (hpast : k4h[k4h.length - 2]? = some past) :
    priceChange4h rnd k4h cur
      = some (if 0 < past.Close then fmul rnd (rnd (fsub rnd cur past.Close / past.Close)) 100
          else 0) := by
  have hidx : index k4h ((k4h.length : Int) - 2) = some past := by
    have := index_sub_eq_getElem? k4h 2 h
    rw [hpast] at this
    exact_mod_cast this
  unfold priceChange4h
  rw [if_pos h, hidx]
  by_cases hp : 0 < past.Close
  · have hne : past.Close ≠ 0 := ne_of_gt hp
    simp [hp, fdiv, hne]
  · simp [hp]

theorem priceChange1h_total (rnd : Rounding) (k5 : List Kline) (cur : ℚ) :
    ∃ v : ℚ, priceChange1h rnd k5 cur = some v := by
  by_cases h : k5.length < 21
  · exact ⟨0, priceChange1h_short rnd k5 cur h⟩
  · have hlt : k5.length - 21 < k5.length := by omega
    exact ⟨_, priceChange1h_value rnd k5 cur (k5.get ⟨k5.length - 21, hlt⟩) (by omega)
      (List.getElem?_eq_getElem hlt)⟩

theorem priceChange4h_total (rnd : Rounding) (k4h : List Kline) (cur : ℚ) :
    ∃ v : ℚ, priceChange4h rnd k4h cur = some v := by
  by_cases h : k4h.length < 2
  · exact ⟨0, priceChange4h_short rnd k4h cur h⟩
  · have hlt : k4h.length - 2 < k4h.length := by omega
    exact ⟨_, priceChange4h_value rnd k4h cur (k4h.get ⟨k4h.length - 2, hlt⟩) (by omega)
      (List.getElem?_eq_getElem hlt)⟩

/-- The snapshot of `Get`: when the three candle fetches succeed, the short
series is not empty and the three aggregations return, `Get` returns the
snapshot assembled from the scalar indicators, the two percentage changes, the
market context and the three aggregations. -/
theorem Get_snapshot (rnd : Rounding) (hmono : Monotone rnd) (h0 : rnd 0 = 0) (h1 : rnd 1 = 1)
    (h100 : rnd 100 = 100) (w : World) (symbol : String) (k5 k30 k4h : List Kline)
    (intraday : IntradayData) (middle longer : LongerTermData) (cur : Kline)
    (h5 : w.GetCurrentKlines (Normalize w.unicodeUpper symbol) "5m" = .ok k5)
    (h30 : w.GetCurrentKlines (Normalize w.unicodeUpper symbol) "30m" = .ok k30)
    (h4h : w.GetCurrentKlines (Normalize w.unicodeUpper symbol) "4h" = .ok k4h)
    (hcur : k5.getLast? = some cur)
    (hi : calculateIntradaySeries w k5 = some intraday)
    (hm : calculateLongerTermData rnd w k30 = some middle)
    (hl : calculateLongerTermData rnd w k4h = some longer) :
    ∃ e20 macd rsi v1 v4 : ℚ,
      calculateEMA rnd k5 20 = some e20 ∧ calculateMACD rnd k5 = some macd ∧
      calculateRSI rnd k5 7 = some rsi ∧ priceChange1h rnd k5 cur.Close = some v1 ∧
      priceChange4h rnd k4h cur.Close = some v4 ∧
      Get rnd w symbol = some (.ok {
        Symbol := Normalize w.unicodeUpper symbol
        CurrentPrice := cur.Close
        PriceChange1h := v1
        PriceChange4h := v4
        CurrentEMA20 := e20
        CurrentMACD := macd
        CurrentRSI7 := rsi
        OpenInterest :=
          some (match getOpenInterestData rnd w (Normalize w.unicodeUpper symbol) with
            | .error _ => ({ Latest := 0, Average := 0 } : OIData)
            | .ok oi => oi)
        FundingRate := (getFundingRate w (Normalize w.unicodeUpper symbol)).1
        IntradaySeries := some intraday
        MiddleTermContext := some middle
        LongerTermContext := some longer }) := by
  obtain ⟨e20, he20⟩ := calculateEMA_total rnd k5 20 (by decide)
  obtain ⟨macd, hmacd⟩ := calculateMACD_total rnd k5
  obtain ⟨rsi, hrsi, -⟩ := calculateRSI_range rnd hmono h0 h1 h100 7 (by decide) k5
  obtain ⟨v1, hv1⟩ := priceChange1h_total rnd k5 cur.Close
  obtain ⟨v4, hv4⟩ := priceChange4h_total rnd k4h cur.Close
  refine ⟨e20, macd, rsi, v1, v4, he20, hmacd, hrsi, hv1, hv4, ?_⟩
  unfold Get
  simp only [h5, h30, h4h, index_last k5 cur hcur, he20, hmacd, hrsi, hv1, hv4, hi, hm, hl,
    Option.bind_eq_bind, Option.some_bind]
  rfl

/-- C10 (as amended): `PriceChange1h` computed by `Get`, in float64 operations.
When the three candle fetches succeed and the three aggregations return (no call
into the indicator library panics, which `go-talib` does on a series shorter
than its periods), for every short series of at least 21 candles `Get` returns a
snapshot in which, with `current` the close of the last candle and `past` the
close 20 bars earlier (index `len-21`), `PriceChange1h` is
`(current - past)/past*100` with each of its three operations rounded when
`past > 0`, which in exact arithmetic is that formula itself, and 0 when
`past <= 0`; under every monotone rounding that leaves 0, 1 and 100 unchanged
and no operation overflowing. -/
theorem Get_priceChange1h (rnd : Rounding) (hmono : Monotone rnd) (h0 : rnd 0 = 0)
    (h1 : rnd 1 = 1) (h100 : rnd 100 = 100) (w : World) (symbol : String)
    (k5 k30 k4h : List Kline) (intraday : IntradayData) (middle longer : LongerTermData)
    (cur past : Kline)
    (h5 : w.GetCurrentKlines (Normalize w.unicodeUpper symbol) "5m" = .ok k5)
    (h30 : w.GetCurrentKlines (Normalize w.unicodeUpper symbol) "30m" = .ok k30)
    (h4h : w.GetCurrentKlines (Normalize w.unicodeUpper symbol) "4h" = .ok k4h)
    (hcur : k5.getLast? = some cur)
    (h21 : 21 ≤ k5.length) (hpast : k5[k5.length - 21]? = some past)
    (hi : calculateIntradaySeries w k5 = some intraday)
    (hm : calculateLongerTermData rnd w k30 = some middle)
    (hl : calculateLongerTermData rnd w k4h = some longer) :
    ∃ d : Data, Get rnd w symbol = some (.ok d) ∧
      d.PriceChange1h
        = (if 0 < past.Close then rnd (rnd (rnd (cur.Close - past.Close) / past.Close) * 100)
            else 0) ∧
      (rnd = exactArith →
        d.PriceChange1h
          = if 0 < past.Close then (cur.Close - past.Close) / past.Close * 100 else 0) := by
  obtain ⟨e20, macd, rsi, v1, v4, -, -, -, hv1, -, hget⟩ :=
    Get_snapshot rnd hmono h0 h1 h100 w symbol k5 k30 k4h intraday middle longer cur h5 h30 h4h
      hcur hi hm hl
  have hv : v1 = (if 0 < past.Close
      then rnd (rnd (rnd (cur.Close - past.Close) / past.Close) * 100) else 0) := by
    have := priceChange1h_value rnd k5 cur.Close past h21 hpast
    rw [hv1] at this
    exact Option.some.inj this
  refine ⟨_, hget, hv, ?_⟩
  intro hr
  subst hr
  exact hv

/-- C10 (as amended) at a concrete input: float64 arithmetic, a short series of
60 candles whose close 20 bars before the last is 2 and whose last close is 3,
and 60 candles on the other two timeframes, give `PriceChange1h = 50`. -/
theorem Get_priceChange1h_witness :
    ∃ d : Data, Get binary64 (strictWorld risingSeries flatSeries flatSeries) "btc"
        = some (.ok d) ∧ d.PriceChange1h = 50 := by
  have hi : (calculateIntradaySeries (strictWorld risingSeries flatSeries flatSeries)
      risingSeries).isSome = true := by decide!
  have hm : (calculateLongerTermData binary64 (strictWorld risingSeries flatSeries flatSeries)
      flatSeries).isSome = true := by decide!
  obtain ⟨intraday, hi⟩ := Option.isSome_iff_exists.mp hi
  obtain ⟨middle, hm⟩ := Option.isSome_iff_exists.mp hm
  obtain ⟨d, hd, hv, -⟩ := Get_priceChange1h binary64 monotone_binary64 binary64_fixed.1
    binary64_fixed.2.1 binary64_fixed.2.2
    (strictWorld risingSeries flatSeries flatSeries) "btc" risingSeries flatSeries flatSeries
    intraday middle middle ⟨3, 3, 3, 3, 1⟩ ⟨2, 2, 2, 2, 1⟩ rfl rfl rfl (by decide!) (by decide!)
    (by decide!) hi hm hm
  refine ⟨d, hd, ?_⟩
  rw [hv]
  decide!

/-- C10 as stated fails in three ways, each on a run of `Get` in float64
arithmetic with 60 candles on the 30m and 4h timeframes. For a negative
reference close, a short series of 60 candles whose close 20 bars before the
last is -1 and whose last close is 1: the claim gives
`(1 - (-1)) / (-1) * 100 = -200` and `Get` gives `PriceChange1h = 0`. For a
reference close 0.8 and a last close 0.5 (as float64 numbers): the formula gives
`-135107988821114900 / 3602879701896397` and `Get` gives
`-5277655813324801 / 2^47` (-37.50000000000001). For a short series of 20
candles, fewer than 21: a call into the indicator library panics and `Get`
builds no snapshot. -/
theorem Get_priceChange1h_counterexample :
    negativePastSeries.length = 60 ∧
    (negativePastSeries[negativePastSeries.length - 21]?).map Kline.Close = some (-1) ∧
    negativePastSeries.getLast?.map Kline.Close = some 1 ∧
    (Get binary64 (strictWorld negativePastSeries flatSeries flatSeries) "btc").bind
      (fun r => r.toOption.map Data.PriceChange1h) = some 0 ∧
    (1 - (-1 : ℚ)) / (-1) * 100 = -200 ∧
    fallingSeries.length = 60 ∧
    (fallingSeries[fallingSeries.length - 21]?).map Kline.Close = some fourFifths ∧
    fallingSeries.getLast?.map Kline.Close = some (1 / 2) ∧
    (Get binary64 (strictWorld fallingSeries flatSeries flatSeries) "btc").bind
      (fun r => r.toOption.map Data.PriceChange1h)
      = some (-5277655813324801 / 140737488355328) ∧
    ((1 / 2 : ℚ) - fourFifths) / fourFifths * 100 = -135107988821114900 / 3602879701896397 ∧
    (-5277655813324801 / 140737488355328 : ℚ) ≠ -135107988821114900 / 3602879701896397 ∧
    (Get binary64 (strictWorld (List.replicate 20 ⟨1, 1, 1, 1, 1⟩) flatSeries flatSeries)
      "btc").isNone = true := by
  decide!

/-- C11 (as amended): `PriceChange4h` computed by `Get`, in float64 operations.
When the three candle fetches succeed, the short series is not empty and the
three aggregations return (no call into the indicator library panics, which
`go-talib` does on a series shorter than its periods), for every long series of
at least 2 candles `Get` returns a snapshot in which, with `current` the close
of the last short-series candle and `past` the close of the second-to-last
long-series candle, `PriceChange4h` is `(current - past)/past*100` with each of
its three operations rounded when `past > 0`, which in exact arithmetic is that
formula itself, and 0 when `past <= 0`; under every monotone rounding that
leaves 0, 1 and 100 unchanged and no operation overflowing. -/
theorem Get_priceChange4h (rnd : Rounding) (hmono : Monotone rnd) (h0 : rnd 0 = 0)
    (h1 : rnd 1 = 1) (h100 : rnd 100 = 100) (w : World) (symbol : String)
    (k5 k30 k4h : List Kline) (intraday : IntradayData) (middle longer : LongerTermData)
    (cur past : Kline)
    (h5 : w.GetCurrentKlines (Normalize w.unicodeUpper symbol) "5m" = .ok k5)
    (h30 : w.GetCurrentKlines (Normalize w.unicodeUpper symbol) "30m" = .ok k30)
    (h4h : w.GetCurrentKlines (Normalize w.unicodeUpper symbol) "4h" = .ok k4h)
    (hcur : k5.getLast? = some cur)
    (h2 : 2 ≤ k4h.length) (hpast : k4h[k4h.length - 2]? = some past)
    (hi : calculateIntradaySeries w k5 = some intraday)
    (hm : calculateLongerTermData rnd w k30 = some middle)
    (hl : calculateLongerTermData rnd w k4h = some longer) :
    ∃ d : Data, Get rnd w symbol = some (.ok d) ∧
      d.PriceChange4h
        = (if 0 < past.Close then rnd (rnd (rnd (cur.Close - past.Close) / past.Close) * 100)
            else 0) ∧
      (rnd = exactArith →
        d.PriceChange4h
          = if 0 < past.Close then (cur.Close - past.Close) / past.Close * 100 else 0) := by
  obtain ⟨e20, macd, rsi, v1, v4, -, -, -, -, hv4, hget⟩ :=
    Get_snapshot rnd hmono h0 h1 h100 w symbol k5 k30 k4h intraday middle longer cur h5 h30 h4h
      hcur hi hm hl
  have hv : v4 = (if 0 < past.Close
      then rnd (rnd (rnd (cur.Close - past.Close) / past.Close) * 100) else 0) := by
    have := priceChange4h_value rnd k4h cur.Close past h2 hpast
    rw [hv4] at this
    exact Option.some.inj this
  refine ⟨_, hget, hv, ?_⟩
  intro hr
  subst hr
  exact hv

/-- C11 (as amended) at a concrete input: float64 arithmetic, a short series of
60 candles that ends at close 3, 60 candles on the 30m timeframe and a long
series of 60 candles whose last two closes are 2 and 5, give
`PriceChange4h = 50`. -/
theorem Get_priceChange4h_witness :
    ∃ d : Data, Get binary64 (strictWorld risingSeries flatSeries risingLongSeries) "btc"
        = some (.ok d) ∧ d.PriceChange4h = 50 := by
  have hi : (calculateIntradaySeries (strictWorld risingSeries flatSeries risingLongSeries)
      risingSeries).isSome = true := by decide!
  have hm : (calculateLongerTermData binary64
      (strictWorld risingSeries flatSeries risingLongSeries) flatSeries).isSome = true := by
    decide!
  have hl : (calculateLongerTermData binary64
      (strictWorld risingSeries flatSeries risingLongSeries) risingLongSeries).isSome = true := by
    decide!
  obtain ⟨intraday, hi⟩ := Option.isSome_iff_exists.mp hi
  obtain ⟨middle, hm⟩ := Option.isSome_iff_exists.mp hm
  obtain ⟨longer, hl⟩ := Option.isSome_iff_exists.mp hl
  obtain ⟨d, hd, hv, -⟩ := Get_priceChange4h binary64 monotone_binary64 binary64_fixed.1
    binary64_fixed.2.1 binary64_fixed.2.2
    (strictWorld risingSeries flatSeries risingLongSeries) "btc" risingSeries flatSeries
    risingLongSeries intraday middle longer ⟨3, 3, 3, 3, 1⟩ ⟨2, 2, 2, 2, 1⟩ rfl rfl rfl
    (by decide!) (by decide!) (by decide!) hi hm hl
  refine ⟨d, hd, ?_⟩
  rw [hv]
  decide!

/-- C11 as stated fails in three ways, each on a run of `Get` in float64
arithmetic with 60 candles on the 5m and 30m timeframes. For a negative
reference close, a short series that ends at close 3 and a long series of 60
candles whose last two closes are -1 and 1: the claim gives
`(3 - (-1)) / (-1) * 100 = -400` and `Get` gives `PriceChange4h = 0`. For a
reference close 0.8 and a current price 0.5 (as float64 numbers): the formula
gives `-135107988821114900 / 3602879701896397` and `Get` gives
`-5277655813324801 / 2^47` (-37.50000000000001). For a long series of one
candle, fewer than 2: a call into the indicator library panics and `Get` builds
no snapshot. -/
theorem Get_priceChange4h_counterexample :
    risingSeries.getLast?.map Kline.Close = some 3 ∧
    negativeLongSeries.length = 60 ∧
    (negativeLongSeries[negativeLongSeries.length - 2]?).map Kline.Close = some (-1) ∧
    (Get binary64 (strictWorld risingSeries flatSeries negativeLongSeries) "btc").bind
      (fun r => r.toOption.map Data.PriceChange4h) = some 0 ∧
    (3 - (-1 : ℚ)) / (-1) * 100 = -400 ∧
    fallingSeries.getLast?.map Kline.Close = some (1 / 2) ∧
    fallingLongSeries.length = 60 ∧
    (fallingLongSeries[fallingLongSeries.length - 2]?).map Kline.Close = some fourFifths ∧
    (Get binary64 (strictWorld fallingSeries flatSeries fallingLongSeries) "btc").bind
      (fun r => r.toOption.map Data.PriceChange4h)
      = some (-5277655813324801 / 140737488355328) ∧
    ((1 / 2 : ℚ) - fourFifths) / fourFifths * 100 = -135107988821114900 / 3602879701896397 ∧
    (-5277655813324801 / 140737488355328 : ℚ) ≠ -135107988821114900 / 3602879701896397 ∧
    (Get binary64 (strictWorld flatSeries flatSeries [⟨1, 1, 1, 1, 1⟩]) "btc").isNone = true := by
  decide!

/-- C12: the percentage changes never divide by zero. When the three candle
fetches succeed, the short series is not empty and the three aggregations
return, `Get` returns a snapshot (no panic, no NaN) in which, for every current
price, `PriceChange1h` is exactly 0 whenever the close 20 bars back in the short
series is 0, and `PriceChange4h` is exactly 0 whenever the close 1 bar back in the
long series is 0; in exact arithmetic and under every monotone rounding that
leaves 0, 1 and 100 unchanged. -/
theorem Get_priceChange_zero_reference (rnd : Rounding) (hmono : Monotone rnd) (h0 : rnd 0 = 0)
    (h1 : rnd 1 = 1) (h100 : rnd 100 = 100) (w : World) (symbol : String)
    (k5 k30 k4h : List Kline) (intraday : IntradayData) (middle longer : LongerTermData)
    (cur : Kline)
    (h5 : w.GetCurrentKlines (Normalize w.unicodeUpper symbol) "5m" = .ok k5)
    (h30 : w.GetCurrentKlines (Normalize w.unicodeUpper symbol) "30m" = .ok k30)
    (h4h : w.GetCurrentKlines (Normalize w.unicodeUpper symbol) "4h" = .ok k4h)
    (hcur : k5.getLast? = some cur)
    (hi : calculateIntradaySeries w k5 = some intraday)
    (hm : calculateLongerTermData rnd w k30 = some middle)
    (hl : calculateLongerTermData rnd w k4h = some longer) :
    ∃ d : Data, Get rnd w symbol = some (.ok d) ∧
      (∀ past : Kline, 21 ≤ k5.length → k5[k5.length - 21]? = some past → past.Close = 0 →
        d.PriceChange1h = 0) ∧
      (∀ past : Kline, 2 ≤ k4h.length → k4h[k4h.length - 2]? = some past → past.Close = 0 →
        d.PriceChange4h = 0) := by
  obtain ⟨e20, macd, rsi, v1, v4, -, -, -, hv1, hv4, hget⟩ :=
    Get_snapshot rnd hmono h0 h1 h100 w symbol k5 k30 k4h intraday middle longer cur h5 h30 h4h
      hcur hi hm hl
  refine ⟨_, hget, ?_, ?_⟩
  · intro past h21 hpast hzero
    have := priceChange1h_value rnd k5 cur.Close past h21 hpast
    rw [hv1, hzero] at this
    simpa using Option.some.inj this
  · intro past h2 hpast hzero
    have := priceChange4h_value rnd k4h cur.Close past h2 hpast
    rw [hv4, hzero] at this
    simpa using Option.some.inj this

/-- C12 at a concrete input: float64 arithmetic, a short series of 60 candles
whose close 20 bars back is 0, 60 candles on the 30m timeframe and a long series
of 60 candles whose close 1 bar back is 0. -/
theorem Get_priceChange_zero_reference_witness :
    ∃ d : Data, Get binary64 (strictWorld zeroPastSeries flatSeries zeroLongSeries) "btc"
        = some (.ok d) ∧ d.PriceChange1h = 0 ∧ d.PriceChange4h = 0 := by
  have hi : (calculateIntradaySeries (strictWorld zeroPastSeries flatSeries zeroLongSeries)
      zeroPastSeries).isSome = true := by decide!
  have hm : (calculateLongerTermData binary64
      (strictWorld zeroPastSeries flatSeries zeroLongSeries) flatSeries).isSome = true := by
    decide!
  have hl : (calculateLongerTermData binary64
      (strictWorld zeroPastSeries flatSeries zeroLongSeries) zeroLongSeries).isSome = true := by
    decide!
  obtain ⟨intraday, hi⟩ := Option.isSome_iff_exists.mp hi
  obtain ⟨middle, hm⟩ := Option.isSome_iff_exists.mp hm
  obtain ⟨longer, hl⟩ := Option.isSome_iff_exists.mp hl
  obtain ⟨d, hd, h1h, h4h⟩ := Get_priceChange_zero_reference binary64 monotone_binary64
    binary64_fixed.1 binary64_fixed.2.1 binary64_fixed.2.2
    (strictWorld zeroPastSeries flatSeries zeroLongSeries) "btc"
    zeroPastSeries flatSeries zeroLongSeries intraday middle longer ⟨3, 3, 3, 3, 1⟩ rfl rfl rfl
    (by decide!) hi hm hl
  exact ⟨d, hd, h1h ⟨0, 0, 0, 0, 1⟩ (by decide) (by decide!) rfl,
    h4h ⟨0, 0, 0, 0, 1⟩ (by decide) (by decide!) rfl⟩

/-! ## Normalize -/

theorem ofNat_sub_toNat (n : Nat) (h1 : 97 ≤ n) (h2 : n ≤ 122) :
    (Char.ofNat (n - 32)).toNat = n - 32 := by
  interval_cases n <;> rfl

theorem toUpper_toUpper (c : Char) : c.toUpper.toUpper = c.toUpper := by
  unfold Char.toUpper
  simp only []
  by_cases h : c.toNat ≥ 97 ∧ c.toNat ≤ 122
  · rw [if_pos h]
    have hv := ofNat_sub_toNat c.toNat h.1 h.2
    have h2 : ¬ ((Char.ofNat (c.toNat - 32)).toNat ≥ 97
        ∧ (Char.ofNat (c.toNat - 32)).toNat ≤ 122) := by
      rw [hv]
      omega
    rw [if_neg h2]
  · rw [if_neg h, if_neg h]

/-- The upper case of an ASCII rune is an ASCII rune. -/
theorem toUpper_ascii (c : Char) (h : c.toNat < 128) : c.toUpper.toNat < 128 := by
  unfold Char.toUpper
  simp only []
  by_cases hc : c.toNat ≥ 97 ∧ c.toNat ≤ 122
  · rw [if_pos hc, ofNat_sub_toNat c.toNat hc.1 hc.2]
    omega
  · rw [if_neg hc]
    exact h

/-- `unicode.ToUpper` is idempotent when its case table is: the upper case of a
rune beyond ASCII is its own upper case. -/
theorem toUpperRune_toUpperRune (table : Char → Char)
    (htable : ∀ c : Char, 128 ≤ c.toNat → toUpperRune table (table c) = table c) (c : Char) :
    toUpperRune table (toUpperRune table c) = toUpperRune table c := by
  by_cases h : c.toNat < 128
  · have h2 := toUpper_ascii c h
    simp only [toUpperRune, if_pos h, if_pos h2, toUpper_toUpper]
  · have h3 : toUpperRune table c = table c := by simp only [toUpperRune, if_neg h]
    rw [h3]
    exact htable c (by omega)

theorem ToUpper_ToUpper (table : Char → Char)
    (htable : ∀ c : Char, 128 ≤ c.toNat → toUpperRune table (table c) = table c) (s : String) :
    ToUpper table (ToUpper table s) = ToUpper table s := by
  unfold ToUpper
  simp [List.map_map, Function.comp_def, toUpperRune_toUpperRune table htable]

theorem ToUpper_append (table : Char → Char) (s t : String) :
    ToUpper table (s ++ t) = ToUpper table s ++ ToUpper table t := by
  apply String.ext
  simp [ToUpper]

theorem HasSuffix_iff (s suffix : String) :
    HasSuffix s suffix = true ↔ suffix.data <:+ s.data := by
  unfold HasSuffix
  exact List.isSuffixOf_iff_suffix

theorem Normalize_of_suffix (table : Char → Char) (s : String)
    (h : "USDT".data <:+ (ToUpper table s).data) : Normalize table s = ToUpper table s := by
  have hs : HasSuffix (ToUpper table s) "USDT" = true := (HasSuffix_iff _ _).mpr h
  simp [Normalize, hs]

theorem Normalize_of_not_suffix (table : Char → Char) (s : String)
    (h : ¬ "USDT".data <:+ (ToUpper table s).data) :
    Normalize table s = ToUpper table s ++ "USDT" := by
  have hs : ¬ (HasSuffix (ToUpper table s) "USDT" = true) :=
    fun hh => h ((HasSuffix_iff _ _).mp hh)
  simp [Normalize, hs]

theorem Normalize_suffix (table : Char → Char) (s : String) :
    "USDT".data <:+ (Normalize table s).data := by
  by_cases h : "USDT".data <:+ (ToUpper table s).data
  · rw [Normalize_of_suffix table s h]
    exact h
  · rw [Normalize_of_not_suffix table s h, String.data_append]
    exact List.suffix_append _ _

/-- C13: `Normalize` upper-cases and suffixes, whatever the case table of the
standard library beyond ASCII. For every string `s`, with `upper(s)` the string
`strings.ToUpper(s)`, in which `unicode.ToUpper` is applied to each rune of `s`:
`Normalize(s) = upper(s)` if `upper(s)` ends with "USDT" and
`Normalize(s) = upper(s) ++ "USDT"` otherwise; hence the result always ends with
"USDT"; `Normalize("btc") = "BTCUSDT"`, `Normalize("Sol") = "SOLUSDT"` and
`Normalize("ETHUSDT") = "ETHUSDT"`; and with a case table that has `S` as the
upper case of the long s, `Normalize("btcuſdt") = "BTCUSDT"`. -/
theorem Normalize_upper_suffix (table : Char → Char) (s : String) :
    (ToUpper table s).data = s.data.map (toUpperRune table) ∧
    ("USDT".data <:+ (ToUpper table s).data → Normalize table s = ToUpper table s) ∧
    (¬ "USDT".data <:+ (ToUpper table s).data → Normalize table s = ToUpper table s ++ "USDT") ∧
    "USDT".data <:+ (Normalize table s).data ∧
    Normalize table "btc" = "BTCUSDT" ∧ Normalize table "Sol" = "SOLUSDT" ∧
    Normalize table "ETHUSDT" = "ETHUSDT" ∧
    Normalize longSTable "btcuſdt" = "BTCUSDT" :=
  ⟨rfl, Normalize_of_suffix table s, Normalize_of_not_suffix table s, Normalize_suffix table s,
    rfl, rfl, rfl, by decide⟩

/-- C14: `Normalize` is idempotent: for every string `s`,
`Normalize(Normalize(s)) = Normalize(s)`, for every case table of the standard
library in which the upper case of a rune beyond ASCII is its own upper case
(`unicode.ToUpper` is idempotent). -/
theorem Normalize_idempotent (table : Char → Char)
    (htable : ∀ c : Char, 128 ≤ c.toNat → toUpperRune table (table c) = table c) (s : String) :
    Normalize table (Normalize table s) = Normalize table s := by
  have hup : ToUpper table (Normalize table s) = Normalize table s := by
    by_cases h : "USDT".data <:+ (ToUpper table s).data
    · rw [Normalize_of_suffix table s h, ToUpper_ToUpper table htable]
    · rw [Normalize_of_not_suffix table s h, ToUpper_append, ToUpper_ToUpper table htable]
      congr 1
  have hsuf : "USDT".data <:+ (ToUpper table (Normalize table s)).data := by
    rw [hup]
    exact Normalize_suffix table s
  rw [Normalize_of_suffix table (Normalize table s) hsuf, hup]

/-- C14 at a concrete input: with the case table `longSTable`, in which the long
s has the upper case `S`, normalizing "btcuſdt" once or twice gives "BTCUSDT". -/
theorem Normalize_idempotent_witness :
    (∀ c : Char, 128 ≤ c.toNat → toUpperRune longSTable (longSTable c) = longSTable c) ∧
    Normalize longSTable "btcuſdt" = "BTCUSDT" ∧
    Normalize longSTable (Normalize longSTable "btcuſdt") = Normalize longSTable "btcuſdt" := by
  have htable : ∀ c : Char, 128 ≤ c.toNat →
      toUpperRune longSTable (longSTable c) = longSTable c := by
    intro c hc
    by_cases h : c = 'ſ'
    · subst h
      decide
    · have h1 : longSTable c = c := by simp [longSTable, h]
      have h2 : ¬ c.toNat < 128 := by omega
      rw [h1]
      simp only [toUpperRune, if_neg h2]
      exact h1
  exact ⟨htable, by decide, Normalize_idempotent longSTable htable "btcuſdt"⟩

/-! ## Get: failures of the collaborators -/

theorem prefix5m_data : "获取5分钟K线失败: ".data
    = ['获', '取', '5', '分', '钟', 'K', '线', '失', '败', ':', ' '] := by
  decide

theorem prefix30m_data : "获取30分钟K线失败: ".data
    = ['获', '取', '3', '0', '分', '钟', 'K', '线', '失', '败', ':', ' '] := by
  decide

theorem prefix4h_data : "获取4小时K线失败: ".data
    = ['获', '取', '4', '小', '时', 'K', '线', '失', '败', ':', ' '] := by
  decide

theorem message_5m_ne_30m (e e' : String) :
    "获取5分钟K线失败: " ++ e ≠ "获取30分钟K线失败: " ++ e' := by
  intro h
  have h2 := congrArg String.data h
  rw [String.data_append, String.data_append, prefix5m_data, prefix30m_data] at h2
  simp at h2

theorem message_5m_ne_4h (e e' : String) :
    "获取5分钟K线失败: " ++ e ≠ "获取4小时K线失败: " ++ e' := by
  intro h
  have h2 := congrArg String.data h
  rw [String.data_append, String.data_append, prefix5m_data, prefix4h_data] at h2
  simp at h2

theorem message_30m_ne_4h (e e' : String) :
    "获取30分钟K线失败: " ++ e ≠ "获取4小时K线失败: " ++ e' := by
  intro h
  have h2 := congrArg String.data h
  rw [String.data_append, String.data_append, prefix30m_data, prefix4h_data] at h2
  simp at h2

/-- C16: a failure of the candle source is fatal and names its timeframe, under
every rounding. `Get` returns an error and no snapshot whenever the 5m, the 30m
or the 4h fetch fails; the error is the one of the first failing timeframe in
the order 5m, 30m, 4h (its message is the prefix of that timeframe followed by
the message of the fetch); and messages of two different timeframes are never
equal, whatever the messages of the fetches. -/
theorem Get_candle_failure (rnd : Rounding) (w : World) (symbol : String) :
    (∀ e : String, w.GetCurrentKlines (Normalize w.unicodeUpper symbol) "5m" = .error e →
      Get rnd w symbol = some (.error ("获取5分钟K线失败: " ++ e))) ∧
    (∀ (k5 : List Kline) (e : String),
      w.GetCurrentKlines (Normalize w.unicodeUpper symbol) "5m" = .ok k5 →
      w.GetCurrentKlines (Normalize w.unicodeUpper symbol) "30m" = .error e →
      Get rnd w symbol = some (.error ("获取30分钟K线失败: " ++ e))) ∧
    (∀ (k5 k30 : List Kline) (e : String),
      w.GetCurrentKlines (Normalize w.unicodeUpper symbol) "5m" = .ok k5 →
      w.GetCurrentKlines (Normalize w.unicodeUpper symbol) "30m" = .ok k30 →
      w.GetCurrentKlines (Normalize w.unicodeUpper symbol) "4h" = .error e →
      Get rnd w symbol = some (.error ("获取4小时K线失败: " ++ e))) ∧
    (∀ e e' : String, "获取5分钟K线失败: " ++ e ≠ "获取30分钟K线失败: " ++ e') ∧
    (∀ e e' : String, "获取5分钟K线失败: " ++ e ≠ "获取4小时K线失败: " ++ e') ∧
    (∀ e e' : String, "获取30分钟K线失败: " ++ e ≠ "获取4小时K线失败: " ++ e') := by
  refine ⟨?_, ?_, ?_, message_5m_ne_30m, message_5m_ne_4h, message_30m_ne_4h⟩
  · intro e h5
    unfold Get
    simp only [h5]
  · intro k5 e h5 h30
    unfold Get
    simp only [h5, h30]
  · intro k5 k30 e h5 h30 h4h
    unfold Get
    simp only [h5, h30, h4h]

theorem getFundingRate_error (w : World) (symbol : String) (e : String)
    (h : (getFundingRate w symbol).2 = some e) : (getFundingRate w symbol).1 = 0 := by
  unfold getFundingRate at h ⊢
  cases hb : w.httpGetBody ("https://fapi.binance.com/fapi/v1/premiumIndex?symbol=" ++ symbol) with
  | error err => simp [hb]
  | ok body =>
    cases hu : w.unmarshalLastFundingRate body with
    | error err => simp [hb, hu]
    | ok result => simp [hb, hu] at h

/-- C15 (as amended): a failure of the market context is not fatal, in exact
arithmetic and under every monotone rounding that leaves 0, 1 and 100 unchanged.
When the three candle fetches succeed, the short series is not empty and the
three aggregations return (no call into the indicator library panics), `Get`
returns a snapshot and no error even if the open-interest fetch and the
funding-rate fetch both fail; that snapshot has
`OpenInterest = {Latest: 0, Average: 0}` and `FundingRate = 0`; and whatever the
HTTP and parsing calls do instead, `Get` returns a snapshot that differs from it
in no field other than `OpenInterest` and `FundingRate`. -/
theorem Get_market_context_failure (rnd : Rounding) (hmono : Monotone rnd) (h0 : rnd 0 = 0)
    (h1 : rnd 1 = 1) (h100 : rnd 100 = 100) (w : World) (symbol : String)
    (k5 k30 k4h : List Kline) (intraday : IntradayData) (middle longer : LongerTermData)
    (cur : Kline) (e1 e2 : String)
    (h5 : w.GetCurrentKlines (Normalize w.unicodeUpper symbol) "5m" = .ok k5)
    (h30 : w.GetCurrentKlines (Normalize w.unicodeUpper symbol) "30m" = .ok k30)
    (h4h : w.GetCurrentKlines (Normalize w.unicodeUpper symbol) "4h" = .ok k4h)
    (hcur : k5.getLast? = some cur)
    (hi : calculateIntradaySeries w k5 = some intraday)
    (hm : calculateLongerTermData rnd w k30 = some middle)
    (hl : calculateLongerTermData rnd w k4h = some longer)
    (hoi : getOpenInterestData rnd w (Normalize w.unicodeUpper symbol) = .error e1)
    (hfr : (getFundingRate w (Normalize w.unicodeUpper symbol)).2 = some e2) :
    ∃ d : Data, Get rnd w symbol = some (.ok d) ∧
      d.OpenInterest = some { Latest := 0, Average := 0 } ∧ d.FundingRate = 0 ∧
      ∀ (http uo uf : String → Except String String) (pf : String → ℚ),
        ∃ d' : Data,
          Get rnd { w with
            httpGetBody := http
            unmarshalOpenInterest := uo
            unmarshalLastFundingRate := uf
            parseFloat := pf } symbol = some (.ok d') ∧
          { d' with OpenInterest := d.OpenInterest, FundingRate := d.FundingRate } = d := by
  obtain ⟨e20, macd, rsi, v1, v4, he20, hmacd, hrsi, hv1, hv4, hget⟩ :=
    Get_snapshot rnd hmono h0 h1 h100 w symbol k5 k30 k4h intraday middle longer cur h5 h30 h4h
      hcur hi hm hl
  refine ⟨_, hget, ?_, ?_, ?_⟩
  · simp only [hoi]
  · exact getFundingRate_error w (Normalize w.unicodeUpper symbol) e2 hfr
  · intro http uo uf pf
    obtain ⟨e20', macd', rsi', v1', v4', he20', hmacd', hrsi', hv1', hv4', hget'⟩ :=
      Get_snapshot rnd hmono h0 h1 h100
        { w with
          httpGetBody := http
          unmarshalOpenInterest := uo
          unmarshalLastFundingRate := uf
          parseFloat := pf } symbol k5 k30 k4h intraday middle longer cur h5 h30 h4h hcur hi hm hl
    refine ⟨_, hget', ?_⟩
    have a1 : e20' = e20 := Option.some.inj (he20'.symm.trans he20)
    have a2 : macd' = macd := Option.some.inj (hmacd'.symm.trans hmacd)
    have a3 : rsi' = rsi := Option.some.inj (hrsi'.symm.trans hrsi)
    have a4 : v1' = v1 := Option.some.inj (hv1'.symm.trans hv1)
    have a5 : v4' = v4 := Option.some.inj (hv4'.symm.trans hv4)
    simp only [a1, a2, a3, a4, a5]

/-- C15 (as amended) at a concrete input: float64 arithmetic, the world
`strictWorld`, whose HTTP calls all fail, with 60 candles on each timeframe. -/
theorem Get_market_context_failure_witness :
    ∃ d : Data, Get binary64 (strictWorld risingSeries flatSeries flatSeries) "btc"
        = some (.ok d) ∧
      d.OpenInterest = some { Latest := 0, Average := 0 } ∧ d.FundingRate = 0 := by
  have hi : (calculateIntradaySeries (strictWorld risingSeries flatSeries flatSeries)
      risingSeries).isSome = true := by decide!
  have hm : (calculateLongerTermData binary64 (strictWorld risingSeries flatSeries flatSeries)
      flatSeries).isSome = true := by decide!
  obtain ⟨intraday, hi⟩ := Option.isSome_iff_exists.mp hi
  obtain ⟨middle, hm⟩ := Option.isSome_iff_exists.mp hm
  obtain ⟨d, hd, hoi, hfr, -⟩ := Get_market_context_failure binary64 monotone_binary64
    binary64_fixed.1 binary64_fixed.2.1 binary64_fixed.2.2
    (strictWorld risingSeries flatSeries flatSeries) "btc" risingSeries flatSeries
    flatSeries intraday middle middle ⟨3, 3, 3, 3, 1⟩ "offline" "offline" rfl rfl rfl
    (by decide!) hi hm hm rfl rfl
  exact ⟨d, hd, hoi, hfr⟩

/-- C15 as stated fails when a call into the indicator library panics: in the
world `strictWorld` with a short series of one candle, the three candle fetches
succeed, the short series is not empty, both market-context fetches fail, and
`Get` panics instead of returning a snapshot. -/
theorem Get_market_context_failure_counterexample :
    ((strictWorld [⟨1, 1, 1, 1, 1⟩] [] []).GetCurrentKlines (Normalize longSTable "btc")
      "5m").toOption = some [⟨1, 1, 1, 1, 1⟩] ∧
    ((strictWorld [⟨1, 1, 1, 1, 1⟩] [] []).GetCurrentKlines (Normalize longSTable "btc")
      "30m").toOption = some [] ∧
    ((strictWorld [⟨1, 1, 1, 1, 1⟩] [] []).GetCurrentKlines (Normalize longSTable "btc")
      "4h").toOption = some [] ∧
    (getOpenInterestData exactArith (strictWorld [⟨1, 1, 1, 1, 1⟩] [] [])
      (Normalize longSTable "btc")).toOption = none ∧
    (getFundingRate (strictWorld [⟨1, 1, 1, 1, 1⟩] [] []) (Normalize longSTable "btc")).2
      = some "offline" ∧
    (Get exactArith (strictWorld [⟨1, 1, 1, 1, 1⟩] [] []) "btc").isNone = true := by
  decide!

/-! ## The aggregators -/

theorem calculateATR_total (rnd : Rounding) (s : List Kline) (period : Int) (hp : 1 ≤ period) :
    ∃ a : ℚ, calculateATR rnd s period = some a := by
  by_cases hlen : (s.length : Int) ≤ period
  · exact ⟨0, by simp [calculateATR, hlen]⟩
  · obtain ⟨n, rfl⟩ := Int.eq_ofNat_of_zero_le (by omega : 0 ≤ period)
    exact ⟨_, calculateATR_eq rnd s n (by omega) (by omega)⟩

/-- The result of `calculateLongerTermData`: when the two calls into the
indicator library return, the aggregator returns the five scalar indicators, the
volume statistics and the sequences of the library, unchanged. -/
theorem calculateLongerTermData_eq (rnd : Rounding) (w : World) (s : List Kline)
    (m : List ℚ × List ℚ × List ℚ) (r : List ℚ)
    (hm : w.Macd (s.map (fun k => k.Close)) 12 26 9 = some m)
    (hr : w.Rsi (s.map (fun k => k.Close)) 14 = some r) :
    ∃ e5 e20 e50 a3 a14 : ℚ,
      calculateEMA rnd s 5 = some e5 ∧ calculateEMA rnd s 20 = some e20 ∧
      calculateEMA rnd s 50 = some e50 ∧ calculateATR rnd s 3 = some a3 ∧
      calculateATR rnd s 14 = some a14 ∧
      calculateLongerTermData rnd w s = some {
        EMA5 := e5
        EMA20 := e20
        EMA50 := e50
        ATR3 := a3
        ATR14 := a14
        CurrentVolume := (volumeStats rnd s).1
        AverageVolume := (volumeStats rnd s).2
        MACDValues := m.1
        MacdSignalValues := m.2.1
        MACDHistValues := m.2.2
        RSI14Values := r } := by
  obtain ⟨e5, he5⟩ := calculateEMA_total rnd s 5 (by decide)
  obtain ⟨e20, he20⟩ := calculateEMA_total rnd s 20 (by decide)
  obtain ⟨e50, he50⟩ := calculateEMA_total rnd s 50 (by decide)
  obtain ⟨a3, ha3⟩ := calculateATR_total rnd s 3 (by decide)
  obtain ⟨a14, ha14⟩ := calculateATR_total rnd s 14 (by decide)
  refine ⟨e5, e20, e50, a3, a14, he5, he20, he50, ha3, ha14, ?_⟩
  unfold calculateLongerTermData
  simp only [he5, he20, he50, ha3, ha14, hm, hr, Option.bind_eq_bind, Option.some_bind]
  cases hlast : s.getLast? with
  | none =>
    have hs : s = [] := List.getLast?_eq_none_iff.mp hlast
    subst hs
    simp [volumeStats]
  | some last =>
    have hne : s ≠ [] := by
      intro h0
      simp [h0] at hlast
    have hpos : s.length > 0 := List.length_pos.mpr hne
    have hlen0 : ((s.length : ℚ)) ≠ 0 := by
      have : 0 < s.length := hpos
      positivity
    simp only [if_pos hpos, index_last s last hlast, fdiv_of_ne rnd _ _ hlen0,
      Option.bind_eq_bind, Option.some_bind, volumeStats, hlast]
    rfl

theorem foldl_add_volume (ks : List Kline) (init : ℚ) :
    ks.foldl (fun a k => a + k.Volume) init = init + (ks.map Kline.Volume).sum := by
  induction ks generalizing init with
  | nil => simp
  | cons k t ih => simp [List.foldl_cons, ih, add_assoc]

/-- C17 (as amended): the volume statistics of the aggregator, in float64
operations. For every non-empty candle series `s` on which the two calls into
the indicator library return (`go-talib` panics on a series shorter than its
periods), under every rounding `calculateLongerTermData(s)` returns a value whose
`CurrentVolume` is the volume of the last candle of `s` and whose `AverageVolume`
is the rounded quotient by `len(s)` of the left-to-right rounded sum of the
volumes of all candles of `s`, which in exact arithmetic is the arithmetic mean
of those volumes. -/
theorem calculateLongerTermData_volume (rnd : Rounding) (w : World) (s : List Kline)
    (m : List ℚ × List ℚ × List ℚ) (r : List ℚ) (last : Kline)
    (hm : w.Macd (s.map (fun k => k.Close)) 12 26 9 = some m)
    (hr : w.Rsi (s.map (fun k => k.Close)) 14 = some r)
    (hlast : s.getLast? = some last) :
    (∃ d : LongerTermData, calculateLongerTermData rnd w s = some d ∧
      d.CurrentVolume = last.Volume ∧
      d.AverageVolume = rnd (s.foldl (fun sum k => rnd (sum + k.Volume)) 0 / (s.length : ℚ))) ∧
    (∃ d : LongerTermData, calculateLongerTermData exactArith w s = some d ∧
      d.CurrentVolume = last.Volume ∧
      d.AverageVolume = (s.map Kline.Volume).sum / (s.length : ℚ)) := by
  obtain ⟨e5, e20, e50, a3, a14, -, -, -, -, -, hd⟩ :=
    calculateLongerTermData_eq rnd w s m r hm hr
  obtain ⟨e5', e20', e50', a3', a14', -, -, -, -, -, hd'⟩ :=
    calculateLongerTermData_eq exactArith w s m r hm hr
  refine ⟨⟨_, hd, ?_, ?_⟩, ⟨_, hd', ?_, ?_⟩⟩
  · simp [volumeStats, hlast]
  · simp [volumeStats, hlast, fadd]
  · simp [volumeStats, hlast]
  · simp [volumeStats, hlast, foldl_add_volume]

/-- C17 (as amended) at a concrete input: exact arithmetic, the sixty candles of
`volumeSeries`, whose volumes are 59 times 5 and then 65. -/
theorem calculateLongerTermData_volume_witness :
    ∃ d : LongerTermData,
      calculateLongerTermData exactArith (strictWorld [] [] []) volumeSeries = some d ∧
      d.CurrentVolume = 65 ∧ d.AverageVolume = 6 := by
  have hm : ((strictWorld [] [] []).Macd (volumeSeries.map (fun k => k.Close)) 12 26 9).isSome
      = true := by decide!
  have hr : ((strictWorld [] [] []).Rsi (volumeSeries.map (fun k => k.Close)) 14).isSome
      = true := by decide!
  obtain ⟨m, hm⟩ := Option.isSome_iff_exists.mp hm
  obtain ⟨r, hr⟩ := Option.isSome_iff_exists.mp hr
  obtain ⟨d, hd, hcur, havg⟩ := (calculateLongerTermData_volume exactArith (strictWorld [] [] [])
    volumeSeries m r ⟨1, 1, 1, 1, 65⟩ hm hr (by decide!)).2
  refine ⟨d, hd, hcur, ?_⟩
  rw [havg]
  decide!

/-- C17 as stated fails in float64 arithmetic and on the empty series. On sixty
candles whose volume is the binary64 number nearest to 0.1 the arithmetic mean
of the volumes is that number, `3602879701896397 / 2^55`, and
`calculateLongerTermData` gives `AverageVolume = 7205759403792787 / 2^56`. On the
empty series the call into the indicator library panics and the aggregator
returns no value. -/
theorem calculateLongerTermData_volume_counterexample :
    tenthVolumeSeries.length = 60 ∧
    (tenthVolumeSeries.map Kline.Volume).sum / 60 = tenth ∧
    (calculateLongerTermData binary64 (strictWorld [] [] []) tenthVolumeSeries).map
      (fun d => d.AverageVolume) = some (7205759403792787 / 72057594037927936) ∧
    (7205759403792787 / 72057594037927936 : ℚ) ≠ tenth ∧
    (calculateLongerTermData binary64 (strictWorld [] [] []) []).isNone = true := by
  decide!

theorem calculateLongerTermData_none (rnd : Rounding) (w : World) (s : List Kline)
    (h : w.Macd (s.map (fun k => k.Close)) 12 26 9 = none
      ∨ w.Rsi (s.map (fun k => k.Close)) 14 = none) :
    calculateLongerTermData rnd w s = none := by
  unfold calculateLongerTermData
  rcases h with h | h
  · simp only [h, Option.bind_eq_bind, Option.none_bind]
    split <;> simp
  · simp only [h, Option.bind_eq_bind, Option.none_bind]
    split <;> simp

theorem calculateEMA_short (rnd : Rounding) (s : List Kline) (period : Int)
    (h : (s.length : Int) < period) : calculateEMA rnd s period = some 0 := by
  simp [calculateEMA, h]

theorem calculateATR_short (rnd : Rounding) (s : List Kline) (period : Int)
    (h : (s.length : Int) ≤ period) : calculateATR rnd s period = some 0 := by
  simp [calculateATR, h]

/-- `calculateIntradaySeries` returns exactly when its eight calls into the
indicator library return. -/
theorem calculateIntradaySeries_isSome (w : World) (s : List Kline) :
    (calculateIntradaySeries w s).isSome = true ↔
      ((w.Macd (s.map (fun k => k.Close)) 12 26 9).isSome = true ∧
        (w.Ema (s.map (fun k => k.Close)) 5).isSome = true ∧
        (w.Ema (s.map (fun k => k.Close)) 20).isSome = true ∧
        (w.Ema (s.map (fun k => k.Close)) 50).isSome = true ∧
        (w.Rsi (s.map (fun k => k.Close)) 7).isSome = true ∧
        (w.Rsi (s.map (fun k => k.Close)) 14).isSome = true ∧
        (w.Adx (s.map (fun k => k.Close)) (s.map (fun k => k.Close))
          (s.map (fun k => k.Close)) 7).isSome = true ∧
        (w.Adx (s.map (fun k => k.Close)) (s.map (fun k => k.Close))
          (s.map (fun k => k.Close)) 14).isSome = true) := by
  cases hmacd : w.Macd (s.map (fun k => k.Close)) 12 26 9 with
  | none => simp [calculateIntradaySeries, hmacd]
  | some macd =>
    cases hema5 : w.Ema (s.map (fun k => k.Close)) 5 with
    | none => simp [calculateIntradaySeries, hmacd, hema5]
    | some ema5 =>
      cases hema20 : w.Ema (s.map (fun k => k.Close)) 20 with
      | none => simp [calculateIntradaySeries, hmacd, hema5, hema20]
      | some ema20 =>
        cases hema50 : w.Ema (s.map (fun k => k.Close)) 50 with
        | none => simp [calculateIntradaySeries, hmacd, hema5, hema20, hema50]
        | some ema50 =>
          cases hrsi7 : w.Rsi (s.map (fun k => k.Close)) 7 with
          | none => simp [calculateIntradaySeries, hmacd, hema5, hema20, hema50, hrsi7]
          | some rsi7 =>
            cases hrsi14 : w.Rsi (s.map (fun k => k.Close)) 14 with
            | none => simp [calculateIntradaySeries, hmacd, hema5, hema20, hema50, hrsi7, hrsi14]
            | some rsi14 =>
              cases hadx7 : w.Adx (s.map (fun k => k.Close)) (s.map (fun k => k.Close)) (s.map (fun k => k.Close)) 7 with
              | none => simp [calculateIntradaySeries, hmacd, hema5, hema20, hema50, hrsi7, hrsi14, hadx7]
              | some adx7 =>
                cases hadx14 : w.Adx (s.map (fun k => k.Close)) (s.map (fun k => k.Close)) (s.map (fun k => k.Close)) 14 with
                | none => simp [calculateIntradaySeries, hmacd, hema5, hema20, hema50, hrsi7, hrsi14, hadx7, hadx14]
                | some adx14 =>
                  simp [calculateIntradaySeries, hmacd, hema5, hema20, hema50, hrsi7, hrsi14, hadx7, hadx14]

/-- The sequences of a value returned by `calculateIntradaySeries` are the
closes and what the indicator library returned, unchanged. -/
theorem calculateIntradaySeries_fields (w : World) (s : List Kline) (i : IntradayData)
    (h : calculateIntradaySeries w s = some i) :
    i.MidPrices = s.map (fun k => k.Close) ∧
    w.Macd (s.map (fun k => k.Close)) 12 26 9
      = some (i.MACDValues, i.MACDSignalValues, i.MACDHistValues) ∧
    w.Ema (s.map (fun k => k.Close)) 5 = some i.EMA5Values ∧
    w.Ema (s.map (fun k => k.Close)) 20 = some i.EMA20Values ∧
    w.Ema (s.map (fun k => k.Close)) 50 = some i.EMA50Values ∧
    w.Rsi (s.map (fun k => k.Close)) 7 = some i.RSI7Values ∧
    w.Rsi (s.map (fun k => k.Close)) 14 = some i.RSI14Values ∧
    w.Adx (s.map (fun k => k.Close)) (s.map (fun k => k.Close)) (s.map (fun k => k.Close)) 7
      = some i.Adx7Values ∧
    w.Adx (s.map (fun k => k.Close)) (s.map (fun k => k.Close)) (s.map (fun k => k.Close)) 14
      = some i.Adx14Values := by
  unfold calculateIntradaySeries at h
  simp only [Option.bind_eq_bind, Option.bind_eq_some] at h
  obtain ⟨macd, hmacd, ema5, hema5, ema20, hema20, ema50, hema50, rsi7, hrsi7, rsi14, hrsi14,
    adx7, hadx7, adx14, hadx14, hpure⟩ := h
  have hi : i = _ := (Option.some.inj hpure).symm
  subst hi
  exact ⟨rfl, hmacd, hema5, hema20, hema50, hrsi7, hrsi14, hadx7, hadx14⟩

/-- `calculateLongerTermData` returns exactly when its two calls into the
indicator library return. -/
theorem calculateLongerTermData_isSome (rnd : Rounding) (w : World) (s : List Kline) :
    (calculateLongerTermData rnd w s).isSome = true ↔
      ((w.Macd (s.map (fun k => k.Close)) 12 26 9).isSome = true ∧
        (w.Rsi (s.map (fun k => k.Close)) 14).isSome = true) := by
  cases hm : w.Macd (s.map (fun k => k.Close)) 12 26 9 with
  | none => simp [calculateLongerTermData_none rnd w s (Or.inl hm)]
  | some m =>
    cases hr : w.Rsi (s.map (fun k => k.Close)) 14 with
    | none => simp [calculateLongerTermData_none rnd w s (Or.inr hr)]
    | some r =>
      obtain ⟨e5, e20, e50, a3, a14, -, -, -, -, -, hd⟩ :=
        calculateLongerTermData_eq rnd w s m r hm hr
      simp [hd]

/-- The fields of a value returned by `calculateLongerTermData`: a scalar
indicator whose warm-up period exceeds the length of the series is 0, and the
sequences are what the indicator library returned, unchanged. -/
theorem calculateLongerTermData_fields (rnd : Rounding) (w : World) (s : List Kline)
    (d : LongerTermData) (h : calculateLongerTermData rnd w s = some d) :
    (s.length < 5 → d.EMA5 = 0) ∧ (s.length < 20 → d.EMA20 = 0) ∧
    (s.length < 50 → d.EMA50 = 0) ∧ (s.length ≤ 3 → d.ATR3 = 0) ∧
    (s.length ≤ 14 → d.ATR14 = 0) ∧
    w.Macd (s.map (fun k => k.Close)) 12 26 9
      = some (d.MACDValues, d.MacdSignalValues, d.MACDHistValues) ∧
    w.Rsi (s.map (fun k => k.Close)) 14 = some d.RSI14Values := by
  cases hm : w.Macd (s.map (fun k => k.Close)) 12 26 9 with
  | none =>
    rw [calculateLongerTermData_none rnd w s (Or.inl hm)] at h
    exact absurd h (by simp)
  | some m =>
    cases hr : w.Rsi (s.map (fun k => k.Close)) 14 with
    | none =>
      rw [calculateLongerTermData_none rnd w s (Or.inr hr)] at h
      exact absurd h (by simp)
    | some r =>
      obtain ⟨e5, e20, e50, a3, a14, he5, he20, he50, ha3, ha14, hd⟩ :=
        calculateLongerTermData_eq rnd w s m r hm hr
      rw [hd] at h
      have hdd : d = _ := (Option.some.inj h).symm
      subst hdd
      refine ⟨?_, ?_, ?_, ?_, ?_, rfl, rfl⟩
      · intro hs
        have := calculateEMA_short rnd s 5 (by omega)
        rw [he5] at this
        exact Option.some.inj this
      · intro hs
        have := calculateEMA_short rnd s 20 (by omega)
        rw [he20] at this
        exact Option.some.inj this
      · intro hs
        have := calculateEMA_short rnd s 50 (by omega)
        rw [he50] at this
        exact Option.some.inj this
      · intro hs
        have := calculateATR_short rnd s 3 (by omega)
        rw [ha3] at this
        exact Option.some.inj this
      · intro hs
        have := calculateATR_short rnd s 14 (by omega)
        rw [ha14] at this
        exact Option.some.inj this

/-- C18 fails in the code on short series. In the world `strictWorld`, whose
indicator library panics on an input shorter than its period as `go-talib` does,
`calculateLongerTermData` and `calculateIntradaySeries` panic on the five candles
of `fiveCandles` and on the empty series instead of returning zero scalars and
empty sequences, although the scalar indicators of the same function take their
early return on these series (EMA20 = 0 and ATR14 = 0 on five candles). -/
theorem aggregators_short_series_panic :
    fiveCandles.length = 5 ∧
    calculateEMA binary64 fiveCandles 20 = some 0 ∧
    calculateATR binary64 fiveCandles 14 = some 0 ∧
    (calculateLongerTermData binary64 (strictWorld [] [] []) fiveCandles).isNone = true ∧
    (calculateIntradaySeries (strictWorld [] [] []) fiveCandles).isNone = true ∧
    (calculateLongerTermData binary64 (strictWorld [] [] []) []).isNone = true ∧
    (calculateIntradaySeries (strictWorld [] [] []) []).isNone = true := by
  decide!

/-! ## calculateEMA: range -/

theorem sum_close_ge (lo : ℚ) (l : List Kline) (hl : ∀ k ∈ l, lo ≤ k.Close) :
    (l.length : ℚ) * lo ≤ (l.map Kline.Close).sum := by
  induction l with
  | nil => simp
  | cons k t ih =>
    have hk : lo ≤ k.Close := hl k (List.mem_cons_self k t)
    have ht := ih (fun x hx => hl x (List.mem_cons_of_mem k hx))
    simp only [List.map_cons, List.sum_cons, List.length_cons]
    push_cast
    linarith

theorem sum_close_le (hi : ℚ) (l : List Kline) (hl : ∀ k ∈ l, k.Close ≤ hi) :
    (l.map Kline.Close).sum ≤ (l.length : ℚ) * hi := by
  induction l with
  | nil => simp
  | cons k t ih =>
    have hk : k.Close ≤ hi := hl k (List.mem_cons_self k t)
    have ht := ih (fun x hx => hl x (List.mem_cons_of_mem k hx))
    simp only [List.map_cons, List.sum_cons, List.length_cons]
    push_cast
    linarith

/-- One smoothing step is a convex combination: with a multiplier in `[0, 1]`
it stays between any bounds that hold for the previous EMA and the close. -/
theorem emaStep_exact_bounds (m lo hi e : ℚ) (k : Kline) (hm0 : 0 ≤ m) (hm1 : m ≤ 1)
    (he : lo ≤ e ∧ e ≤ hi) (hk : lo ≤ k.Close ∧ k.Close ≤ hi) :
    lo ≤ emaStep exactArith m e k ∧ emaStep exactArith m e k ≤ hi := by
  simp only [emaStep, fadd_exact, fmul_exact, fsub_exact]
  constructor
  · nlinarith [mul_nonneg hm0 (sub_nonneg.mpr hk.1), mul_nonneg (sub_nonneg.mpr hm1)
      (sub_nonneg.mpr he.1)]
  · nlinarith [mul_nonneg hm0 (sub_nonneg.mpr hk.2), mul_nonneg (sub_nonneg.mpr hm1)
      (sub_nonneg.mpr he.2)]

/-- In exact arithmetic the EMA stays between any two bounds of the closes. -/
theorem calculateEMA_exact_bounds (n : Nat) (hn : 1 ≤ n) (s : List Kline) (hlen : n ≤ s.length)
    (lo hi : ℚ) (hlo : ∀ k ∈ s, lo ≤ k.Close) (hhi : ∀ k ∈ s, k.Close ≤ hi) :
    ∃ e : ℚ, calculateEMA exactArith s (n : Int) = some e ∧ lo ≤ e ∧ e ≤ hi := by
  refine ⟨_, calculateEMA_eq exactArith s n hn hlen, ?_⟩
  have hn0 : (0 : ℚ) < (n : ℚ) := by positivity
  have hl : (List.take n s).length = n := by simp [hlen]
  have hge := sum_close_ge lo (s.take n) (fun k hk => hlo k (List.mem_of_mem_take hk))
  have hle := sum_close_le hi (s.take n) (fun k hk => hhi k (List.mem_of_mem_take hk))
  rw [hl] at hge hle
  have hseed : lo ≤ emaSeed exactArith (s.take n) (n : Int)
      ∧ emaSeed exactArith (s.take n) (n : Int) ≤ hi := by
    unfold emaSeed
    simp only [fadd_exact, exactArith_apply]
    rw [foldl_add_close, zero_add]
    push_cast
    constructor
    · rw [le_div_iff₀ hn0]
      linarith
    · rw [div_le_iff₀ hn0]
      linarith
  have hm0 : (0 : ℚ) ≤ exactArith (2 / (((n : Int) + 1 : Int) : ℚ)) := by
    simp only [exactArith_apply]
    push_cast
    positivity
  have hm1 : exactArith (2 / (((n : Int) + 1 : Int) : ℚ)) ≤ 1 := by
    simp only [exactArith_apply]
    push_cast
    rw [div_le_one (by positivity)]
    have : (1 : ℚ) ≤ (n : ℚ) := by exact_mod_cast hn
    linarith
  exact foldl_invariant_mem (fun e : ℚ => lo ≤ e ∧ e ≤ hi) _ _
    (fun e k hk he => emaStep_exact_bounds _ lo hi e k hm0 hm1 he
      ⟨hlo k (List.mem_of_mem_drop hk), hhi k (List.mem_of_mem_drop hk)⟩)
    _ hseed

/-- C19 (as amended): in exact arithmetic the EMA stays inside the range of its
input: for every period `p >= 1` and every series `s` with `len(s) >= p`, with
`mn` the minimum and `mx` the maximum of the closes of `s`, `calculateEMA(s, p)`
returns a value `e` with `mn <= e <= mx`. -/
theorem calculateEMA_within_range (p : Int) (hp : 1 ≤ p) (s : List Kline)
    (hlen : p ≤ (s.length : Int)) (mn mx : ℚ)
    (hmn : (s.map Kline.Close).minimum = (mn : WithTop ℚ))
    (hmx : (s.map Kline.Close).maximum = (mx : WithBot ℚ)) :
    ∃ e : ℚ, calculateEMA exactArith s p = some e ∧ mn ≤ e ∧ e ≤ mx := by
  obtain ⟨n, rfl⟩ := Int.eq_ofNat_of_zero_le (by omega : 0 ≤ p)
  exact calculateEMA_exact_bounds n (by omega) s (by omega) mn mx
    (fun k hk => List.minimum_le_of_mem (List.mem_map_of_mem Kline.Close hk) hmn)
    (fun k hk => List.le_maximum_of_mem (List.mem_map_of_mem Kline.Close hk) hmx)

/-- C19 (as amended) at a concrete input: period 2 and the closes 1, 2, 4, 8,
whose minimum is 1 and whose maximum is 8. -/
theorem calculateEMA_within_range_witness :
    (1 : Int) ≤ 2 ∧
    ∃ e : ℚ, calculateEMA exactArith
      [⟨0, 0, 0, 1, 0⟩, ⟨0, 0, 0, 2, 0⟩, ⟨0, 0, 0, 4, 0⟩, ⟨0, 0, 0, 8, 0⟩] 2 = some e ∧
      1 ≤ e ∧ e ≤ 8 :=
  ⟨by decide, calculateEMA_within_range 2 (by decide)
    [⟨0, 0, 0, 1, 0⟩, ⟨0, 0, 0, 2, 0⟩, ⟨0, 0, 0, 4, 0⟩, ⟨0, 0, 0, 8, 0⟩] (by decide) 1 8
    (by decide!) (by decide!)⟩

/-- C19 as stated fails in float64 arithmetic: on 30 candles whose close is the
binary64 number nearest to 0.1, so that the minimum and the maximum of the closes
are that number, `calculateEMA` with period 20 returns `7205759403792795 / 2^56`,
which is above the maximum. -/
theorem calculateEMA_within_range_binary64_counterexample :
    (List.replicate 30 (⟨tenth, tenth, tenth, tenth, 1⟩ : Kline)).map Kline.Close
      = List.replicate 30 tenth ∧
    calculateEMA binary64 (List.replicate 30 ⟨tenth, tenth, tenth, tenth, 1⟩) 20
      = some (7205759403792795 / 72057594037927936) ∧
    tenth < 7205759403792795 / 72057594037927936 := by
  decide!

/-! ## Format: the tail windows -/

theorem sliceFrom_lastTen (xs : List ℚ) (low : Int) (hlen : 10 ≤ xs.length)
    (hlow : low = (xs.length : Int) - 10) : sliceFrom xs low = some (lastTen xs) := by
  subst hlow
  have h1 : ¬ ((xs.length : Int) - 10 < 0 ∨ (xs.length : Int) < (xs.length : Int) - 10) := by omega
  have h2 : ((xs.length : Int) - 10).toNat = xs.length - 10 := by omega
  simp only [sliceFrom, if_neg h1, h2, lastTen]

/-- The loop of `formatFloatSlice` fills `strValues` with the `%.3f` rendering of
each value, so the function returns the printed list of its argument. -/
theorem formatFloatSlice_eq (F : FloatFormat) (values : List ℚ) :
    formatFloatSlice F values = some (printedList F values) := by
  obtain ⟨r, hr, hlen, hk⟩ := forLoop_invariant 0 (values.length : Int) (by omega)
    (fun i strValues => do
      let v ← index values i
      setIndex strValues i (F.f3 v))
    (fun i strValues => strValues.length = values.length ∧
      ∀ k : Nat, (k : Int) < i → strValues[k]? = (values.map F.f3)[k]?)
    (List.replicate values.length "")
    ⟨by simp, fun k hk => by omega⟩
    (by
      intro i strs hi1 hi2 hinv
      obtain ⟨hl, hk⟩ := hinv
      obtain ⟨j, rfl⟩ := Int.eq_ofNat_of_zero_le (by omega : 0 ≤ i)
      have hj2 : j < values.length := by omega
      have hset : setIndex strs (j : Int) (F.f3 (values.get ⟨j, hj2⟩))
          = some (strs.set j (F.f3 (values.get ⟨j, hj2⟩))) := by
        have : ¬ ((j : Int) < 0 ∨ (strs.length : Int) ≤ (j : Int)) := by omega
        unfold setIndex
        rw [if_neg this]
        simp
      refine ⟨strs.set j (F.f3 (values.get ⟨j, hj2⟩)), ?_, ?_, ?_⟩
      · beta_reduce
        have hidx := index_eq_get values j hj2
        rw [hidx]
        exact hset
      · simp [hl]
      · intro k hk2
        by_cases hkj : k = j
        · subst hkj
          rw [List.getElem?_set_self (by omega)]
          simp [List.getElem?_eq_getElem hj2]
        · rw [List.getElem?_set_ne (by omega)]
          exact hk k (by omega))
  have hrv : r = values.map F.f3 := by
    apply List.ext_getElem?
    intro m
    by_cases hm : m < values.length
    · exact hk m (by omega)
    · rw [List.getElem?_eq_none (by omega), List.getElem?_eq_none (by simp; omega)]
  unfold formatFloatSlice
  rw [hr, hrv]
  rfl

theorem writeSeries_eq (F : FloatFormat) (sb : String) (b : SeriesBlock)
    (h : b.values = [] ∨ (10 ≤ b.values.length ∧ b.low = (b.values.length : Int) - 10)) :
    writeSeries F sb b = some (writeLastTen F sb b) := by
  unfold writeSeries writeLastTen
  rcases h with h | ⟨hlen, hlow⟩
  · simp [h]
  · have hpos : b.values.length > 0 := by omega
    rw [if_pos hpos, if_pos hpos, sliceFrom_lastTen b.values b.low hlen hlow]
    simp only [Option.bind_eq_bind, Option.some_bind, formatFloatSlice_eq]
    rfl

theorem foldlM_writeSeries (F : FloatFormat) (bs : List SeriesBlock)
    (h : ∀ b ∈ bs, b.values = [] ∨ (10 ≤ b.values.length ∧ b.low = (b.values.length : Int) - 10))
    (sb : String) : bs.foldlM (writeSeries F) sb = some (bs.foldl (writeLastTen F) sb) := by
  induction bs generalizing sb with
  | nil => rfl
  | cons b t ih =>
    rw [List.foldlM_cons, writeSeries_eq F sb b (h b (List.mem_cons_self b t))]
    exact ih (fun x hx => h x (List.mem_cons_of_mem b hx)) _

theorem intradayBlocks_ok (i : IntradayData) (n : Nat) (hn : 10 ≤ n)
    (h : intradaySameLength i n) :
    ∀ b ∈ intradayBlocks i,
      b.values = [] ∨ (10 ≤ b.values.length ∧ b.low = (b.values.length : Int) - 10) := by
  obtain ⟨h1, h2, h3, h4, h5, h6, h7, h8, h9, h10, h11⟩ := h
  intro b hb
  simp only [intradayBlocks, List.mem_cons, List.mem_singleton, List.not_mem_nil,
    or_false] at hb
  rcases hb with rfl | rfl | rfl | rfl | rfl | rfl | rfl | rfl | rfl | rfl | rfl
  all_goals (refine Or.inr ⟨?_, ?_⟩ <;> dsimp only <;> omega)

theorem middleTermBlocks_ok (m : LongerTermData) (h : middleTermEmptyOrTen m) :
    ∀ b ∈ middleTermBlocks m,
      b.values = [] ∨ (10 ≤ b.values.length ∧ b.low = (b.values.length : Int) - 10) := by
  obtain ⟨h1, h2, h3, h4⟩ := h
  intro b hb
  simp only [middleTermBlocks, List.mem_cons, List.mem_singleton, List.not_mem_nil,
    or_false] at hb
  rcases hb with rfl | rfl | rfl | rfl
  · exact h1.imp id (fun h => ⟨h, rfl⟩)
  · exact h2.imp id (fun h => ⟨h, rfl⟩)
  · exact h3.imp id (fun h => ⟨h, rfl⟩)
  · exact h4.imp id (fun h => ⟨h, rfl⟩)

theorem lastTen_length (xs : List ℚ) (h : 10 ≤ xs.length) : (lastTen xs).length = 10 := by
  unfold lastTen
  simp
  omega

/-- The `j`-th value of the last ten is the value at index `len - 10 + j` of the
sequence: the window keeps the order of the sequence, oldest first. -/
theorem lastTen_getElem? (xs : List ℚ) (j : Nat) :
    (lastTen xs)[j]? = xs[xs.length - 10 + j]? := by
  unfold lastTen
  rw [List.getElem?_drop]

/-- C20: `Format` renders the tail-10 windows safely under the length
precondition. For every snapshot whose eleven intraday sequences (when the
intraday pointer is not nil) all have the same length `n >= 10` and whose four
medium-term sequences (when that pointer is not nil) are each empty or of length
at least 10, no slice expression of `Format` is out of range (`Format` returns
its text); the text is the one in which every block with a non-empty sequence
prints its label and, between brackets and separated by ", ", the `%.3f`
renderings of the last 10 values of that same sequence, oldest first; and for
every such block the slice taken is that window, `formatFloatSlice` prints it
as that list, it has exactly 10 values and its `j`-th value is the value at
index `len - 10 + j` of the sequence. -/
theorem Format_tail_windows (F : FloatFormat) (data : Data) (n : Nat) (hn : 10 ≤ n)
    (hi : ∀ i : IntradayData, data.IntradaySeries = some i → intradaySameLength i n)
    (hm : ∀ m : LongerTermData, data.MiddleTermContext = some m → middleTermEmptyOrTen m) :
    Format F data = some (FormatLastTen F data) ∧
    ∀ b : SeriesBlock,
      ((∃ i : IntradayData, data.IntradaySeries = some i ∧ b ∈ intradayBlocks i) ∨
        (∃ m : LongerTermData, data.MiddleTermContext = some m ∧ b ∈ middleTermBlocks m)) →
      b.values ≠ [] →
        sliceFrom b.values b.low = some (lastTen b.values) ∧
        formatFloatSlice F (lastTen b.values)
          = some ("[" ++ ", ".intercalate ((lastTen b.values).map F.f3) ++ "]") ∧
        (lastTen b.values).length = 10 ∧
        ∀ j : Nat, (lastTen b.values)[j]? = b.values[b.values.length - 10 + j]? := by
  constructor
  · unfold Format FormatLastTen
    cases hI : data.IntradaySeries with
    | none =>
      cases hM : data.MiddleTermContext with
      | none => rfl
      | some m =>
        simp only [foldlM_writeSeries F _ (middleTermBlocks_ok m (hm m hM)),
          Option.bind_eq_bind, Option.some_bind, Option.pure_def]
    | some i =>
      cases hM : data.MiddleTermContext with
      | none =>
        simp only [foldlM_writeSeries F _ (intradayBlocks_ok i n hn (hi i hI)),
          Option.bind_eq_bind, Option.some_bind, Option.pure_def]
      | some m =>
        simp only [foldlM_writeSeries F _ (intradayBlocks_ok i n hn (hi i hI)),
          foldlM_writeSeries F _ (middleTermBlocks_ok m (hm m hM)),
          Option.bind_eq_bind, Option.some_bind, Option.pure_def]
  · intro b hb hne
    have hb2 : b.values = []
        ∨ (10 ≤ b.values.length ∧ b.low = (b.values.length : Int) - 10) := by
      rcases hb with ⟨i, hI, hb⟩ | ⟨m, hM, hb⟩
      · exact intradayBlocks_ok i n hn (hi i hI) b hb
      · exact middleTermBlocks_ok m (hm m hM) b hb
    rcases hb2 with h0 | ⟨hlen, hlow⟩
    · exact absurd h0 hne
    · exact ⟨sliceFrom_lastTen b.values b.low hlen hlow, formatFloatSlice_eq F _,
        lastTen_length b.values hlen, lastTen_getElem? b.values⟩

/-- C20 at a concrete input: the snapshot `sampleData`, whose intraday sequences
have 12 values each. `Format` returns the text `sampleText`, in which the list
of the `k`-th intraday sequence is `100 k + 3, ..., 100 k + 12`; and on the
snapshot `nilData`, whose pointers are nil, only the heading and the funding
rate are written. -/
theorem Format_tail_windows_witness :
    (10 ≤ 12) ∧
    (∀ i : IntradayData, sampleData.IntradaySeries = some i → intradaySameLength i 12) ∧
    (∀ m : LongerTermData, sampleData.MiddleTermContext = some m → middleTermEmptyOrTen m) ∧
    Format plainFormat sampleData = some (FormatLastTen plainFormat sampleData) ∧
    Format plainFormat sampleData = some sampleText ∧
    lastTen (twelveFrom 100) = [103, 104, 105, 106, 107, 108, 109, 110, 111, 112] ∧
    Format plainFormat nilData
      = some ("Here is the latest BTCUSDT open interest and funding rate for perps:\n\n"
          ++ "Funding Rate: 9/1\n\n") := by
  have hi : ∀ i : IntradayData, sampleData.IntradaySeries = some i →
      intradaySameLength i 12 := by
    intro i h
    have hi2 : i = _ := (Option.some.inj h).symm
    subst hi2
    exact ⟨rfl, rfl, rfl, rfl, rfl, rfl, rfl, rfl, rfl, rfl, rfl⟩
  have hm : ∀ m : LongerTermData, sampleData.MiddleTermContext = some m →
      middleTermEmptyOrTen m := by
    intro m h
    have hm2 : m = _ := (Option.some.inj h).symm
    subst hm2
    exact ⟨Or.inr (by decide), Or.inl rfl, Or.inl rfl, Or.inl rfl⟩
  exact ⟨by decide, hi, hm, (Format_tail_windows plainFormat sampleData 12 (by decide) hi hm).1,
    by decide!, by decide!, by decide!⟩

/-- Without the length precondition `Format` can panic: on the snapshot
`shortData`, whose intraday sequences have 5 values, the slice
`MidPrices[len(MidPrices)-10:]` has a negative lower index. -/
theorem Format_short_panics :
    shortData.IntradaySeries.map (fun i => sliceFrom i.MidPrices ((i.MidPrices.length : Int) - 10))
      = some none ∧
    (Format plainFormat shortData).isNone = true := by
  decide!

end Market
